import Mathlib

/-!
CinderBox2D: edge shape, distance proxy and motor joint.

A shallow embedding of

* `b2DistanceProxy::GetSupport` (`Collision/cb2Distance.h`),
* `b2EdgeShape::RayCast`, `ComputeAABB`, `ComputeMass`
  (`Collision/Shapes/cb2EdgeShape.cpp`),
* `cb2MotorJoint::InitVelocityConstraints`, `SolveVelocityConstraints`
  (`Dynamics/Joints/cb2MotorJoint.cpp`).

The C++ `float` is read as exact arithmetic in a linearly ordered field `F`
(rounding, infinities and NaN are outside the model).  The three `libm`
functions the code reaches (`sqrt` through `Vec2f::length`, `sin` and `cos`
through the `cb2Rot` constructor) are explicit parameters of the functions
that call them, so every definition runs on `ℚ` once they are supplied, and
each theorem names the property of them it depends on.

`b2EdgeShape::RayCast` is given a second time with the result of every
operation rounded (`RayCastFl`), and binary32 rounding is defined on `ℚ`
(`fl32`, `sqrt32`): the outcome of its test `denominator == 0.0f` is decided
by rounding on ordinary inputs.
-/

namespace CinderBox2D

/-! ## Vectors, rotations, transforms (`ci::Vec2f`, `cb2Math.h`) -/

/-- Two-component vector, the `ci::Vec2f` of the sources. -/
@[ext]
structure Vec2 (F : Type) where
  x : F
  y : F
deriving DecidableEq

/-- Rotation stored as sine and cosine (`b2Rot` / `cb2Rot`). -/
structure b2Rot (F : Type) where
  s : F
  c : F
deriving DecidableEq

/-- Rigid transform: translation `p` and rotation `q` (`b2Transform`). -/
structure b2Transform (F : Type) where
  p : Vec2 F
  q : b2Rot F
deriving DecidableEq

/-- Two by two matrix with the element names the sources use (`ci::Matrix22f`). -/
structure Matrix22 (F : Type) where
  m00 : F
  m01 : F
  m10 : F
  m11 : F
deriving DecidableEq

section Field

variable {F : Type} [LinearOrderedField F]

instance : Add (Vec2 F) := ⟨fun a b => ⟨a.x + b.x, a.y + b.y⟩⟩
instance : Sub (Vec2 F) := ⟨fun a b => ⟨a.x - b.x, a.y - b.y⟩⟩
instance : Neg (Vec2 F) := ⟨fun a => ⟨-a.x, -a.y⟩⟩
instance : SMul F (Vec2 F) := ⟨fun k a => ⟨k * a.x, k * a.y⟩⟩
instance : Zero (Vec2 F) := ⟨⟨0, 0⟩⟩

/-- Modelled from the spec: `b2Dot` of `cb2Math.h` (not among the sources), the
dot product of two vectors. -/
def b2Dot (a b : Vec2 F) : F := a.x * b.x + a.y * b.y

/-- Modelled from the spec: `cb2Cross` of `cb2Math.h` on two vectors, the
scalar `a.x * b.y - a.y * b.x`. -/
def cb2Cross (a b : Vec2 F) : F := a.x * b.y - a.y * b.x

/-- Modelled from the spec: `cb2Cross` of `cb2Math.h` on a scalar and a vector,
`s k % (x i + y j) = s * (-y i + x j)` as the header comment of
`cb2MotorJoint.cpp` records. -/
def cb2CrossSV (s : F) (a : Vec2 F) : Vec2 F := ⟨-s * a.y, s * a.x⟩

/-- Modelled from the spec: `b2Mul(q, v)` of `cb2Math.h`, rotate a vector. -/
def b2MulRot (q : b2Rot F) (v : Vec2 F) : Vec2 F :=
  ⟨q.c * v.x - q.s * v.y, q.s * v.x + q.c * v.y⟩

/-- Modelled from the spec: `b2MulT(q, v)` of `cb2Math.h`, rotate a vector by
the inverse rotation. -/
def b2MulT (q : b2Rot F) (v : Vec2 F) : Vec2 F :=
  ⟨q.c * v.x + q.s * v.y, -q.s * v.x + q.c * v.y⟩

/-- Modelled from the spec: `b2Mul(xf, v)` of `cb2Math.h`, apply a rigid
transform to a point (rotate, then translate). -/
def b2Mul (xf : b2Transform F) (v : Vec2 F) : Vec2 F :=
  ⟨xf.q.c * v.x - xf.q.s * v.y + xf.p.x, xf.q.s * v.x + xf.q.c * v.y + xf.p.y⟩

/-- Modelled from the spec: `b2Min` of `cb2Math.h`, the componentwise minimum. -/
def b2Min (a b : Vec2 F) : Vec2 F := ⟨min a.x b.x, min a.y b.y⟩

/-- Modelled from the spec: `b2Max` of `cb2Math.h`, the componentwise maximum. -/
def b2Max (a b : Vec2 F) : Vec2 F := ⟨max a.x b.x, max a.y b.y⟩

/-- Modelled from the spec: `cb2Clamp` of `cb2Math.h`, the symmetric range clamp
`max(low, min(a, high))`. -/
def cb2Clamp (a low high : F) : F := max low (min a high)

/-- Modelled from the spec: `cb2Mul(A, v)` of `cb2Math.h`, a matrix applied to a
vector. -/
def cb2MulMat (A : Matrix22 F) (v : Vec2 F) : Vec2 F :=
  ⟨A.m00 * v.x + A.m01 * v.y, A.m10 * v.x + A.m11 * v.y⟩

/-- Modelled from the spec: the `cb2Rot(angle)` constructor of `cb2Math.h`; the
sine and cosine functions are parameters. -/
def cb2Rot (sin cos : F → F) (angle : F) : b2Rot F := ⟨sin angle, cos angle⟩

/-- `Vec2f::lengthSquared`. -/
def Vec2.lengthSquared (v : Vec2 F) : F := v.x * v.x + v.y * v.y

/-- `Vec2f::length`: the square root of `lengthSquared`. -/
def Vec2.length (sqrt : F → F) (v : Vec2 F) : F := sqrt (v.x * v.x + v.y * v.y)

/-- Modelled from the spec: `Vec2f::normalize` of the Cinder library (not among
the sources): both components are multiplied by `1 / length()`. -/
def Vec2.normalize (sqrt : F → F) (v : Vec2 F) : Vec2 F :=
  let invS := 1 / v.length sqrt
  ⟨v.x * invS, v.y * invS⟩

/-- Modelled from the spec: `Matrix22f::inverted` of the Cinder library (not
among the sources): the inverse when the determinant exceeds the tolerance
`epsilon` in absolute value, the zero matrix for a (near) singular matrix. -/
def Matrix22.inverted (epsilon : F) (A : Matrix22 F) : Matrix22 F :=
  let det := A.m00 * A.m11 - A.m01 * A.m10
  if |det| > epsilon then
    let invDet := 1 / det
    ⟨A.m11 * invDet, -A.m01 * invDet, -A.m10 * invDet, A.m00 * invDet⟩
  else ⟨0, 0, 0, 0⟩

/-- The determinant `m00 * m11 - m01 * m10`, as `inverted` computes it. -/
def Matrix22.determinant (A : Matrix22 F) : F := A.m00 * A.m11 - A.m01 * A.m10

/-- The square root function is exact on non-negative arguments. -/
def ExactSqrt (sqrt : F → F) : Prop :=
  ∀ x : F, 0 ≤ x → 0 ≤ sqrt x ∧ sqrt x * sqrt x = x

/-- The pair `(s, c)` is a rotation: `s * s + c * c = 1`. -/
def b2Rot.IsRotation (q : b2Rot F) : Prop := q.s * q.s + q.c * q.c = 1

/-! ## Distance proxy (`cb2Distance.h`) -/

/-- The fields of `b2DistanceProxy` that `GetSupport` reads: the vertex
buffer `m_vertices` and the count `m_count`, and the radius. -/
structure b2DistanceProxy (F : Type) where
  m_vertices : List (Vec2 F)
  m_count : Int
  m_radius : F

/-- The raw read `m_vertices[i]` for an `int` index `i`. -/
def b2DistanceProxy.vertex (p : b2DistanceProxy F) (i : Int) : Vec2 F :=
  p.m_vertices.getD i.toNat 0

/-- One pass of the body of the `for` loop of `GetSupport`, on the pair
`(bestIndex, bestValue)`. -/
def b2DistanceProxy.supportStep (p : b2DistanceProxy F) (d : Vec2 F)
    (best : Int × F) (i : Nat) : Int × F :=
  let value := b2Dot (p.vertex i) d
  if value > best.2 then ((i : Int), value) else best

/-- `b2DistanceProxy::GetSupport`: the loop runs `i = 1, ..., m_count - 1`. -/
def b2DistanceProxy.GetSupport (p : b2DistanceProxy F) (d : Vec2 F) : Int :=
  ((List.range' 1 (p.m_count - 1).toNat).foldl (p.supportStep d)
    (0, b2Dot (p.vertex 0) d)).1

/-! ## Edge shape (`cb2EdgeShape.cpp`) -/

/-- Ray-cast input: the ray runs from `p1` to `p1 + maxFraction * (p2 - p1)`. -/
structure b2RayCastInput (F : Type) where
  p1 : Vec2 F
  p2 : Vec2 F
  maxFraction : F
deriving DecidableEq

/-- Ray-cast output: the hit normal and the hit fraction. -/
structure b2RayCastOutput (F : Type) where
  normal : Vec2 F
  fraction : F
deriving DecidableEq

/-- Axis aligned bounding box. -/
structure b2AABB (F : Type) where
  lowerBound : Vec2 F
  upperBound : Vec2 F
deriving DecidableEq

/-- Mass data computed for a shape. -/
structure b2MassData (F : Type) where
  mass : F
  center : Vec2 F
  I : F
deriving DecidableEq

/-- The edge shape: the segment `m_vertex1`-`m_vertex2`, the optional adjacent
vertices and the skin radius `m_radius` of the shape base class. -/
structure b2EdgeShape (F : Type) where
  m_radius : F
  m_vertex1 : Vec2 F
  m_vertex2 : Vec2 F
  m_vertex0 : Vec2 F
  m_vertex3 : Vec2 F
  m_hasVertex0 : Bool
  m_hasVertex3 : Bool
deriving DecidableEq

/-- `b2EdgeShape::set`. -/
def b2EdgeShape.set (self : b2EdgeShape F) (v1 v2 : Vec2 F) : b2EdgeShape F :=
  { self with m_vertex1 := v1, m_vertex2 := v2, m_hasVertex0 := false, m_hasVertex3 := false }

/-- `b2EdgeShape::GetChildCount`. -/
def b2EdgeShape.GetChildCount (_self : b2EdgeShape F) : Int := 1

/-- `b2EdgeShape::TestPoint`. -/
def b2EdgeShape.TestPoint (_self : b2EdgeShape F) (_xf : b2Transform F) (_p : Vec2 F) : Bool :=
  false

/-- `b2EdgeShape::RayCast`.  The caller's `*output` is passed in and handed
back, so that a path that does not write it returns it as it was; the first
component is the `bool` result. -/
def b2EdgeShape.RayCast (sqrt : F → F) (self : b2EdgeShape F) (output : b2RayCastOutput F)
    (input : b2RayCastInput F) (xf : b2Transform F) (_childIndex : Int) :
    Bool × b2RayCastOutput F :=
  -- Put the ray into the edge's frame of reference.
  let p1 := b2MulT xf.q (input.p1 - xf.p)
  let p2 := b2MulT xf.q (input.p2 - xf.p)
  let d := p2 - p1
  let v1 := self.m_vertex1
  let v2 := self.m_vertex2
  let e := v2 - v1
  let normal := (Vec2.mk e.y (-e.x)).normalize sqrt
  let numerator := b2Dot normal (v1 - p1)
  let denominator := b2Dot normal d
  if denominator = 0 then (false, output)
  else
    let t := numerator / denominator
    if t < 0 ∨ input.maxFraction < t then (false, output)
    else
      let q := p1 + t • d
      let r := v2 - v1
      let rr := b2Dot r r
      if rr = 0 then (false, output)
      else
        let s := b2Dot (q - v1) r / rr
        if s < 0 ∨ 1 < s then (false, output)
        else
          if numerator > 0 then (true, { normal := -normal, fraction := t })
          else (true, { normal := normal, fraction := t })

/-- `b2EdgeShape::ComputeAABB`. -/
def b2EdgeShape.ComputeAABB (self : b2EdgeShape F) (xf : b2Transform F) (_childIndex : Int) :
    b2AABB F :=
  let v1 := b2Mul xf self.m_vertex1
  let v2 := b2Mul xf self.m_vertex2
  let lower := b2Min v1 v2
  let upper := b2Max v1 v2
  let r : Vec2 F := ⟨self.m_radius, self.m_radius⟩
  { lowerBound := lower - r, upperBound := upper + r }

/-- `b2EdgeShape::ComputeMass`. -/
def b2EdgeShape.ComputeMass (self : b2EdgeShape F) (_density : F) : b2MassData F :=
  { mass := 0, center := (1 / 2 : F) • (self.m_vertex1 + self.m_vertex2), I := 0 }

/-! ## Motor joint (`cb2MotorJoint.cpp`) -/

/-- The fields of `cb2Sweep` that the motor joint reads: the centre of mass in
body coordinates `localCenter`, in world coordinates `c`, and the angle `a`. -/
structure cb2Sweep (F : Type) where
  localCenter : Vec2 F
  c : Vec2 F
  a : F
deriving DecidableEq

/-- The fields of `cb2Body` that the motor joint reads (the body origin
transform `m_xf` among them), the awake flag, and a record of the `SetAwake`
calls the body has received (latest first), kept so that a call is visible
also on a body that was awake already. -/
structure cb2Body (F : Type) where
  m_islandIndex : Int
  m_xf : b2Transform F
  m_sweep : cb2Sweep F
  m_invMass : F
  m_invI : F
  m_awake : Bool := true
  m_setAwakeCalls : List Bool := []
deriving DecidableEq

/-- Modelled from the spec: `cb2Body::GetPosition` of `cb2Body.h` (not among
the sources), the world position of the body origin. -/
def cb2Body.GetPosition (self : cb2Body F) : Vec2 F := self.m_xf.p

/-- Modelled from the spec: `cb2Body::GetAngle` of `cb2Body.h`, the current
world rotation angle. -/
def cb2Body.GetAngle (self : cb2Body F) : F := self.m_sweep.a

/-- Modelled from the spec: `cb2Body::GetLocalPoint` of `cb2Body.h`, a world
point in body coordinates, `R^T * (x - p)` for the body transform `(p, R)`. -/
def cb2Body.GetLocalPoint (self : cb2Body F) (worldPoint : Vec2 F) : Vec2 F :=
  b2MulT self.m_xf.q (worldPoint - self.m_xf.p)

/-- Modelled from the spec: `cb2Body::SetAwake` of `cb2Body.h` (not among the
sources): the body is woken (or put to sleep) and the call is recorded. -/
def cb2Body.SetAwake (self : cb2Body F) (flag : Bool) : cb2Body F :=
  { self with m_awake := flag, m_setAwakeCalls := flag :: self.m_setAwakeCalls }

/-- A body position in the solver arrays: centre `c` and angle `a`. -/
structure cb2Position (F : Type) where
  c : Vec2 F
  a : F
deriving DecidableEq

/-- A body velocity in the solver arrays: linear `v` and angular `w`. -/
structure cb2Velocity (F : Type) where
  v : Vec2 F
  w : F
deriving DecidableEq

/-- The fields of `cb2TimeStep` that the motor joint solver reads. -/
structure cb2TimeStep (F : Type) where
  dt : F
  inv_dt : F
  dtRatio : F
  warmStarting : Bool
deriving DecidableEq

/-- Solver data: the step and the flat per-body position and velocity arrays,
indexed by island index. -/
structure cb2SolverData (F : Type) where
  step : cb2TimeStep F
  positions : Int → cb2Position F
  velocities : Int → cb2Velocity F

/-- The motor joint: the two bodies, the solver-shared state and the
solver-temp state of `cb2MotorJoint.h`. -/
structure cb2MotorJoint (F : Type) where
  m_bodyA : cb2Body F
  m_bodyB : cb2Body F
  m_linearOffset : Vec2 F
  m_angularOffset : F
  m_linearImpulse : Vec2 F
  m_angularImpulse : F
  m_maxForce : F
  m_maxTorque : F
  m_correctionFactor : F
  m_indexA : Int
  m_indexB : Int
  m_rA : Vec2 F
  m_rB : Vec2 F
  m_localCenterA : Vec2 F
  m_localCenterB : Vec2 F
  m_linearError : Vec2 F
  m_angularError : F
  m_invMassA : F
  m_invMassB : F
  m_invIA : F
  m_invIB : F
  m_linearMass : Matrix22 F
  m_angularMass : F

/-- The matrix `K` that `InitVelocityConstraints` builds before inverting it. -/
def cb2MotorJoint.K (mA mB iA iB : F) (rA rB : Vec2 F) : Matrix22 F :=
  { m00 := mA + mB + iA * rA.y * rA.y + iB * rB.y * rB.y
    m01 := -iA * rA.x * rA.y - iB * rB.x * rB.y
    m10 := -iA * rA.x * rA.y - iB * rB.x * rB.y
    m11 := mA + mB + iA * rA.x * rA.x + iB * rB.x * rB.x }

/-- The statements of `cb2MotorJoint::InitVelocityConstraints` that set the
angular mass, `m_angularMass = iA + iB; if (m_angularMass > 0.0f)
{ m_angularMass = 1.0f / m_angularMass; }`, with every division they execute
recorded: the first component is the value left in `m_angularMass`, the second
the list of the divisors of the divisions that were executed. Code that
divided without the guard would record the divisor `iA + iB` on every call. -/
def cb2MotorJoint.angularMassTraced (iA iB : F) : F × List F :=
  let m_angularMass := iA + iB
  if m_angularMass > 0 then (1 / m_angularMass, [m_angularMass]) else (m_angularMass, [])

/-- `cb2MotorJoint::InitVelocityConstraints`.  The joint and the solver data
(whose velocity array the code writes through a pointer) are handed back. -/
def cb2MotorJoint.InitVelocityConstraints (sin cos : F → F) (epsilon : F)
    (self : cb2MotorJoint F) (data : cb2SolverData F) : cb2MotorJoint F × cb2SolverData F :=
  let m_indexA := self.m_bodyA.m_islandIndex
  let m_indexB := self.m_bodyB.m_islandIndex
  let m_localCenterA := self.m_bodyA.m_sweep.localCenter
  let m_localCenterB := self.m_bodyB.m_sweep.localCenter
  let m_invMassA := self.m_bodyA.m_invMass
  let m_invMassB := self.m_bodyB.m_invMass
  let m_invIA := self.m_bodyA.m_invI
  let m_invIB := self.m_bodyB.m_invI
  let cA := (data.positions m_indexA).c
  let aA := (data.positions m_indexA).a
  let vA := (data.velocities m_indexA).v
  let wA := (data.velocities m_indexA).w
  let cB := (data.positions m_indexB).c
  let aB := (data.positions m_indexB).a
  let vB := (data.velocities m_indexB).v
  let wB := (data.velocities m_indexB).w
  let qA := cb2Rot sin cos aA
  let qB := cb2Rot sin cos aB
  -- Compute the effective mass matrix.
  let m_rA := b2MulRot qA (-m_localCenterA)
  let m_rB := b2MulRot qB (-m_localCenterB)
  let mA := m_invMassA
  let mB := m_invMassB
  let iA := m_invIA
  let iB := m_invIB
  let m_linearMass := (cb2MotorJoint.K mA mB iA iB m_rA m_rB).inverted epsilon
  let m_angularMass := (cb2MotorJoint.angularMassTraced iA iB).1
  let m_linearError := cB + m_rB - cA - m_rA - b2MulRot qA self.m_linearOffset
  let m_angularError := aB - aA - self.m_angularOffset
  -- Scale impulses to support a variable time step, or reset them.
  let m_linearImpulse :=
    if data.step.warmStarting then data.step.dtRatio • self.m_linearImpulse else 0
  let m_angularImpulse :=
    if data.step.warmStarting then self.m_angularImpulse * data.step.dtRatio else 0
  let P : Vec2 F := ⟨m_linearImpulse.x, m_linearImpulse.y⟩
  let vA' := if data.step.warmStarting then vA - mA • P else vA
  let wA' := if data.step.warmStarting then wA - iA * (cb2Cross m_rA P + m_angularImpulse) else wA
  let vB' := if data.step.warmStarting then vB + mB • P else vB
  let wB' := if data.step.warmStarting then wB + iB * (cb2Cross m_rB P + m_angularImpulse) else wB
  let velocities1 := Function.update data.velocities m_indexA { v := vA', w := wA' }
  let velocities2 := Function.update velocities1 m_indexB { v := vB', w := wB' }
  ({ self with
      m_indexA := m_indexA, m_indexB := m_indexB,
      m_localCenterA := m_localCenterA, m_localCenterB := m_localCenterB,
      m_invMassA := m_invMassA, m_invMassB := m_invMassB,
      m_invIA := m_invIA, m_invIB := m_invIB,
      m_rA := m_rA, m_rB := m_rB,
      m_linearMass := m_linearMass, m_angularMass := m_angularMass,
      m_linearError := m_linearError, m_angularError := m_angularError,
      m_linearImpulse := m_linearImpulse, m_angularImpulse := m_angularImpulse },
   { data with velocities := velocities2 })

/-- `cb2MotorJoint::SolveVelocityConstraints`. -/
def cb2MotorJoint.SolveVelocityConstraints (sqrt : F → F)
    (self : cb2MotorJoint F) (data : cb2SolverData F) : cb2MotorJoint F × cb2SolverData F :=
  let vA := (data.velocities self.m_indexA).v
  let wA := (data.velocities self.m_indexA).w
  let vB := (data.velocities self.m_indexB).v
  let wB := (data.velocities self.m_indexB).w
  let mA := self.m_invMassA
  let mB := self.m_invMassB
  let iA := self.m_invIA
  let iB := self.m_invIB
  let h := data.step.dt
  let inv_h := data.step.inv_dt
  -- Solve angular friction
  let CdotW := wB - wA + inv_h * self.m_correctionFactor * self.m_angularError
  let impulseW := -self.m_angularMass * CdotW
  let oldImpulseW := self.m_angularImpulse
  let maxImpulseW := h * self.m_maxTorque
  let m_angularImpulse := cb2Clamp (self.m_angularImpulse + impulseW) (-maxImpulseW) maxImpulseW
  let impulseW' := m_angularImpulse - oldImpulseW
  let wA1 := wA - iA * impulseW'
  let wB1 := wB + iB * impulseW'
  -- Solve linear friction
  let Cdot := vB + cb2CrossSV wB1 self.m_rB - vA - cb2CrossSV wA1 self.m_rA
    + (inv_h * self.m_correctionFactor) • self.m_linearError
  let impulse := -cb2MulMat self.m_linearMass Cdot
  let oldImpulse := self.m_linearImpulse
  let linearImpulse := self.m_linearImpulse + impulse
  let maxImpulse := h * self.m_maxForce
  let m_linearImpulse :=
    if linearImpulse.lengthSquared > maxImpulse * maxImpulse then
      maxImpulse • linearImpulse.normalize sqrt
    else linearImpulse
  let impulse' := m_linearImpulse - oldImpulse
  let vA1 := vA - mA • impulse'
  let wA2 := wA1 - iA * cb2Cross self.m_rA impulse'
  let vB1 := vB + mB • impulse'
  let wB2 := wB1 + iB * cb2Cross self.m_rB impulse'
  let velocities1 := Function.update data.velocities self.m_indexA { v := vA1, w := wA2 }
  let velocities2 := Function.update velocities1 self.m_indexB { v := vB1, w := wB2 }
  ({ self with m_angularImpulse := m_angularImpulse, m_linearImpulse := m_linearImpulse },
   { data with velocities := velocities2 })

/-- `cb2MotorJoint::SolvePositionConstraints`. -/
def cb2MotorJoint.SolvePositionConstraints (self : cb2MotorJoint F) (data : cb2SolverData F) :
    Bool × cb2MotorJoint F × cb2SolverData F :=
  (true, self, data)

/-- `cb2MotorJoint::SetLinearOffset`. -/
def cb2MotorJoint.SetLinearOffset (self : cb2MotorJoint F) (linearOffset : Vec2 F) :
    cb2MotorJoint F :=
  if linearOffset.x ≠ self.m_linearOffset.x ∨ linearOffset.y ≠ self.m_linearOffset.y then
    { self with
        m_bodyA := self.m_bodyA.SetAwake true
        m_bodyB := self.m_bodyB.SetAwake true
        m_linearOffset := linearOffset }
  else self

/-- `cb2MotorJoint::GetLinearOffset`. -/
def cb2MotorJoint.GetLinearOffset (self : cb2MotorJoint F) : Vec2 F := self.m_linearOffset

/-- `cb2MotorJoint::SetAngularOffset`. -/
def cb2MotorJoint.SetAngularOffset (self : cb2MotorJoint F) (angularOffset : F) :
    cb2MotorJoint F :=
  if angularOffset ≠ self.m_angularOffset then
    { self with
        m_bodyA := self.m_bodyA.SetAwake true
        m_bodyB := self.m_bodyB.SetAwake true
        m_angularOffset := angularOffset }
  else self

/-- `cb2MotorJoint::GetAngularOffset`. -/
def cb2MotorJoint.GetAngularOffset (self : cb2MotorJoint F) : F := self.m_angularOffset

/-- The motor joint definition: the two bodies of the `cb2JointDef` base and
the fields of `cb2MotorJoint.h`. -/
structure cb2MotorJointDef (F : Type) where
  bodyA : cb2Body F
  bodyB : cb2Body F
  linearOffset : Vec2 F
  angularOffset : F
  maxForce : F
  maxTorque : F
  correctionFactor : F

/-- `cb2MotorJointDef::Initialize`. -/
def cb2MotorJointDef.Initialize (self : cb2MotorJointDef F) (bA bB : cb2Body F) :
    cb2MotorJointDef F :=
  let xB := bB.GetPosition
  let angleA := bA.GetAngle
  let angleB := bB.GetAngle
  { self with
      bodyA := bA, bodyB := bB
      linearOffset := bA.GetLocalPoint xB
      angularOffset := angleB - angleA }

/-- The constructor `cb2MotorJoint::cb2MotorJoint(def)`: the bodies come from
the definition (through the `cb2Joint` base, not among the sources), the
targets and limits are copied and `m_angularImpulse` is zeroed; the fields the
constructor does not assign are taken from `uninit`. -/
def cb2MotorJoint.ofDef (jd : cb2MotorJointDef F) (uninit : cb2MotorJoint F) :
    cb2MotorJoint F :=
  { uninit with
      m_bodyA := jd.bodyA, m_bodyB := jd.bodyB
      m_linearOffset := jd.linearOffset
      m_angularOffset := jd.angularOffset
      m_angularImpulse := 0
      m_maxForce := jd.maxForce
      m_maxTorque := jd.maxTorque
      m_correctionFactor := jd.correctionFactor }

/-- Modelled from the spec: a body placed at the origin position `p` and angle
`angle`, as the spec relates its fields: the transform rotation is `R(angle)`
and the world centre is `p + R(angle) * localCenter`. -/
def cb2Body.atPose (sin cos : F → F) (islandIndex : Int) (p : Vec2 F) (angle : F)
    (localCenter : Vec2 F) (invMass invI : F) : cb2Body F :=
  { m_islandIndex := islandIndex
    m_xf := { p := p, q := cb2Rot sin cos angle }
    m_sweep := { localCenter := localCenter
                 c := p + b2MulRot (cb2Rot sin cos angle) localCenter
                 a := angle }
    m_invMass := invMass
    m_invI := invI }

/-! ### The values `InitVelocityConstraints` writes, named for the statements below -/

/-- The locals `vA`, `wA` at the end of `InitVelocityConstraints`, which it
writes to `data.velocities[m_indexA]`; `P` and `m_angularImpulse` are the
rescaled impulses. -/
def cb2MotorJoint.initVelocityA (sin cos : F → F) (epsilon : F) (self : cb2MotorJoint F)
    (data : cb2SolverData F) : cb2Velocity F :=
  { v := if data.step.warmStarting then
        (data.velocities self.m_bodyA.m_islandIndex).v - self.m_bodyA.m_invMass •
          (self.InitVelocityConstraints sin cos epsilon data).1.m_linearImpulse
      else (data.velocities self.m_bodyA.m_islandIndex).v
    w := if data.step.warmStarting then
        (data.velocities self.m_bodyA.m_islandIndex).w - self.m_bodyA.m_invI *
          (cb2Cross (self.InitVelocityConstraints sin cos epsilon data).1.m_rA
              (self.InitVelocityConstraints sin cos epsilon data).1.m_linearImpulse
            + (self.InitVelocityConstraints sin cos epsilon data).1.m_angularImpulse)
      else (data.velocities self.m_bodyA.m_islandIndex).w }

/-- The locals `vB`, `wB` at the end of `InitVelocityConstraints`, which it
writes to `data.velocities[m_indexB]`. -/
def cb2MotorJoint.initVelocityB (sin cos : F → F) (epsilon : F) (self : cb2MotorJoint F)
    (data : cb2SolverData F) : cb2Velocity F :=
  { v := if data.step.warmStarting then
        (data.velocities self.m_bodyB.m_islandIndex).v + self.m_bodyB.m_invMass •
          (self.InitVelocityConstraints sin cos epsilon data).1.m_linearImpulse
      else (data.velocities self.m_bodyB.m_islandIndex).v
    w := if data.step.warmStarting then
        (data.velocities self.m_bodyB.m_islandIndex).w + self.m_bodyB.m_invI *
          (cb2Cross (self.InitVelocityConstraints sin cos epsilon data).1.m_rB
              (self.InitVelocityConstraints sin cos epsilon data).1.m_linearImpulse
            + (self.InitVelocityConstraints sin cos epsilon data).1.m_angularImpulse)
      else (data.velocities self.m_bodyB.m_islandIndex).w }

/-! ### The values `SolveVelocityConstraints` writes, named for the statements below -/

/-- The change `impulse = m_angularImpulse - oldImpulse` of the accumulated
angular impulse over one `SolveVelocityConstraints` call. -/
def cb2MotorJoint.solveDeltaL (sqrt : F → F) (self : cb2MotorJoint F)
    (data : cb2SolverData F) : F :=
  (self.SolveVelocityConstraints sqrt data).1.m_angularImpulse - self.m_angularImpulse

/-- The change `impulse = m_linearImpulse - oldImpulse` of the accumulated
linear impulse over one `SolveVelocityConstraints` call. -/
def cb2MotorJoint.solveDeltaP (sqrt : F → F) (self : cb2MotorJoint F)
    (data : cb2SolverData F) : Vec2 F :=
  (self.SolveVelocityConstraints sqrt data).1.m_linearImpulse - self.m_linearImpulse

/-- The local `impulse = -m_angularMass * Cdot` of the angular part of
`SolveVelocityConstraints`, the impulse increment before clamping. -/
def cb2MotorJoint.solveAngularIncrement (self : cb2MotorJoint F) (data : cb2SolverData F) : F :=
  -self.m_angularMass *
    ((data.velocities self.m_indexB).w - (data.velocities self.m_indexA).w
      + data.step.inv_dt * self.m_correctionFactor * self.m_angularError)

/-- The locals `vA`, `wA` at the end of `SolveVelocityConstraints`, which it
writes to `data.velocities[m_indexA]`. -/
def cb2MotorJoint.solvedVelocityA (sqrt : F → F) (self : cb2MotorJoint F)
    (data : cb2SolverData F) : cb2Velocity F :=
  { v := (data.velocities self.m_indexA).v - self.m_invMassA • self.solveDeltaP sqrt data
    w := (data.velocities self.m_indexA).w - self.m_invIA * self.solveDeltaL sqrt data
      - self.m_invIA * cb2Cross self.m_rA (self.solveDeltaP sqrt data) }

/-- The locals `vB`, `wB` at the end of `SolveVelocityConstraints`, which it
writes to `data.velocities[m_indexB]`. -/
def cb2MotorJoint.solvedVelocityB (sqrt : F → F) (self : cb2MotorJoint F)
    (data : cb2SolverData F) : cb2Velocity F :=
  { v := (data.velocities self.m_indexB).v + self.m_invMassB • self.solveDeltaP sqrt data
    w := (data.velocities self.m_indexB).w + self.m_invIB * self.solveDeltaL sqrt data
      + self.m_invIB * cb2Cross self.m_rB (self.solveDeltaP sqrt data) }

/-- Modelled from the spec: the island driver (not among the sources), which
after `InitVelocityConstraints` calls `SolveVelocityConstraints` `n` times on
the same joint and solver data. -/
def cb2MotorJoint.solveIterations (sqrt : F → F) :
    Nat → cb2MotorJoint F × cb2SolverData F → cb2MotorJoint F × cb2SolverData F
  | 0, st => st
  | n + 1, st =>
    cb2MotorJoint.SolveVelocityConstraints sqrt (cb2MotorJoint.solveIterations sqrt n st).1
      (cb2MotorJoint.solveIterations sqrt n st).2

/-! ### The local variables of `RayCast`, named for the statements below -/

/-- The ray origin in the edge's frame: the local `p1` of `RayCast`. -/
def rayLocalP1 (input : b2RayCastInput F) (xf : b2Transform F) : Vec2 F :=
  b2MulT xf.q (input.p1 - xf.p)

/-- The ray direction in the edge's frame: the local `d = p2 - p1` of `RayCast`. -/
def rayLocalD (input : b2RayCastInput F) (xf : b2Transform F) : Vec2 F :=
  b2MulT xf.q (input.p2 - xf.p) - b2MulT xf.q (input.p1 - xf.p)

/-- The local `normal` of `RayCast`: `(e.y, -e.x)` normalized, `e = v2 - v1`. -/
def b2EdgeShape.rayNormal (sqrt : F → F) (self : b2EdgeShape F) : Vec2 F :=
  (Vec2.mk (self.m_vertex2 - self.m_vertex1).y (-(self.m_vertex2 - self.m_vertex1).x)).normalize sqrt

/-- The local `numerator` of `RayCast`. -/
def b2EdgeShape.rayNumerator (sqrt : F → F) (self : b2EdgeShape F)
    (input : b2RayCastInput F) (xf : b2Transform F) : F :=
  b2Dot (self.rayNormal sqrt) (self.m_vertex1 - rayLocalP1 input xf)

/-- The local `denominator` of `RayCast`. -/
def b2EdgeShape.rayDenominator (sqrt : F → F) (self : b2EdgeShape F)
    (input : b2RayCastInput F) (xf : b2Transform F) : F :=
  b2Dot (self.rayNormal sqrt) (rayLocalD input xf)

/-- The local `t` of `RayCast`. -/
def b2EdgeShape.rayT (sqrt : F → F) (self : b2EdgeShape F)
    (input : b2RayCastInput F) (xf : b2Transform F) : F :=
  self.rayNumerator sqrt input xf / self.rayDenominator sqrt input xf

/-- The local `s` of `RayCast`. -/
def b2EdgeShape.rayS (sqrt : F → F) (self : b2EdgeShape F)
    (input : b2RayCastInput F) (xf : b2Transform F) : F :=
  b2Dot (rayLocalP1 input xf + self.rayT sqrt input xf • rayLocalD input xf - self.m_vertex1)
      (self.m_vertex2 - self.m_vertex1)
    / b2Dot (self.m_vertex2 - self.m_vertex1) (self.m_vertex2 - self.m_vertex1)

/-! ### `RayCast` in rounded arithmetic

The same function with the result of every arithmetic operation passed
through a rounding function `fl`, the way C evaluates `float` expressions.
With `fl = id` it is `b2EdgeShape.RayCast`; with `fl = fl32` it is the binary32
evaluation on values in the normal range. -/

/-- Rounded vector subtraction. -/
def Vec2.subFl (fl : F → F) (a b : Vec2 F) : Vec2 F := ⟨fl (a.x - b.x), fl (a.y - b.y)⟩

/-- Rounded `b2Dot`: two products, one sum. -/
def b2DotFl (fl : F → F) (a b : Vec2 F) : F := fl (fl (a.x * b.x) + fl (a.y * b.y))

/-- Rounded `b2MulT(q, v)`. -/
def b2MulTFl (fl : F → F) (q : b2Rot F) (v : Vec2 F) : Vec2 F :=
  ⟨fl (fl (q.c * v.x) + fl (q.s * v.y)), fl (fl (-q.s * v.x) + fl (q.c * v.y))⟩

/-- Rounded `Vec2f::length`; `sqrt` returns the rounded square root. -/
def Vec2.lengthFl (fl sqrt : F → F) (v : Vec2 F) : F :=
  sqrt (fl (fl (v.x * v.x) + fl (v.y * v.y)))

/-- Rounded `Vec2f::normalize`. -/
def Vec2.normalizeFl (fl sqrt : F → F) (v : Vec2 F) : Vec2 F :=
  let invS := fl (1 / v.lengthFl fl sqrt)
  ⟨fl (v.x * invS), fl (v.y * invS)⟩

/-- `b2EdgeShape::RayCast` with every operation rounded by `fl`. -/
def b2EdgeShape.RayCastFl (fl sqrt : F → F) (self : b2EdgeShape F)
    (output : b2RayCastOutput F) (input : b2RayCastInput F) (xf : b2Transform F)
    (_childIndex : Int) : Bool × b2RayCastOutput F :=
  -- Put the ray into the edge's frame of reference.
  let p1 := b2MulTFl fl xf.q (Vec2.subFl fl input.p1 xf.p)
  let p2 := b2MulTFl fl xf.q (Vec2.subFl fl input.p2 xf.p)
  let d := Vec2.subFl fl p2 p1
  let v1 := self.m_vertex1
  let v2 := self.m_vertex2
  let e := Vec2.subFl fl v2 v1
  let normal := (Vec2.mk e.y (-e.x)).normalizeFl fl sqrt
  let numerator := b2DotFl fl normal (Vec2.subFl fl v1 p1)
  let denominator := b2DotFl fl normal d
  if denominator = 0 then (false, output)
  else
    let t := fl (numerator / denominator)
    if t < 0 ∨ input.maxFraction < t then (false, output)
    else
      let q : Vec2 F := ⟨fl (p1.x + fl (t * d.x)), fl (p1.y + fl (t * d.y))⟩
      let r := Vec2.subFl fl v2 v1
      let rr := b2DotFl fl r r
      if rr = 0 then (false, output)
      else
        let s := fl (b2DotFl fl (Vec2.subFl fl q v1) r / rr)
        if s < 0 ∨ 1 < s then (false, output)
        else
          if numerator > 0 then (true, { normal := -normal, fraction := t })
          else (true, { normal := normal, fraction := t })

/-- The local `d = p2 - p1` of `RayCast` as computed in rounded arithmetic. -/
def rayLocalDFl (fl : F → F) (input : b2RayCastInput F) (xf : b2Transform F) : Vec2 F :=
  Vec2.subFl fl (b2MulTFl fl xf.q (Vec2.subFl fl input.p2 xf.p))
    (b2MulTFl fl xf.q (Vec2.subFl fl input.p1 xf.p))

/-- The local `e = v2 - v1` of `RayCast` as computed in rounded arithmetic. -/
def b2EdgeShape.edgeFl (fl : F → F) (self : b2EdgeShape F) : Vec2 F :=
  Vec2.subFl fl self.m_vertex2 self.m_vertex1

/-- The local `denominator` of `RayCast` as computed in rounded arithmetic. -/
def b2EdgeShape.rayDenominatorFl (fl sqrt : F → F) (self : b2EdgeShape F)
    (input : b2RayCastInput F) (xf : b2Transform F) : F :=
  b2DotFl fl ((Vec2.mk (self.edgeFl fl).y (-(self.edgeFl fl).x)).normalizeFl fl sqrt)
    (rayLocalDFl fl input xf)

/-! ### Binary32 rounding on the rationals -/

/-- The power `2 ^ e` for an integer exponent. -/
def pow2 (e : Int) : ℚ :=
  if 0 ≤ e then ((2 ^ e.toNat : Nat) : ℚ) else 1 / ((2 ^ (-e).toNat : Nat) : ℚ)

/-- The binary exponent `e` of a positive rational `a`, `2 ^ e ≤ a < 2 ^ (e + 1)`,
found by halving or doubling at most `fuel` times. -/
def binaryExponent : Nat → ℚ → Int → Int
  | 0, _, e => e
  | fuel + 1, a, e =>
    if 2 ≤ a then binaryExponent fuel (a / 2) (e + 1)
    else if a < 1 then binaryExponent fuel (a * 2) (e - 1)
    else e

/-- Round a non-negative rational to the nearest integer, ties to even. -/
def roundHalfEven (m : ℚ) : Int :=
  if m - (Rat.floor m : ℚ) > 1 / 2 ∨ (m - (Rat.floor m : ℚ) = 1 / 2 ∧ Rat.floor m % 2 = 1)
  then Rat.floor m + 1 else Rat.floor m

/-- IEEE 754 binary32 rounding (to nearest, ties to even) of a rational in the
normal range: the result has a 24 bit significand.  Overflow, subnormal
numbers, signed zeros, infinities and NaN are not modelled. -/
def fl32 (x : ℚ) : ℚ :=
  if x = 0 then 0
  else
    let e := binaryExponent 300 |x| 0
    let q := pow2 (e - 23)
    let k := roundHalfEven (|x| / q)
    if 0 < x then (k : ℚ) * q else -((k : ℚ) * q)

/-- The integer square root `⌊√n⌋` of `n < 2 ^ (2 * bits)`, one bit at a time
from the top. -/
def isqrtBits : Nat → Nat → Nat → Nat
  | 0, _, r => r
  | bits + 1, n, r =>
    if (r + 2 ^ bits) * (r + 2 ^ bits) ≤ n then isqrtBits bits n (r + 2 ^ bits)
    else isqrtBits bits n r

/-- The scaling `s` that brings a positive rational `y` by factors of `4` into
`2 ^ 46 ≤ y * 4 ^ s < 2 ^ 48`, so that `√(y * 4 ^ s)` has 24 bits. -/
def sqrtScale : Nat → ℚ → Int → Int
  | 0, _, s => s
  | fuel + 1, y, s =>
    if 281474976710656 ≤ y then sqrtScale fuel (y / 4) (s - 1)
    else if y < 70368744177664 then sqrtScale fuel (y * 4) (s + 1)
    else s

/-- The binary32 square root: `√x` rounded to nearest, ties to even, for a
positive rational `x` in the normal range (and `0` for `x ≤ 0`). -/
def sqrt32 (x : ℚ) : ℚ :=
  if x ≤ 0 then 0
  else
    let s := sqrtScale 300 x 0
    let y := x * pow2 (2 * s)
    let k := isqrtBits 24 (Rat.floor y).toNat 0
    let half : ℚ := (k : ℚ) + 1 / 2
    let k' := if y > half * half ∨ (y = half * half ∧ k % 2 = 1) then k + 1 else k
    (k' : ℚ) / pow2 s

/-- The edge from `(0, 0)` to `(3, 7)`, with no adjacent vertices. -/
def slantedEdge : b2EdgeShape ℚ :=
  { m_radius := 0, m_vertex1 := ⟨0, 0⟩, m_vertex2 := ⟨3, 7⟩, m_vertex0 := ⟨0, 0⟩,
    m_vertex3 := ⟨0, 0⟩, m_hasVertex0 := false, m_hasVertex3 := false }

/-! ### Concrete inputs used in the runs below -/

/-- The edge from `(0, 0)` to `(1, 0)` with no adjacent vertices. -/
def unitEdge (F : Type) [LinearOrderedField F] : b2EdgeShape F :=
  { m_radius := 0, m_vertex1 := ⟨0, 0⟩, m_vertex2 := ⟨1, 0⟩, m_vertex0 := ⟨0, 0⟩,
    m_vertex3 := ⟨0, 0⟩, m_hasVertex0 := false, m_hasVertex3 := false }

/-- The identity transform: no translation, rotation by the angle zero. -/
def identityTransform (F : Type) [LinearOrderedField F] : b2Transform F :=
  { p := ⟨0, 0⟩, q := { s := 0, c := 1 } }

/-- A proxy on the four corners of the unit square; the corners `(1, 0)` and
`(1, 1)` tie in the direction `(1, 0)`. -/
def squareProxy (F : Type) [LinearOrderedField F] : b2DistanceProxy F :=
  { m_vertices := [⟨0, 0⟩, ⟨1, 0⟩, ⟨1, 1⟩, ⟨0, 1⟩], m_count := 4, m_radius := 0 }

/-- A motor joint between a fixed body (island index 0) and a unit-mass body
(island index 1), holding accumulated impulses `(3, 4)` and `5` that exceed
its limits `maxForce = maxTorque = 1`. -/
def sampleJoint (F : Type) [LinearOrderedField F] : cb2MotorJoint F :=
  { m_bodyA := { m_islandIndex := 0, m_xf := { p := ⟨0, 0⟩, q := { s := 0, c := 1 } },
                 m_sweep := { localCenter := ⟨0, 0⟩, c := ⟨0, 0⟩, a := 0 }, m_invMass := 0,
                 m_invI := 0 }
    m_bodyB := { m_islandIndex := 1, m_xf := { p := ⟨0, 0⟩, q := { s := 0, c := 1 } },
                 m_sweep := { localCenter := ⟨0, 0⟩, c := ⟨0, 0⟩, a := 0 }, m_invMass := 1,
                 m_invI := 1 }
    m_linearOffset := ⟨0, 0⟩, m_angularOffset := 0
    m_linearImpulse := ⟨3, 4⟩, m_angularImpulse := 5
    m_maxForce := 1, m_maxTorque := 1, m_correctionFactor := 3 / 10
    m_indexA := 0, m_indexB := 0
    m_rA := ⟨0, 0⟩, m_rB := ⟨0, 0⟩, m_localCenterA := ⟨0, 0⟩, m_localCenterB := ⟨0, 0⟩
    m_linearError := ⟨0, 0⟩, m_angularError := 0
    m_invMassA := 0, m_invMassB := 0, m_invIA := 0, m_invIB := 0
    m_linearMass := ⟨0, 0, 0, 0⟩, m_angularMass := 0 }

/-- The joint `sampleJoint` with body B made unable to rotate as well, so that
both inverse inertias are zero. -/
def fixedJoint (F : Type) [LinearOrderedField F] : cb2MotorJoint F :=
  { sampleJoint F with
    m_bodyB := { m_islandIndex := 1, m_xf := { p := ⟨0, 0⟩, q := { s := 0, c := 1 } },
                 m_sweep := { localCenter := ⟨0, 0⟩, c := ⟨0, 0⟩, a := 0 }, m_invMass := 1,
                 m_invI := 0 } }

/-- A motor joint at rest between two movable bodies (island indices 0 and 1)
with the target offset `(2, 1)` and no accumulated impulse. -/
def restJoint (F : Type) [LinearOrderedField F] : cb2MotorJoint F :=
  { m_bodyA := { m_islandIndex := 0, m_xf := { p := ⟨1, 1⟩, q := { s := 0, c := 1 } },
                 m_sweep := { localCenter := ⟨0, 0⟩, c := ⟨1, 1⟩, a := 0 }, m_invMass := 1,
                 m_invI := 1 }
    m_bodyB := { m_islandIndex := 1, m_xf := { p := ⟨3, 2⟩, q := { s := 0, c := 1 } },
                 m_sweep := { localCenter := ⟨0, 0⟩, c := ⟨3, 2⟩, a := 0 }, m_invMass := 1 / 2,
                 m_invI := 1 / 3 }
    m_linearOffset := ⟨2, 1⟩, m_angularOffset := 0
    m_linearImpulse := ⟨0, 0⟩, m_angularImpulse := 0
    m_maxForce := 1, m_maxTorque := 1, m_correctionFactor := 3 / 10
    m_indexA := 0, m_indexB := 0
    m_rA := ⟨0, 0⟩, m_rB := ⟨0, 0⟩, m_localCenterA := ⟨0, 0⟩, m_localCenterB := ⟨0, 0⟩
    m_linearError := ⟨0, 0⟩, m_angularError := 0
    m_invMassA := 0, m_invMassB := 0, m_invIA := 0, m_invIB := 0
    m_linearMass := ⟨0, 0, 0, 0⟩, m_angularMass := 0 }

/-- Solver data in which the bodies of `restJoint` satisfy the constraint: body
0 at `(1, 1)`, every other body at `(3, 2)`, all at angle zero and all moving
with velocity `(1, 2)` and spin `3`. -/
def restData (F : Type) [LinearOrderedField F] : cb2SolverData F :=
  { step := { dt := 1 / 60, inv_dt := 60, dtRatio := 1, warmStarting := true }
    positions := fun i => if i = 0 then { c := ⟨1, 1⟩, a := 0 } else { c := ⟨3, 2⟩, a := 0 }
    velocities := fun _ => { v := ⟨1, 2⟩, w := 3 } }

/-- The solver data `restData` with the body at island index 1 spinning at
`1/90` relative to a resting body 0. -/
def spinData (F : Type) [LinearOrderedField F] : cb2SolverData F :=
  { step := { dt := 1 / 60, inv_dt := 60, dtRatio := 1, warmStarting := true }
    positions := fun i => if i = 0 then { c := ⟨1, 1⟩, a := 0 } else { c := ⟨3, 2⟩, a := 0 }
    velocities := fun i => if i = 1 then { v := ⟨0, 0⟩, w := 1 / 90 } else { v := ⟨0, 0⟩, w := 0 } }

/-- A movable body with island index 0 at the position `(1, 1)` and the angle
`2`, its centre of mass at `(1/2, 0)` in body coordinates. -/
def poseBodyA {F : Type} [LinearOrderedField F] (sin cos : F → F) : cb2Body F :=
  cb2Body.atPose sin cos 0 ⟨1, 1⟩ 2 ⟨1 / 2, 0⟩ 1 1

/-- A movable body with island index 1 at the position `(3, 2)` and the angle
`5`, its centre of mass at `(0, 1/4)` in body coordinates. -/
def poseBodyB {F : Type} [LinearOrderedField F] (sin cos : F → F) : cb2Body F :=
  cb2Body.atPose sin cos 1 ⟨3, 2⟩ 5 ⟨0, 1 / 4⟩ (1 / 2) (1 / 3)

/-- Solver data whose positions are the poses of `poseBodyA` (index 0) and
`poseBodyB` (every other index). -/
def poseData {F : Type} [LinearOrderedField F] (sin cos : F → F) : cb2SolverData F :=
  { step := { dt := 1 / 60, inv_dt := 60, dtRatio := 1, warmStarting := true }
    positions := fun i =>
      if i = 0 then { c := (poseBodyA sin cos).m_sweep.c, a := (poseBodyA sin cos).m_sweep.a }
      else { c := (poseBodyB sin cos).m_sweep.c, a := (poseBodyB sin cos).m_sweep.a }
    velocities := fun _ => { v := ⟨0, 0⟩, w := 0 } }

/-- A joint definition before `Initialize`: the bodies of `sampleJoint` and
targets that `Initialize` is to overwrite. -/
def sampleDef (F : Type) [LinearOrderedField F] : cb2MotorJointDef F :=
  { bodyA := (sampleJoint F).m_bodyA, bodyB := (sampleJoint F).m_bodyB
    linearOffset := ⟨9, 9⟩, angularOffset := 9
    maxForce := 1, maxTorque := 1, correctionFactor := 3 / 10 }

/-- Solver data for a step of `1/60` with warm starting: every body at the
origin, the body at island index 1 moving with velocity `(1, 0)` and spin `1`. -/
def sampleData (F : Type) [LinearOrderedField F] : cb2SolverData F :=
  { step := { dt := 1 / 60, inv_dt := 60, dtRatio := 1, warmStarting := true }
    positions := fun _ => { c := ⟨0, 0⟩, a := 0 }
    velocities := fun i => if i = 1 then { v := ⟨1, 0⟩, w := 1 } else { v := ⟨0, 0⟩, w := 0 } }

/-! ## Theorems -/

@[simp]
theorem Vec2.add_x (a b : Vec2 F) : (a + b).x = a.x + b.x := rfl
@[simp]
theorem Vec2.add_y (a b : Vec2 F) : (a + b).y = a.y + b.y := rfl
@[simp]
theorem Vec2.sub_x (a b : Vec2 F) : (a - b).x = a.x - b.x := rfl
@[simp]
theorem Vec2.sub_y (a b : Vec2 F) : (a - b).y = a.y - b.y := rfl
@[simp]
theorem Vec2.neg_x (a : Vec2 F) : (-a).x = -a.x := rfl
@[simp]
theorem Vec2.neg_y (a : Vec2 F) : (-a).y = -a.y := rfl
@[simp]
theorem Vec2.smul_x (k : F) (a : Vec2 F) : (k • a).x = k * a.x := rfl
@[simp]
theorem Vec2.smul_y (k : F) (a : Vec2 F) : (k • a).y = k * a.y := rfl
@[simp]
theorem Vec2.add_mk (a b c d : F) : Vec2.mk a b + Vec2.mk c d = ⟨a + c, b + d⟩ := rfl
@[simp]
theorem Vec2.sub_mk (a b c d : F) : Vec2.mk a b - Vec2.mk c d = ⟨a - c, b - d⟩ := rfl
@[simp]
theorem Vec2.neg_mk (a b : F) : -Vec2.mk a b = ⟨-a, -b⟩ := rfl
@[simp]
theorem Vec2.smul_mk (k a b : F) : k • Vec2.mk a b = ⟨k * a, k * b⟩ := rfl
@[simp]
theorem Vec2.smul_zero_vec (k : F) : k • (0 : Vec2 F) = 0 :=
  Vec2.ext (mul_zero k) (mul_zero k)
@[simp]
theorem Vec2.zero_smul_vec (a : Vec2 F) : (0 : F) • a = 0 :=
  Vec2.ext (zero_mul a.x) (zero_mul a.y)
@[simp]
theorem Vec2.sub_zero_vec (a : Vec2 F) : a - 0 = a :=
  Vec2.ext (sub_zero a.x) (sub_zero a.y)
@[simp]
theorem Vec2.add_zero_vec (a : Vec2 F) : a + 0 = a :=
  Vec2.ext (add_zero a.x) (add_zero a.y)
@[simp]
theorem Vec2.zero_x : (0 : Vec2 F).x = 0 := rfl
@[simp]
theorem Vec2.zero_y : (0 : Vec2 F).y = 0 := rfl

/-- Invariant of the `GetSupport` loop: started at index `s` from a pair
`best` that is the first maximum among the indices below `s`, the loop over
`s, ..., s + n - 1` ends in the first maximum among the indices below `s + n`. -/
theorem supportLoop_invariant (p : b2DistanceProxy F) (d : Vec2 F) (n : Nat) :
    ∀ (s : Nat) (best : Int × F),
      0 ≤ best.1 → best.1 < (s : Int) → best.2 = b2Dot (p.vertex best.1) d →
      (∀ j : Int, 0 ≤ j → j < (s : Int) → b2Dot (p.vertex j) d ≤ best.2) →
      (∀ j : Int, 0 ≤ j → j < best.1 → b2Dot (p.vertex j) d < best.2) →
      0 ≤ ((List.range' s n).foldl (p.supportStep d) best).1 ∧
      ((List.range' s n).foldl (p.supportStep d) best).1 < ((s + n : Nat) : Int) ∧
      ((List.range' s n).foldl (p.supportStep d) best).2
        = b2Dot (p.vertex ((List.range' s n).foldl (p.supportStep d) best).1) d ∧
      (∀ j : Int, 0 ≤ j → j < ((s + n : Nat) : Int) →
        b2Dot (p.vertex j) d ≤ ((List.range' s n).foldl (p.supportStep d) best).2) ∧
      (∀ j : Int, 0 ≤ j → j < ((List.range' s n).foldl (p.supportStep d) best).1 →
        b2Dot (p.vertex j) d < ((List.range' s n).foldl (p.supportStep d) best).2) := by
  induction n with
  | zero =>
    intro s best h0 hlt hval hmax hfirst
    simpa using ⟨h0, hlt, hval, hmax, hfirst⟩
  | succ n ih =>
    intro s best h0 hlt hval hmax hfirst
    have hcast : ((s + (n + 1) : Nat) : Int) = ((s + 1 + n : Nat) : Int) := by
      push_cast; ring
    rw [List.range'_succ, List.foldl_cons, hcast]
    by_cases hgt : b2Dot (p.vertex (s : Int)) d > best.2
    · have hstep : p.supportStep d best s = ((s : Int), b2Dot (p.vertex (s : Int)) d) := by
        simp [b2DistanceProxy.supportStep, hgt]
      rw [hstep]
      refine ih (s + 1) _ (by positivity) (by push_cast; omega) rfl ?_ ?_
      · intro j hj0 hjs
        rcases (show j < (s : Int) ∨ j = (s : Int) by push_cast at hjs; omega) with h | h
        · exact le_trans (hmax j hj0 h) (le_of_lt hgt)
        · rw [h]
      · intro j hj0 hjs
        exact lt_of_le_of_lt (hmax j hj0 hjs) hgt
    · have hstep : p.supportStep d best s = best := by
        simp [b2DistanceProxy.supportStep, hgt]
      rw [hstep]
      refine ih (s + 1) best h0 (by push_cast; omega) hval ?_ hfirst
      intro j hj0 hjs
      rcases (show j < (s : Int) ∨ j = (s : Int) by push_cast at hjs; omega) with h | h
      · exact hmax j hj0 h
      · rw [h]; exact not_lt.mp hgt

/-- C1. `GetSupport` on a proxy with at least one vertex returns an index `i`
with `0 ≤ i < m_count` whose vertex maximises the dot product with `d` over
all valid indices, and every vertex at a lower index has a strictly smaller
dot product (a tie goes to the lowest index). -/
theorem GetSupport_first_maximum (p : b2DistanceProxy F) (d : Vec2 F)
    (hcount : 1 ≤ p.m_count) (_hbuf : p.m_count ≤ (p.m_vertices.length : Int)) :
    0 ≤ p.GetSupport d ∧ p.GetSupport d < p.m_count ∧
    (∀ j : Int, 0 ≤ j → j < p.m_count →
      b2Dot (p.vertex j) d ≤ b2Dot (p.vertex (p.GetSupport d)) d) ∧
    (∀ j : Int, 0 ≤ j → j < p.GetSupport d →
      b2Dot (p.vertex j) d < b2Dot (p.vertex (p.GetSupport d)) d) := by
  have hn : ((1 + (p.m_count - 1).toNat : Nat) : Int) = p.m_count := by
    push_cast; omega
  have h := supportLoop_invariant p d (p.m_count - 1).toNat 1 (0, b2Dot (p.vertex 0) d)
    (le_refl _) (by norm_num) rfl
    (by
      intro j hj0 hj1
      have : j = 0 := by push_cast at hj1; omega
      rw [this])
    (by
      intro j hj0 hj1
      exact absurd hj1 (not_lt.mpr hj0))
  rw [hn] at h
  obtain ⟨h0, hlt, hval, hmax, hfirst⟩ := h
  refine ⟨h0, hlt, ?_, ?_⟩
  · intro j hj0 hj
    have := hmax j hj0 hj
    rw [hval] at this
    exact this
  · intro j hj0 hj
    have := hfirst j hj0 hj
    rw [hval] at this
    exact this

/-- A vector `w` perpendicular to the normal of `e` is the projection of
itself on `e`. -/
theorem proj_of_perp (ex ey wx wy : F) (hperp : ey * wx = ex * wy)
    (hrr : ex * ex + ey * ey ≠ 0) :
    wx = (wx * ex + wy * ey) / (ex * ex + ey * ey) * ex ∧
    wy = (wx * ex + wy * ey) / (ex * ex + ey * ey) * ey := by
  constructor
  · field_simp
    linear_combination ey * hperp
  · field_simp
    linear_combination (-ex) * hperp

/-- A rigid transform undoes the change to its local frame. -/
theorem b2Mul_b2MulT (xf : b2Transform F) (hq : xf.q.IsRotation) (P : Vec2 F) :
    b2Mul xf (b2MulT xf.q (P - xf.p)) = P := by
  have h : xf.q.s * xf.q.s + xf.q.c * xf.q.c = 1 := hq
  ext
  · show xf.q.c * (xf.q.c * (P.x - xf.p.x) + xf.q.s * (P.y - xf.p.y))
      - xf.q.s * (-xf.q.s * (P.x - xf.p.x) + xf.q.c * (P.y - xf.p.y)) + xf.p.x = P.x
    linear_combination (P.x - xf.p.x) * h
  · show xf.q.s * (xf.q.c * (P.x - xf.p.x) + xf.q.s * (P.y - xf.p.y))
      + xf.q.c * (-xf.q.s * (P.x - xf.p.x) + xf.q.c * (P.y - xf.p.y)) + xf.p.y = P.y
    linear_combination (P.y - xf.p.y) * h

/-- The body of `RayCast` written with its local variables named. -/
theorem RayCast_eq (sqrt : F → F) (self : b2EdgeShape F) (output : b2RayCastOutput F)
    (input : b2RayCastInput F) (xf : b2Transform F) (childIndex : Int) :
    self.RayCast sqrt output input xf childIndex =
      if self.rayDenominator sqrt input xf = 0 then (false, output)
      else if self.rayT sqrt input xf < 0 ∨ input.maxFraction < self.rayT sqrt input xf then
        (false, output)
      else if b2Dot (self.m_vertex2 - self.m_vertex1) (self.m_vertex2 - self.m_vertex1) = 0 then
        (false, output)
      else if self.rayS sqrt input xf < 0 ∨ 1 < self.rayS sqrt input xf then (false, output)
      else if self.rayNumerator sqrt input xf > 0 then
        (true, { normal := -self.rayNormal sqrt, fraction := self.rayT sqrt input xf })
      else (true, { normal := self.rayNormal sqrt, fraction := self.rayT sqrt input xf }) :=
  rfl

/-- What a `true` result of `RayCast` says about the values it computed. -/
theorem RayCast_true (sqrt : F → F) (self : b2EdgeShape F) (output : b2RayCastOutput F)
    (input : b2RayCastInput F) (xf : b2Transform F) (childIndex : Int)
    (hit : (self.RayCast sqrt output input xf childIndex).1 = true) :
    self.rayDenominator sqrt input xf ≠ 0 ∧
    0 ≤ self.rayT sqrt input xf ∧ self.rayT sqrt input xf ≤ input.maxFraction ∧
    b2Dot (self.m_vertex2 - self.m_vertex1) (self.m_vertex2 - self.m_vertex1) ≠ 0 ∧
    0 ≤ self.rayS sqrt input xf ∧ self.rayS sqrt input xf ≤ 1 ∧
    (self.RayCast sqrt output input xf childIndex).2.fraction = self.rayT sqrt input xf ∧
    (self.RayCast sqrt output input xf childIndex).2.normal =
      if self.rayNumerator sqrt input xf > 0 then -self.rayNormal sqrt else self.rayNormal sqrt := by
  rw [RayCast_eq] at hit ⊢
  split_ifs at hit ⊢ with h1 h2 h3 h4 h5
  all_goals first
    | exact absurd hit Bool.false_ne_true
    | (push_neg at h2 h4
       exact ⟨h1, h2.1, h2.2, h3, h4.1, h4.2, rfl, rfl⟩)

/-- The denominator of `RayCast` is the cross product of the local ray
direction with the edge, scaled by the normalisation factor `1 / |e|`. -/
theorem rayDenominator_eq (sqrt : F → F) (self : b2EdgeShape F)
    (input : b2RayCastInput F) (xf : b2Transform F) :
    self.rayDenominator sqrt input xf =
      (1 / sqrt ((self.m_vertex2 - self.m_vertex1).y * (self.m_vertex2 - self.m_vertex1).y
          + -(self.m_vertex2 - self.m_vertex1).x * -(self.m_vertex2 - self.m_vertex1).x))
        * cb2Cross (rayLocalD input xf) (self.m_vertex2 - self.m_vertex1) := by
  simp only [b2EdgeShape.rayDenominator, b2EdgeShape.rayNormal, Vec2.normalize, Vec2.length,
    b2Dot, cb2Cross]
  ring

/-- The numerator of `RayCast` is the cross product of `v1 - p1` with the
edge, scaled by the normalisation factor `1 / |e|`. -/
theorem rayNumerator_eq (sqrt : F → F) (self : b2EdgeShape F)
    (input : b2RayCastInput F) (xf : b2Transform F) :
    self.rayNumerator sqrt input xf =
      (1 / sqrt ((self.m_vertex2 - self.m_vertex1).y * (self.m_vertex2 - self.m_vertex1).y
          + -(self.m_vertex2 - self.m_vertex1).x * -(self.m_vertex2 - self.m_vertex1).x))
        * cb2Cross (self.m_vertex1 - rayLocalP1 input xf) (self.m_vertex2 - self.m_vertex1) := by
  simp only [b2EdgeShape.rayNumerator, b2EdgeShape.rayNormal, Vec2.normalize, Vec2.length,
    b2Dot, cb2Cross]
  ring

/-- In the edge's frame, the point of the ray at the computed `t` is the point
of the segment at the computed `s`. -/
theorem local_hit_on_segment (sqrt : F → F) (self : b2EdgeShape F)
    (input : b2RayCastInput F) (xf : b2Transform F)
    (hden : self.rayDenominator sqrt input xf ≠ 0)
    (hrr : b2Dot (self.m_vertex2 - self.m_vertex1) (self.m_vertex2 - self.m_vertex1) ≠ 0) :
    rayLocalP1 input xf + self.rayT sqrt input xf • rayLocalD input xf =
      self.m_vertex1 + self.rayS sqrt input xf • (self.m_vertex2 - self.m_vertex1) := by
  have ht : self.rayT sqrt input xf * self.rayDenominator sqrt input xf
      = self.rayNumerator sqrt input xf := div_mul_cancel₀ _ hden
  have hden2 := hden
  rw [rayDenominator_eq] at hden2 ht
  rw [rayNumerator_eq] at ht
  have hk := left_ne_zero_of_mul hden2
  have hcross : self.rayT sqrt input xf * cb2Cross (rayLocalD input xf) (self.m_vertex2 - self.m_vertex1)
      = cb2Cross (self.m_vertex1 - rayLocalP1 input xf) (self.m_vertex2 - self.m_vertex1) := by
    apply mul_left_cancel₀ hk
    linear_combination ht
  have hperp : (self.m_vertex2 - self.m_vertex1).y *
        (rayLocalP1 input xf + self.rayT sqrt input xf • rayLocalD input xf - self.m_vertex1).x
      = (self.m_vertex2 - self.m_vertex1).x *
        (rayLocalP1 input xf + self.rayT sqrt input xf • rayLocalD input xf - self.m_vertex1).y := by
    have hc := hcross
    simp only [cb2Cross] at hc
    show (self.m_vertex2 - self.m_vertex1).y *
        ((rayLocalP1 input xf).x + self.rayT sqrt input xf * (rayLocalD input xf).x
          - self.m_vertex1.x)
      = (self.m_vertex2 - self.m_vertex1).x *
        ((rayLocalP1 input xf).y + self.rayT sqrt input xf * (rayLocalD input xf).y
          - self.m_vertex1.y)
    have hx : (self.m_vertex1 - rayLocalP1 input xf).x
        = self.m_vertex1.x - (rayLocalP1 input xf).x := rfl
    have hy : (self.m_vertex1 - rayLocalP1 input xf).y
        = self.m_vertex1.y - (rayLocalP1 input xf).y := rfl
    rw [hx, hy] at hc
    linear_combination hc
  have hproj := proj_of_perp _ _ _ _ hperp hrr
  ext
  · show (rayLocalP1 input xf).x + self.rayT sqrt input xf * (rayLocalD input xf).x
      = self.m_vertex1.x + self.rayS sqrt input xf * (self.m_vertex2 - self.m_vertex1).x
    have h1 := hproj.1
    change (rayLocalP1 input xf).x + self.rayT sqrt input xf * (rayLocalD input xf).x
          - self.m_vertex1.x
        = self.rayS sqrt input xf * (self.m_vertex2 - self.m_vertex1).x at h1
    linear_combination h1
  · show (rayLocalP1 input xf).y + self.rayT sqrt input xf * (rayLocalD input xf).y
      = self.m_vertex1.y + self.rayS sqrt input xf * (self.m_vertex2 - self.m_vertex1).y
    have h2 := hproj.2
    change (rayLocalP1 input xf).y + self.rayT sqrt input xf * (rayLocalD input xf).y
          - self.m_vertex1.y
        = self.rayS sqrt input xf * (self.m_vertex2 - self.m_vertex1).y at h2
    linear_combination h2

/-- A rigid transform takes the point of the local ray at parameter `t` to the
point of the world ray at `t`. -/
theorem b2Mul_local_ray (input : b2RayCastInput F) (xf : b2Transform F)
    (hq : xf.q.IsRotation) (t : F) :
    b2Mul xf (rayLocalP1 input xf + t • rayLocalD input xf)
      = input.p1 + t • (input.p2 - input.p1) := by
  have h : xf.q.s * xf.q.s + xf.q.c * xf.q.c = 1 := hq
  ext
  · show xf.q.c * ((xf.q.c * (input.p1.x - xf.p.x) + xf.q.s * (input.p1.y - xf.p.y))
        + t * ((xf.q.c * (input.p2.x - xf.p.x) + xf.q.s * (input.p2.y - xf.p.y))
          - (xf.q.c * (input.p1.x - xf.p.x) + xf.q.s * (input.p1.y - xf.p.y))))
      - xf.q.s * ((-xf.q.s * (input.p1.x - xf.p.x) + xf.q.c * (input.p1.y - xf.p.y))
        + t * ((-xf.q.s * (input.p2.x - xf.p.x) + xf.q.c * (input.p2.y - xf.p.y))
          - (-xf.q.s * (input.p1.x - xf.p.x) + xf.q.c * (input.p1.y - xf.p.y)))) + xf.p.x
      = input.p1.x + t * (input.p2.x - input.p1.x)
    linear_combination (input.p1.x - xf.p.x + t * (input.p2.x - input.p1.x)) * h
  · show xf.q.s * ((xf.q.c * (input.p1.x - xf.p.x) + xf.q.s * (input.p1.y - xf.p.y))
        + t * ((xf.q.c * (input.p2.x - xf.p.x) + xf.q.s * (input.p2.y - xf.p.y))
          - (xf.q.c * (input.p1.x - xf.p.x) + xf.q.s * (input.p1.y - xf.p.y))))
      + xf.q.c * ((-xf.q.s * (input.p1.x - xf.p.x) + xf.q.c * (input.p1.y - xf.p.y))
        + t * ((-xf.q.s * (input.p2.x - xf.p.x) + xf.q.c * (input.p2.y - xf.p.y))
          - (-xf.q.s * (input.p1.x - xf.p.x) + xf.q.c * (input.p1.y - xf.p.y)))) + xf.p.y
      = input.p1.y + t * (input.p2.y - input.p1.y)
    linear_combination (input.p1.y - xf.p.y + t * (input.p2.y - input.p1.y)) * h

/-- C2. Soundness of `RayCast`: when it returns `true` under a rigid transform,
the reported fraction lies in `[0, maxFraction]` and the world point of the ray
at that fraction is the image under the transform of a point
`v1 + s * (v2 - v1)` of the segment with `0 ≤ s ≤ 1`. -/
theorem RayCast_sound (sqrt : F → F) (self : b2EdgeShape F) (output : b2RayCastOutput F)
    (input : b2RayCastInput F) (xf : b2Transform F) (childIndex : Int)
    (hq : xf.q.IsRotation)
    (hit : (self.RayCast sqrt output input xf childIndex).1 = true) :
    0 ≤ (self.RayCast sqrt output input xf childIndex).2.fraction ∧
    (self.RayCast sqrt output input xf childIndex).2.fraction ≤ input.maxFraction ∧
    ∃ s : F, 0 ≤ s ∧ s ≤ 1 ∧
      input.p1 + (self.RayCast sqrt output input xf childIndex).2.fraction
          • (input.p2 - input.p1)
        = b2Mul xf (self.m_vertex1 + s • (self.m_vertex2 - self.m_vertex1)) := by
  obtain ⟨hden, ht0, htmax, hrr, hs0, hs1, hfrac, _⟩ :=
    RayCast_true sqrt self output input xf childIndex hit
  rw [hfrac]
  refine ⟨ht0, htmax, self.rayS sqrt input xf, hs0, hs1, ?_⟩
  rw [← local_hit_on_segment sqrt self input xf hden hrr, b2Mul_local_ray input xf hq]

/-- A segment with distinct endpoints has a non-zero squared length. -/
theorem edge_rr_ne_zero (self : b2EdgeShape F) (hne : self.m_vertex1 ≠ self.m_vertex2) :
    b2Dot (self.m_vertex2 - self.m_vertex1) (self.m_vertex2 - self.m_vertex1) ≠ 0 := by
  intro h
  apply hne
  have h2 : (self.m_vertex2.x - self.m_vertex1.x) * (self.m_vertex2.x - self.m_vertex1.x)
      + (self.m_vertex2.y - self.m_vertex1.y) * (self.m_vertex2.y - self.m_vertex1.y) = 0 := h
  have hx : self.m_vertex2.x - self.m_vertex1.x = 0 := by
    nlinarith [mul_self_nonneg (self.m_vertex2.x - self.m_vertex1.x),
      mul_self_nonneg (self.m_vertex2.y - self.m_vertex1.y)]
  have hy : self.m_vertex2.y - self.m_vertex1.y = 0 := by
    nlinarith [mul_self_nonneg (self.m_vertex2.x - self.m_vertex1.x),
      mul_self_nonneg (self.m_vertex2.y - self.m_vertex1.y)]
  ext
  · linear_combination -hx
  · linear_combination -hy

/-- With an exact square root, the normalisation factor `1 / |e|` of an edge
with non-zero squared length is positive. -/
theorem edge_invLength_pos (sqrt : F → F) (hsqrt : ExactSqrt sqrt) (self : b2EdgeShape F)
    (hrr : b2Dot (self.m_vertex2 - self.m_vertex1) (self.m_vertex2 - self.m_vertex1) ≠ 0) :
    0 < 1 / sqrt ((self.m_vertex2 - self.m_vertex1).y * (self.m_vertex2 - self.m_vertex1).y
          + -(self.m_vertex2 - self.m_vertex1).x * -(self.m_vertex2 - self.m_vertex1).x) := by
  have hL : (self.m_vertex2 - self.m_vertex1).y * (self.m_vertex2 - self.m_vertex1).y
      + -(self.m_vertex2 - self.m_vertex1).x * -(self.m_vertex2 - self.m_vertex1).x
      = b2Dot (self.m_vertex2 - self.m_vertex1) (self.m_vertex2 - self.m_vertex1) := by
    simp only [b2Dot]; ring
  rw [hL]
  have hnn : 0 ≤ b2Dot (self.m_vertex2 - self.m_vertex1) (self.m_vertex2 - self.m_vertex1) := by
    simp only [b2Dot]
    nlinarith [mul_self_nonneg (self.m_vertex2 - self.m_vertex1).x,
      mul_self_nonneg (self.m_vertex2 - self.m_vertex1).y]
  obtain ⟨h0, hsq⟩ := hsqrt _ hnn
  have hne0 : sqrt (b2Dot (self.m_vertex2 - self.m_vertex1) (self.m_vertex2 - self.m_vertex1)) ≠ 0 := by
    intro h
    rw [h, mul_zero] at hsq
    exact hrr hsq.symm
  exact one_div_pos.mpr (lt_of_le_of_ne h0 (Ne.symm hne0))

/-- C3. Completeness of `RayCast` (exact square root): for an edge with
`v1 ≠ v2` and a ray not parallel to it, if the local ray at some `t` in
`[0, maxFraction]` meets the segment at some `s` in `[0, 1]`, then `RayCast`
returns `true` and reports the fraction `t`. -/
theorem RayCast_complete (sqrt : F → F) (hsqrt : ExactSqrt sqrt) (self : b2EdgeShape F)
    (output : b2RayCastOutput F) (input : b2RayCastInput F) (xf : b2Transform F)
    (childIndex : Int)
    (hne : self.m_vertex1 ≠ self.m_vertex2)
    (hnp : cb2Cross (rayLocalD input xf) (self.m_vertex2 - self.m_vertex1) ≠ 0)
    (t s : F) (ht0 : 0 ≤ t) (htmax : t ≤ input.maxFraction) (hs0 : 0 ≤ s) (hs1 : s ≤ 1)
    (hmeet : rayLocalP1 input xf + t • rayLocalD input xf
      = self.m_vertex1 + s • (self.m_vertex2 - self.m_vertex1)) :
    (self.RayCast sqrt output input xf childIndex).1 = true ∧
    (self.RayCast sqrt output input xf childIndex).2.fraction = t := by
  have hrr := edge_rr_ne_zero self hne
  have hk := edge_invLength_pos sqrt hsqrt self hrr
  have hden : self.rayDenominator sqrt input xf ≠ 0 := by
    rw [rayDenominator_eq]
    exact mul_ne_zero (ne_of_gt hk) hnp
  have hmx : (rayLocalP1 input xf).x + t * (rayLocalD input xf).x
      = self.m_vertex1.x + s * (self.m_vertex2 - self.m_vertex1).x := congrArg Vec2.x hmeet
  have hmy : (rayLocalP1 input xf).y + t * (rayLocalD input xf).y
      = self.m_vertex1.y + s * (self.m_vertex2 - self.m_vertex1).y := congrArg Vec2.y hmeet
  have hT : self.rayT sqrt input xf = t := by
    unfold b2EdgeShape.rayT
    rw [div_eq_iff hden, rayNumerator_eq, rayDenominator_eq]
    have hc : cb2Cross (self.m_vertex1 - rayLocalP1 input xf) (self.m_vertex2 - self.m_vertex1)
        = t * cb2Cross (rayLocalD input xf) (self.m_vertex2 - self.m_vertex1) := by
      show (self.m_vertex1.x - (rayLocalP1 input xf).x) * (self.m_vertex2 - self.m_vertex1).y
          - (self.m_vertex1.y - (rayLocalP1 input xf).y) * (self.m_vertex2 - self.m_vertex1).x
        = t * ((rayLocalD input xf).x * (self.m_vertex2 - self.m_vertex1).y
          - (rayLocalD input xf).y * (self.m_vertex2 - self.m_vertex1).x)
      linear_combination (-(self.m_vertex2 - self.m_vertex1).y) * hmx
        + (self.m_vertex2 - self.m_vertex1).x * hmy
    rw [hc]
    ring
  have hS : self.rayS sqrt input xf = s := by
    unfold b2EdgeShape.rayS
    rw [hT, div_eq_iff hrr]
    show ((rayLocalP1 input xf).x + t * (rayLocalD input xf).x - self.m_vertex1.x)
          * (self.m_vertex2 - self.m_vertex1).x
        + ((rayLocalP1 input xf).y + t * (rayLocalD input xf).y - self.m_vertex1.y)
          * (self.m_vertex2 - self.m_vertex1).y
      = s * ((self.m_vertex2 - self.m_vertex1).x * (self.m_vertex2 - self.m_vertex1).x
        + (self.m_vertex2 - self.m_vertex1).y * (self.m_vertex2 - self.m_vertex1).y)
    linear_combination (self.m_vertex2 - self.m_vertex1).x * hmx
      + (self.m_vertex2 - self.m_vertex1).y * hmy
  rw [RayCast_eq, hT, hS]
  rw [if_neg hden, if_neg (by push_neg; exact ⟨ht0, htmax⟩), if_neg hrr,
    if_neg (by push_neg; exact ⟨hs0, hs1⟩)]
  split_ifs <;> exact ⟨rfl, rfl⟩

/-- With an exact square root, the normal that a successful `RayCast` reports
has squared length one and is perpendicular to the edge in the edge's own
frame. -/
theorem RayCast_normal_local (sqrt : F → F) (hsqrt : ExactSqrt sqrt) (self : b2EdgeShape F)
    (output : b2RayCastOutput F) (input : b2RayCastInput F) (xf : b2Transform F)
    (childIndex : Int)
    (hit : (self.RayCast sqrt output input xf childIndex).1 = true) :
    (self.RayCast sqrt output input xf childIndex).2.normal.lengthSquared = 1 ∧
    b2Dot (self.RayCast sqrt output input xf childIndex).2.normal
      (self.m_vertex2 - self.m_vertex1) = 0 := by
  obtain ⟨_, _, _, hrr, _, _, _, hnormal⟩ :=
    RayCast_true sqrt self output input xf childIndex hit
  have hk := edge_invLength_pos sqrt hsqrt self hrr
  have hnn : 0 ≤ (self.m_vertex2 - self.m_vertex1).y * (self.m_vertex2 - self.m_vertex1).y
      + -(self.m_vertex2 - self.m_vertex1).x * -(self.m_vertex2 - self.m_vertex1).x := by
    nlinarith [mul_self_nonneg (self.m_vertex2 - self.m_vertex1).x,
      mul_self_nonneg (self.m_vertex2 - self.m_vertex1).y]
  obtain ⟨_, hsq⟩ := hsqrt _ hnn
  have hs0 := ne_of_gt (one_div_pos.mp hk)
  have key : ∀ ex ey r : F, r ≠ 0 → r * r = ey * ey + -ex * -ex →
      (ey * (1 / r)) * (ey * (1 / r)) + (-ex * (1 / r)) * (-ex * (1 / r)) = 1 := by
    intro ex ey r hr h
    field_simp
    linear_combination -h
  have hunit : (self.rayNormal sqrt).lengthSquared = 1 :=
    key (self.m_vertex2 - self.m_vertex1).x (self.m_vertex2 - self.m_vertex1).y _ hs0 hsq
  have hperp : b2Dot (self.rayNormal sqrt) (self.m_vertex2 - self.m_vertex1) = 0 := by
    simp only [b2EdgeShape.rayNormal, Vec2.normalize, Vec2.length, b2Dot]
    ring
  rw [hnormal]
  split_ifs
  · constructor
    · simpa [Vec2.lengthSquared] using hunit
    · have : b2Dot (-self.rayNormal sqrt) (self.m_vertex2 - self.m_vertex1)
          = -b2Dot (self.rayNormal sqrt) (self.m_vertex2 - self.m_vertex1) := by
        simp only [b2Dot, Vec2.neg_x, Vec2.neg_y]; ring
      rw [this, hperp, neg_zero]
  · exact ⟨hunit, hperp⟩

/-- C4. `RayCast` leaves the normal in the edge's frame.  The edge
`(0,0)-(1,0)` turned a quarter turn about the origin lies along the world `y`
axis; the world ray from `(-1, 1/2)` to `(1, 1/2)` hits it at fraction `1/2`,
and the reported normal is `(0, 1)`: its dot product with the edge as placed
in the world, `xf.q * (v2 - v1) = (0, 1)`, is `1`, not `0`. -/
theorem RayCast_normal_not_world_frame :
    b2Rot.IsRotation (⟨1, 0⟩ : b2Rot ℝ) ∧
    (unitEdge ℝ).RayCast Real.sqrt ⟨⟨0, 0⟩, 0⟩
        ⟨⟨-1, 1 / 2⟩, ⟨1, 1 / 2⟩, 1⟩ ⟨⟨0, 0⟩, ⟨1, 0⟩⟩ 0
      = (true, ⟨⟨0, 1⟩, 1 / 2⟩) ∧
    b2MulRot (⟨1, 0⟩ : b2Rot ℝ) ((unitEdge ℝ).m_vertex2 - (unitEdge ℝ).m_vertex1) = ⟨0, 1⟩ ∧
    b2Dot ((unitEdge ℝ).RayCast Real.sqrt ⟨⟨0, 0⟩, 0⟩
        ⟨⟨-1, 1 / 2⟩, ⟨1, 1 / 2⟩, 1⟩ ⟨⟨0, 0⟩, ⟨1, 0⟩⟩ 0).2.normal
      (b2MulRot (⟨1, 0⟩ : b2Rot ℝ) ((unitEdge ℝ).m_vertex2 - (unitEdge ℝ).m_vertex1)) = 1 := by
  have hrun : (unitEdge ℝ).RayCast Real.sqrt ⟨⟨0, 0⟩, 0⟩
        ⟨⟨-1, 1 / 2⟩, ⟨1, 1 / 2⟩, 1⟩ ⟨⟨0, 0⟩, ⟨1, 0⟩⟩ 0
      = (true, ⟨⟨0, 1⟩, 1 / 2⟩) := by
    rw [RayCast_eq]
    norm_num [unitEdge, b2EdgeShape.rayDenominator, b2EdgeShape.rayNumerator,
      b2EdgeShape.rayT, b2EdgeShape.rayS, b2EdgeShape.rayNormal, rayLocalD, rayLocalP1,
      b2MulT, b2Dot, Vec2.normalize, Vec2.length]
  refine ⟨?_, hrun, ?_, ?_⟩
  · norm_num [b2Rot.IsRotation]
  · norm_num [unitEdge, b2MulRot]
  · rw [hrun]
    norm_num [unitEdge, b2MulRot, b2Dot]

/-- C5, the claim as stated fails: the ray from `(1/2, 0)`, a point of the
line through the edge `(0,0)-(1,0)`, towards `(1/2, -1)` is reported as a hit
at fraction `0` with the normal `(0, -1)`, which points along the ray: its dot
product with the ray direction is `1`. -/
theorem RayCast_normal_along_ray_on_line :
    ((unitEdge ℝ).RayCast Real.sqrt ⟨⟨0, 0⟩, 0⟩
        ⟨⟨1 / 2, 0⟩, ⟨1 / 2, -1⟩, 1⟩ (identityTransform ℝ) 0).1 = true ∧
    ¬ b2Dot ((unitEdge ℝ).RayCast Real.sqrt ⟨⟨0, 0⟩, 0⟩
        ⟨⟨1 / 2, 0⟩, ⟨1 / 2, -1⟩, 1⟩ (identityTransform ℝ) 0).2.normal
      (rayLocalD ⟨⟨1 / 2, 0⟩, ⟨1 / 2, -1⟩, 1⟩ (identityTransform ℝ)) < 0 := by
  have hrun : (unitEdge ℝ).RayCast Real.sqrt ⟨⟨0, 0⟩, 0⟩
        ⟨⟨1 / 2, 0⟩, ⟨1 / 2, -1⟩, 1⟩ (identityTransform ℝ) 0
      = (true, ⟨⟨0, -1⟩, 0⟩) := by
    rw [RayCast_eq]
    norm_num [unitEdge, identityTransform, b2EdgeShape.rayDenominator,
      b2EdgeShape.rayNumerator, b2EdgeShape.rayT, b2EdgeShape.rayS, b2EdgeShape.rayNormal,
      rayLocalD, rayLocalP1, b2MulT, b2Dot, Vec2.normalize, Vec2.length]
  rw [hrun]
  norm_num [identityTransform, rayLocalD, b2MulT, b2Dot]

/-- C5, amended. On every hit whose ray origin is off the line through the
edge (`cross(v1 - p1, v2 - v1) ≠ 0` in the edge's frame), or whose direction
already has a negative dot product with the normal `(e.y, -e.x) / |e|`, the
reported normal faces against the ray: `dot(output.normal, d) < 0`. -/
theorem RayCast_normal_faces_against_ray (sqrt : F → F) (self : b2EdgeShape F)
    (output : b2RayCastOutput F) (input : b2RayCastInput F) (xf : b2Transform F)
    (childIndex : Int)
    (hit : (self.RayCast sqrt output input xf childIndex).1 = true)
    (hside : cb2Cross (self.m_vertex1 - rayLocalP1 input xf) (self.m_vertex2 - self.m_vertex1) ≠ 0
      ∨ b2Dot (self.rayNormal sqrt) (rayLocalD input xf) < 0) :
    b2Dot (self.RayCast sqrt output input xf childIndex).2.normal (rayLocalD input xf) < 0 := by
  obtain ⟨hden, ht0, _, _, _, _, _, hnormal⟩ :=
    RayCast_true sqrt self output input xf childIndex hit
  have hdot : b2Dot (self.rayNormal sqrt) (rayLocalD input xf)
      = self.rayDenominator sqrt input xf := rfl
  have hnegdot : b2Dot (-self.rayNormal sqrt) (rayLocalD input xf)
      = -self.rayDenominator sqrt input xf := by
    rw [← hdot]
    simp only [b2Dot, Vec2.neg_x, Vec2.neg_y]
    ring
  have ht : self.rayT sqrt input xf
      = self.rayNumerator sqrt input xf / self.rayDenominator sqrt input xf := rfl
  rw [hnormal]
  split_ifs with hnum
  · rw [hnegdot, neg_lt_zero]
    rcases lt_or_gt_of_ne hden with hneg | hpos
    · exact absurd (ht ▸ div_neg_of_pos_of_neg hnum hneg) (not_lt.mpr ht0)
    · exact hpos
  · rw [hdot]
    rcases lt_or_gt_of_ne hden with hneg | hpos
    · exact hneg
    · rcases lt_or_eq_of_le (not_lt.mp hnum) with hlt | heq
      · exact absurd (ht ▸ div_neg_of_neg_of_pos hlt hpos) (not_lt.mpr ht0)
      · rcases hside with hcross | hd
        · exfalso
          have hden2 := hden
          rw [rayDenominator_eq] at hden2
          rw [rayNumerator_eq] at heq
          exact (mul_ne_zero (left_ne_zero_of_mul hden2) hcross) heq
        · rw [hdot] at hd
          exact hd

/-- A run of the amended C5: the ray from `(1/2, 1)` to `(1/2, -1)` comes down
on the edge `(0,0)-(1,0)` from above. -/
theorem RayCast_normal_faces_against_ray_witness :
    ((unitEdge ℝ).RayCast Real.sqrt ⟨⟨0, 0⟩, 0⟩
        ⟨⟨1 / 2, 1⟩, ⟨1 / 2, -1⟩, 1⟩ (identityTransform ℝ) 0).1 = true ∧
    b2Dot ((unitEdge ℝ).RayCast Real.sqrt ⟨⟨0, 0⟩, 0⟩
        ⟨⟨1 / 2, 1⟩, ⟨1 / 2, -1⟩, 1⟩ (identityTransform ℝ) 0).2.normal
      (rayLocalD ⟨⟨1 / 2, 1⟩, ⟨1 / 2, -1⟩, 1⟩ (identityTransform ℝ)) < 0 := by
  have hrun : (unitEdge ℝ).RayCast Real.sqrt ⟨⟨0, 0⟩, 0⟩
        ⟨⟨1 / 2, 1⟩, ⟨1 / 2, -1⟩, 1⟩ (identityTransform ℝ) 0
      = (true, ⟨⟨0, 1⟩, 1 / 2⟩) := by
    rw [RayCast_eq]
    norm_num [unitEdge, identityTransform, b2EdgeShape.rayDenominator,
      b2EdgeShape.rayNumerator, b2EdgeShape.rayT, b2EdgeShape.rayS, b2EdgeShape.rayNormal,
      rayLocalD, rayLocalP1, b2MulT, b2Dot, Vec2.normalize, Vec2.length]
  have hhit : ((unitEdge ℝ).RayCast Real.sqrt ⟨⟨0, 0⟩, 0⟩
        ⟨⟨1 / 2, 1⟩, ⟨1 / 2, -1⟩, 1⟩ (identityTransform ℝ) 0).1 = true := by
    rw [hrun]
  exact ⟨hhit, RayCast_normal_faces_against_ray Real.sqrt (unitEdge ℝ) ⟨⟨0, 0⟩, 0⟩
    ⟨⟨1 / 2, 1⟩, ⟨1 / 2, -1⟩, 1⟩ (identityTransform ℝ) 0 hhit
    (Or.inl (by norm_num [unitEdge, identityTransform, rayLocalP1, b2MulT, cb2Cross]))⟩

/-- In exact arithmetic a ray parallel to the edge in the edge's frame
(`cross(p2 - p1, v2 - v1) = 0`) is rejected: the denominator is
`(1 / |e|) * cross(d, e) = 0`, so `RayCast` returns `false` and the caller's
output is handed back as it was. -/
theorem RayCast_parallel_rejected (sqrt : F → F) (self : b2EdgeShape F)
    (output : b2RayCastOutput F) (input : b2RayCastInput F) (xf : b2Transform F)
    (childIndex : Int)
    (hpar : cb2Cross (rayLocalD input xf) (self.m_vertex2 - self.m_vertex1) = 0) :
    self.RayCast sqrt output input xf childIndex = (false, output) := by
  rw [RayCast_eq, if_pos]
  rw [rayDenominator_eq, hpar, mul_zero]

/-- An exact run: the ray from `(0, 0)` to `(1, 0)` lies along the edge
`(0,0)-(1,0)`. -/
theorem RayCast_parallel_rejected_witness :
    cb2Cross (rayLocalD ⟨⟨0, 0⟩, ⟨1, 0⟩, 1⟩ (identityTransform ℝ))
        ((unitEdge ℝ).m_vertex2 - (unitEdge ℝ).m_vertex1) = 0 ∧
    (unitEdge ℝ).RayCast Real.sqrt ⟨⟨7, 7⟩, 7⟩ ⟨⟨0, 0⟩, ⟨1, 0⟩, 1⟩ (identityTransform ℝ) 0
      = (false, ⟨⟨7, 7⟩, 7⟩) :=
  ⟨by norm_num [unitEdge, identityTransform, rayLocalD, b2MulT, cb2Cross],
   RayCast_parallel_rejected Real.sqrt (unitEdge ℝ) ⟨⟨7, 7⟩, 7⟩ ⟨⟨0, 0⟩, ⟨1, 0⟩, 1⟩
     (identityTransform ℝ) 0
     (by norm_num [unitEdge, identityTransform, rayLocalD, b2MulT, cb2Cross])⟩

/-- C7. `ComputeAABB` returns the componentwise minimum of the transformed
vertices `v1`, `v2` lowered by `(r, r)` and their componentwise maximum raised
by `(r, r)`, `r` the skin radius; for the vertices `(0,0)-(1,0)` at the identity
transform the box is `lower = (-r, -r)`, `upper = (1 + r, r)`. -/
theorem ComputeAABB_bounds (self : b2EdgeShape F) (xf : b2Transform F) (childIndex : Int) :
    (self.ComputeAABB xf childIndex).lowerBound
      = b2Min (b2Mul xf self.m_vertex1) (b2Mul xf self.m_vertex2)
        - ⟨self.m_radius, self.m_radius⟩ ∧
    (self.ComputeAABB xf childIndex).upperBound
      = b2Max (b2Mul xf self.m_vertex1) (b2Mul xf self.m_vertex2)
        + ⟨self.m_radius, self.m_radius⟩ ∧
    (self.ComputeAABB xf childIndex).lowerBound.x
      = min (xf.q.c * self.m_vertex1.x - xf.q.s * self.m_vertex1.y + xf.p.x)
          (xf.q.c * self.m_vertex2.x - xf.q.s * self.m_vertex2.y + xf.p.x) - self.m_radius ∧
    (self.ComputeAABB xf childIndex).lowerBound.y
      = min (xf.q.s * self.m_vertex1.x + xf.q.c * self.m_vertex1.y + xf.p.y)
          (xf.q.s * self.m_vertex2.x + xf.q.c * self.m_vertex2.y + xf.p.y) - self.m_radius ∧
    (self.ComputeAABB xf childIndex).upperBound.x
      = max (xf.q.c * self.m_vertex1.x - xf.q.s * self.m_vertex1.y + xf.p.x)
          (xf.q.c * self.m_vertex2.x - xf.q.s * self.m_vertex2.y + xf.p.x) + self.m_radius ∧
    (self.ComputeAABB xf childIndex).upperBound.y
      = max (xf.q.s * self.m_vertex1.x + xf.q.c * self.m_vertex1.y + xf.p.y)
          (xf.q.s * self.m_vertex2.x + xf.q.c * self.m_vertex2.y + xf.p.y) + self.m_radius ∧
    ∀ (r : F) (v0 v3 : Vec2 F) (h0 h3 : Bool),
      (b2EdgeShape.mk r ⟨0, 0⟩ ⟨1, 0⟩ v0 v3 h0 h3).ComputeAABB (identityTransform F) childIndex
        = { lowerBound := ⟨-r, -r⟩, upperBound := ⟨1 + r, r⟩ } := by
  refine ⟨rfl, rfl, rfl, rfl, rfl, rfl, ?_⟩
  intro r v0 v3 h0 h3
  simp [b2EdgeShape.ComputeAABB, identityTransform, b2Mul, b2Min, b2Max]

/-- C8. `ComputeMass` ignores the density: for every edge and every density
the mass is `0`, the rotational inertia is `0`, and the centre is
`0.5 * (v1 + v2)`, the midpoint of the segment. -/
theorem ComputeMass_zero_mass_midpoint (self : b2EdgeShape F) (density : F) :
    (self.ComputeMass density).mass = 0 ∧
    (self.ComputeMass density).I = 0 ∧
    (self.ComputeMass density).center = (1 / 2 : F) • (self.m_vertex1 + self.m_vertex2) ∧
    (self.ComputeMass density).center - self.m_vertex1
      = self.m_vertex2 - (self.ComputeMass density).center := by
  refine ⟨rfl, rfl, rfl, ?_⟩
  ext
  · show 1 / 2 * (self.m_vertex1.x + self.m_vertex2.x) - self.m_vertex1.x
      = self.m_vertex2.x - 1 / 2 * (self.m_vertex1.x + self.m_vertex2.x)
    ring
  · show 1 / 2 * (self.m_vertex1.y + self.m_vertex2.y) - self.m_vertex1.y
      = self.m_vertex2.y - 1 / 2 * (self.m_vertex1.y + self.m_vertex2.y)
    ring

/-- The real square root is exact on non-negative reals. -/
theorem exactSqrt_real : ExactSqrt Real.sqrt :=
  fun x hx => ⟨Real.sqrt_nonneg x, Real.mul_self_sqrt hx⟩

/-- A run of C1 on the unit square in the direction `(1, 0)`. -/
theorem GetSupport_first_maximum_witness :
    (1 : Int) ≤ (squareProxy ℚ).m_count ∧
    (squareProxy ℚ).m_count ≤ ((squareProxy ℚ).m_vertices.length : Int) ∧
    (0 ≤ (squareProxy ℚ).GetSupport ⟨1, 0⟩ ∧
      (squareProxy ℚ).GetSupport ⟨1, 0⟩ < (squareProxy ℚ).m_count ∧
      (∀ j : Int, 0 ≤ j → j < (squareProxy ℚ).m_count →
        b2Dot ((squareProxy ℚ).vertex j) ⟨1, 0⟩
          ≤ b2Dot ((squareProxy ℚ).vertex ((squareProxy ℚ).GetSupport ⟨1, 0⟩)) ⟨1, 0⟩) ∧
      (∀ j : Int, 0 ≤ j → j < (squareProxy ℚ).GetSupport ⟨1, 0⟩ →
        b2Dot ((squareProxy ℚ).vertex j) ⟨1, 0⟩
          < b2Dot ((squareProxy ℚ).vertex ((squareProxy ℚ).GetSupport ⟨1, 0⟩)) ⟨1, 0⟩)) :=
  ⟨by simp [squareProxy], by simp [squareProxy],
   GetSupport_first_maximum (squareProxy ℚ) ⟨1, 0⟩ (by simp [squareProxy])
     (by simp [squareProxy])⟩

/-- A run of C2: the edge `(0,0)-(1,0)` turned a quarter turn, hit by the world
ray from `(-1, 1/2)` to `(1, 1/2)`. -/
theorem RayCast_sound_witness :
    b2Rot.IsRotation (⟨1, 0⟩ : b2Rot ℝ) ∧
    ((unitEdge ℝ).RayCast Real.sqrt ⟨⟨0, 0⟩, 0⟩
        ⟨⟨-1, 1 / 2⟩, ⟨1, 1 / 2⟩, 1⟩ ⟨⟨0, 0⟩, ⟨1, 0⟩⟩ 0).1 = true ∧
    (0 ≤ ((unitEdge ℝ).RayCast Real.sqrt ⟨⟨0, 0⟩, 0⟩
        ⟨⟨-1, 1 / 2⟩, ⟨1, 1 / 2⟩, 1⟩ ⟨⟨0, 0⟩, ⟨1, 0⟩⟩ 0).2.fraction ∧
     ((unitEdge ℝ).RayCast Real.sqrt ⟨⟨0, 0⟩, 0⟩
        ⟨⟨-1, 1 / 2⟩, ⟨1, 1 / 2⟩, 1⟩ ⟨⟨0, 0⟩, ⟨1, 0⟩⟩ 0).2.fraction ≤ 1 ∧
     ∃ s : ℝ, 0 ≤ s ∧ s ≤ 1 ∧
      (⟨-1, 1 / 2⟩ : Vec2 ℝ) + ((unitEdge ℝ).RayCast Real.sqrt ⟨⟨0, 0⟩, 0⟩
          ⟨⟨-1, 1 / 2⟩, ⟨1, 1 / 2⟩, 1⟩ ⟨⟨0, 0⟩, ⟨1, 0⟩⟩ 0).2.fraction
            • ((⟨1, 1 / 2⟩ : Vec2 ℝ) - ⟨-1, 1 / 2⟩)
        = b2Mul ⟨⟨0, 0⟩, ⟨1, 0⟩⟩ ((unitEdge ℝ).m_vertex1
            + s • ((unitEdge ℝ).m_vertex2 - (unitEdge ℝ).m_vertex1))) := by
  have hrot : b2Rot.IsRotation (⟨1, 0⟩ : b2Rot ℝ) := by norm_num [b2Rot.IsRotation]
  have hhit : ((unitEdge ℝ).RayCast Real.sqrt ⟨⟨0, 0⟩, 0⟩
        ⟨⟨-1, 1 / 2⟩, ⟨1, 1 / 2⟩, 1⟩ ⟨⟨0, 0⟩, ⟨1, 0⟩⟩ 0).1 = true := by
    rw [RayCast_eq]
    norm_num [unitEdge, b2EdgeShape.rayDenominator, b2EdgeShape.rayNumerator,
      b2EdgeShape.rayT, b2EdgeShape.rayS, b2EdgeShape.rayNormal, rayLocalD, rayLocalP1,
      b2MulT, b2Dot, Vec2.normalize, Vec2.length]
  exact ⟨hrot, hhit, RayCast_sound Real.sqrt (unitEdge ℝ) ⟨⟨0, 0⟩, 0⟩
    ⟨⟨-1, 1 / 2⟩, ⟨1, 1 / 2⟩, 1⟩ ⟨⟨0, 0⟩, ⟨1, 0⟩⟩ 0 hrot hhit⟩

/-- A run of C3: the ray from `(1/2, 1)` to `(1/2, -1)` meets the edge
`(0,0)-(1,0)` at `t = 1/2`, `s = 1/2`. -/
theorem RayCast_complete_witness :
    ExactSqrt Real.sqrt ∧
    (unitEdge ℝ).m_vertex1 ≠ (unitEdge ℝ).m_vertex2 ∧
    cb2Cross (rayLocalD ⟨⟨1 / 2, 1⟩, ⟨1 / 2, -1⟩, 1⟩ (identityTransform ℝ))
        ((unitEdge ℝ).m_vertex2 - (unitEdge ℝ).m_vertex1) ≠ 0 ∧
    rayLocalP1 ⟨⟨1 / 2, 1⟩, ⟨1 / 2, -1⟩, 1⟩ (identityTransform ℝ)
        + (1 / 2 : ℝ) • rayLocalD ⟨⟨1 / 2, 1⟩, ⟨1 / 2, -1⟩, 1⟩ (identityTransform ℝ)
      = (unitEdge ℝ).m_vertex1
        + (1 / 2 : ℝ) • ((unitEdge ℝ).m_vertex2 - (unitEdge ℝ).m_vertex1) ∧
    ((unitEdge ℝ).RayCast Real.sqrt ⟨⟨0, 0⟩, 0⟩
        ⟨⟨1 / 2, 1⟩, ⟨1 / 2, -1⟩, 1⟩ (identityTransform ℝ) 0).1 = true ∧
    ((unitEdge ℝ).RayCast Real.sqrt ⟨⟨0, 0⟩, 0⟩
        ⟨⟨1 / 2, 1⟩, ⟨1 / 2, -1⟩, 1⟩ (identityTransform ℝ) 0).2.fraction = 1 / 2 := by
  have hne : (unitEdge ℝ).m_vertex1 ≠ (unitEdge ℝ).m_vertex2 := by
    intro h
    have hx := congrArg Vec2.x h
    norm_num [unitEdge] at hx
  have hnp : cb2Cross (rayLocalD ⟨⟨1 / 2, 1⟩, ⟨1 / 2, -1⟩, 1⟩ (identityTransform ℝ))
      ((unitEdge ℝ).m_vertex2 - (unitEdge ℝ).m_vertex1) ≠ 0 := by
    norm_num [unitEdge, identityTransform, rayLocalD, b2MulT, cb2Cross]
  have hmeet : rayLocalP1 ⟨⟨1 / 2, 1⟩, ⟨1 / 2, -1⟩, 1⟩ (identityTransform ℝ)
        + (1 / 2 : ℝ) • rayLocalD ⟨⟨1 / 2, 1⟩, ⟨1 / 2, -1⟩, 1⟩ (identityTransform ℝ)
      = (unitEdge ℝ).m_vertex1
        + (1 / 2 : ℝ) • ((unitEdge ℝ).m_vertex2 - (unitEdge ℝ).m_vertex1) := by
    norm_num [unitEdge, identityTransform, rayLocalD, rayLocalP1, b2MulT]
  exact ⟨exactSqrt_real, hne, hnp, hmeet,
    RayCast_complete Real.sqrt exactSqrt_real (unitEdge ℝ) ⟨⟨0, 0⟩, 0⟩
      ⟨⟨1 / 2, 1⟩, ⟨1 / 2, -1⟩, 1⟩ (identityTransform ℝ) 0 hne hnp (1 / 2) (1 / 2)
      (by norm_num) (by norm_num) (by norm_num) (by norm_num) hmeet⟩

/-- With an exact square root, `sqrt x ≤ M` as soon as `x ≤ M * M`, for
non-negative `x` and `M`. -/
theorem sqrt_le_of_le_mul_self (sqrt : F → F) (hsqrt : ExactSqrt sqrt) (x M : F)
    (hx : 0 ≤ x) (hM : 0 ≤ M) (h : x ≤ M * M) : sqrt x ≤ M := by
  obtain ⟨_, hsq⟩ := hsqrt x hx
  by_contra hgt
  push_neg at hgt
  have hlt : M * M < sqrt x * sqrt x := mul_lt_mul'' hgt hgt hM hM
  rw [hsq] at hlt
  exact absurd h (not_le.mpr hlt)

/-- The length clamp of `SolveVelocityConstraints`: a vector longer than `M`
is normalized and scaled to the length `M`, any other vector is kept; with an
exact square root the outcome is never longer than `M`. -/
theorem clamp_length_le (sqrt : F → F) (hsqrt : ExactSqrt sqrt) (L : Vec2 F) (M : F)
    (hM : 0 ≤ M) :
    Vec2.length sqrt (if L.lengthSquared > M * M then M • L.normalize sqrt else L) ≤ M := by
  have hLnn : 0 ≤ L.x * L.x + L.y * L.y := by
    nlinarith [mul_self_nonneg L.x, mul_self_nonneg L.y]
  split_ifs with hlong
  · have hlong2 : L.x * L.x + L.y * L.y > M * M := hlong
    obtain ⟨_, hsq⟩ := hsqrt _ hLnn
    have hpos : 0 < L.x * L.x + L.y * L.y := lt_of_le_of_lt (mul_self_nonneg M) hlong2
    have hr : sqrt (L.x * L.x + L.y * L.y) ≠ 0 := by
      intro h0
      rw [h0, mul_zero] at hsq
      exact (ne_of_gt hpos) hsq.symm
    have key : ∀ x y r : F, r ≠ 0 → r * r = x * x + y * y →
        M * (x * (1 / r)) * (M * (x * (1 / r))) + M * (y * (1 / r)) * (M * (y * (1 / r)))
          = M * M := by
      intro x y r hr0 h
      field_simp
      linear_combination (-(M ^ 2)) * h
    have hlen : Vec2.length sqrt (M • L.normalize sqrt) = sqrt (M * M) :=
      congrArg sqrt (key L.x L.y _ hr hsq)
    rw [hlen]
    exact sqrt_le_of_le_mul_self sqrt hsqrt _ M (mul_self_nonneg M) hM (le_refl _)
  · exact sqrt_le_of_le_mul_self sqrt hsqrt _ M hLnn hM (not_lt.mp hlong)

/-- One `SolveVelocityConstraints` call, from any joint state and any solver
data, leaves an accumulated linear impulse no longer than `dt * maxForce`
when that bound is non-negative and the square root is exact. -/
theorem SolveVelocityConstraints_linearImpulse_le (sqrt : F → F) (hsqrt : ExactSqrt sqrt)
    (self : cb2MotorJoint F) (data : cb2SolverData F)
    (hM : 0 ≤ data.step.dt * self.m_maxForce) :
    Vec2.length sqrt (self.SolveVelocityConstraints sqrt data).1.m_linearImpulse
      ≤ data.step.dt * self.m_maxForce :=
  clamp_length_le sqrt hsqrt _ _ hM

/-- The solve iterations change neither the step nor the joint's limits. -/
theorem solveIterations_frame (sqrt : F → F) (n : Nat)
    (st : cb2MotorJoint F × cb2SolverData F) :
    (cb2MotorJoint.solveIterations sqrt n st).2.step = st.2.step ∧
    (cb2MotorJoint.solveIterations sqrt n st).1.m_maxForce = st.1.m_maxForce ∧
    (cb2MotorJoint.solveIterations sqrt n st).1.m_maxTorque = st.1.m_maxTorque := by
  induction n with
  | zero => exact ⟨rfl, rfl, rfl⟩
  | succ n ih =>
    obtain ⟨h1, h2, h3⟩ := ih
    refine ⟨?_, ?_, ?_⟩
    · show (cb2MotorJoint.solveIterations sqrt n st).2.step = st.2.step
      exact h1
    · show (cb2MotorJoint.solveIterations sqrt n st).1.m_maxForce = st.1.m_maxForce
      exact h2
    · show (cb2MotorJoint.solveIterations sqrt n st).1.m_maxTorque = st.1.m_maxTorque
      exact h3

/-- C9. With `dt ≥ 0`, `maxForce ≥ 0` and an exact square root: after
`InitVelocityConstraints` followed by `n ≥ 1` calls of
`SolveVelocityConstraints`, the accumulated linear impulse is no longer than
`dt * maxForce`, whatever the joint state, the solver data and the impulse held
before the first solve. -/
theorem linearImpulse_le_after_solves (sqrt sin cos : F → F) (epsilon : F)
    (hsqrt : ExactSqrt sqrt) (self : cb2MotorJoint F) (data : cb2SolverData F)
    (hdt : 0 ≤ data.step.dt) (hforce : 0 ≤ self.m_maxForce) (n : Nat) (hn : 1 ≤ n) :
    Vec2.length sqrt (cb2MotorJoint.solveIterations sqrt n
        (self.InitVelocityConstraints sin cos epsilon data)).1.m_linearImpulse
      ≤ data.step.dt * self.m_maxForce := by
  obtain ⟨k, rfl⟩ : ∃ k, n = k + 1 := ⟨n - 1, by omega⟩
  obtain ⟨hstep, hmax, _⟩ :=
    solveIterations_frame sqrt k (self.InitVelocityConstraints sin cos epsilon data)
  have hstep2 : (cb2MotorJoint.solveIterations sqrt k
      (self.InitVelocityConstraints sin cos epsilon data)).2.step = data.step := hstep
  have hmax2 : (cb2MotorJoint.solveIterations sqrt k
      (self.InitVelocityConstraints sin cos epsilon data)).1.m_maxForce = self.m_maxForce := hmax
  have h := SolveVelocityConstraints_linearImpulse_le sqrt hsqrt
    (cb2MotorJoint.solveIterations sqrt k
      (self.InitVelocityConstraints sin cos epsilon data)).1
    (cb2MotorJoint.solveIterations sqrt k
      (self.InitVelocityConstraints sin cos epsilon data)).2
  rw [hstep2, hmax2] at h
  exact h (mul_nonneg hdt hforce)

/-- A run of C9: two solves of the sample joint, which enters the step with the
impulse `(3, 4)` of length `5` against the bound `1/60`. -/
theorem linearImpulse_le_after_solves_witness :
    ExactSqrt Real.sqrt ∧ 0 ≤ (sampleData ℝ).step.dt ∧ 0 ≤ (sampleJoint ℝ).m_maxForce ∧
    1 ≤ 2 ∧
    Vec2.length Real.sqrt (cb2MotorJoint.solveIterations Real.sqrt 2
        ((sampleJoint ℝ).InitVelocityConstraints Real.sin Real.cos 0
          (sampleData ℝ))).1.m_linearImpulse
      ≤ (sampleData ℝ).step.dt * (sampleJoint ℝ).m_maxForce :=
  ⟨exactSqrt_real, by norm_num [sampleData], by norm_num [sampleJoint], by norm_num,
   linearImpulse_le_after_solves Real.sqrt Real.sin Real.cos 0 exactSqrt_real
     (sampleJoint ℝ) (sampleData ℝ) (by norm_num [sampleData]) (by norm_num [sampleJoint])
     2 (by norm_num)⟩

/-- C10. With `dt ≥ 0` and `maxTorque ≥ 0`, after a `SolveVelocityConstraints`
call from any joint state and any solver data the accumulated angular impulse
lies between `-dt * maxTorque` and `dt * maxTorque`. -/
theorem angularImpulse_bounded_after_solve (sqrt : F → F) (self : cb2MotorJoint F)
    (data : cb2SolverData F) (hdt : 0 ≤ data.step.dt) (htorque : 0 ≤ self.m_maxTorque) :
    -data.step.dt * self.m_maxTorque ≤ (self.SolveVelocityConstraints sqrt data).1.m_angularImpulse ∧
    (self.SolveVelocityConstraints sqrt data).1.m_angularImpulse
      ≤ data.step.dt * self.m_maxTorque := by
  have hM : 0 ≤ data.step.dt * self.m_maxTorque := mul_nonneg hdt htorque
  have hval : (self.SolveVelocityConstraints sqrt data).1.m_angularImpulse
      = cb2Clamp (self.m_angularImpulse + -self.m_angularMass *
          ((data.velocities self.m_indexB).w - (data.velocities self.m_indexA).w
            + data.step.inv_dt * self.m_correctionFactor * self.m_angularError))
        (-(data.step.dt * self.m_maxTorque)) (data.step.dt * self.m_maxTorque) := rfl
  rw [hval, neg_mul]
  unfold cb2Clamp
  constructor
  · exact le_max_left _ _
  · exact max_le (by linarith) (min_le_right _ _)

/-- A run of C10 on the sample joint, which enters the solve with the angular
impulse `5` against the bound `1/60`. -/
theorem angularImpulse_bounded_after_solve_witness :
    0 ≤ (sampleData ℝ).step.dt ∧ 0 ≤ (sampleJoint ℝ).m_maxTorque ∧
    -(sampleData ℝ).step.dt * (sampleJoint ℝ).m_maxTorque
      ≤ ((sampleJoint ℝ).SolveVelocityConstraints Real.sqrt (sampleData ℝ)).1.m_angularImpulse ∧
    ((sampleJoint ℝ).SolveVelocityConstraints Real.sqrt (sampleData ℝ)).1.m_angularImpulse
      ≤ (sampleData ℝ).step.dt * (sampleJoint ℝ).m_maxTorque :=
  ⟨by norm_num [sampleData], by norm_num [sampleJoint],
   angularImpulse_bounded_after_solve Real.sqrt (sampleJoint ℝ) (sampleData ℝ)
     (by norm_num [sampleData]) (by norm_num [sampleJoint])⟩

/-- The velocity array after `SolveVelocityConstraints`: the entry of body A
is written first, the entry of body B second. -/
theorem SolveVelocityConstraints_velocities (sqrt : F → F) (self : cb2MotorJoint F)
    (data : cb2SolverData F) :
    (self.SolveVelocityConstraints sqrt data).2.velocities
      = Function.update (Function.update data.velocities self.m_indexA
          (self.solvedVelocityA sqrt data)) self.m_indexB (self.solvedVelocityB sqrt data) :=
  rfl

/-- The velocity array after `InitVelocityConstraints`: the entry of body A is
written first, the entry of body B second. -/
theorem InitVelocityConstraints_velocities (sin cos : F → F) (epsilon : F)
    (self : cb2MotorJoint F) (data : cb2SolverData F) :
    (self.InitVelocityConstraints sin cos epsilon data).2.velocities
      = Function.update (Function.update data.velocities self.m_bodyA.m_islandIndex
          (self.initVelocityA sin cos epsilon data)) self.m_bodyB.m_islandIndex
          (self.initVelocityB sin cos epsilon data) :=
  rfl

/-- The accumulated impulses after `InitVelocityConstraints`: rescaled by
`dtRatio` on a warm start, zero otherwise. -/
theorem InitVelocityConstraints_impulses (sin cos : F → F) (epsilon : F)
    (self : cb2MotorJoint F) (data : cb2SolverData F) :
    (self.InitVelocityConstraints sin cos epsilon data).1.m_linearImpulse
      = (if data.step.warmStarting then data.step.dtRatio • self.m_linearImpulse else 0) ∧
    (self.InitVelocityConstraints sin cos epsilon data).1.m_angularImpulse
      = (if data.step.warmStarting then self.m_angularImpulse * data.step.dtRatio else 0) :=
  ⟨rfl, rfl⟩

/-- C11. Warm start: with `step.warmStarting` set and distinct island indices,
`InitVelocityConstraints` stores `P = dtRatio * m_linearImpulse` and
`L = dtRatio * m_angularImpulse` as the accumulated impulses and applies them
once: body A's entry becomes `vA - mA * P`, `wA - iA * (cross(rA, P) + L)`,
body B's entry `vB + mB * P`, `wB + iB * (cross(rB, P) + L)`, and no other
entry of the velocity array changes. -/
theorem InitVelocityConstraints_warm_start (sin cos : F → F) (epsilon : F)
    (self : cb2MotorJoint F) (data : cb2SolverData F)
    (hwarm : data.step.warmStarting = true)
    (hidx : self.m_bodyA.m_islandIndex ≠ self.m_bodyB.m_islandIndex) :
    (self.InitVelocityConstraints sin cos epsilon data).1.m_linearImpulse
      = data.step.dtRatio • self.m_linearImpulse ∧
    (self.InitVelocityConstraints sin cos epsilon data).1.m_angularImpulse
      = data.step.dtRatio * self.m_angularImpulse ∧
    (self.InitVelocityConstraints sin cos epsilon data).2.velocities self.m_bodyA.m_islandIndex
      = { v := (data.velocities self.m_bodyA.m_islandIndex).v
            - self.m_bodyA.m_invMass • (data.step.dtRatio • self.m_linearImpulse)
          w := (data.velocities self.m_bodyA.m_islandIndex).w
            - self.m_bodyA.m_invI *
              (cb2Cross (self.InitVelocityConstraints sin cos epsilon data).1.m_rA
                  (data.step.dtRatio • self.m_linearImpulse)
                + data.step.dtRatio * self.m_angularImpulse) } ∧
    (self.InitVelocityConstraints sin cos epsilon data).2.velocities self.m_bodyB.m_islandIndex
      = { v := (data.velocities self.m_bodyB.m_islandIndex).v
            + self.m_bodyB.m_invMass • (data.step.dtRatio • self.m_linearImpulse)
          w := (data.velocities self.m_bodyB.m_islandIndex).w
            + self.m_bodyB.m_invI *
              (cb2Cross (self.InitVelocityConstraints sin cos epsilon data).1.m_rB
                  (data.step.dtRatio • self.m_linearImpulse)
                + data.step.dtRatio * self.m_angularImpulse) } ∧
    ∀ i : Int, i ≠ self.m_bodyA.m_islandIndex → i ≠ self.m_bodyB.m_islandIndex →
      (self.InitVelocityConstraints sin cos epsilon data).2.velocities i = data.velocities i := by
  obtain ⟨hP, hL⟩ := InitVelocityConstraints_impulses sin cos epsilon self data
  rw [hwarm, if_pos rfl] at hP hL
  rw [mul_comm] at hL
  have hA : self.initVelocityA sin cos epsilon data
      = { v := (data.velocities self.m_bodyA.m_islandIndex).v
            - self.m_bodyA.m_invMass • (data.step.dtRatio • self.m_linearImpulse)
          w := (data.velocities self.m_bodyA.m_islandIndex).w
            - self.m_bodyA.m_invI *
              (cb2Cross (self.InitVelocityConstraints sin cos epsilon data).1.m_rA
                  (data.step.dtRatio • self.m_linearImpulse)
                + data.step.dtRatio * self.m_angularImpulse) } := by
    unfold cb2MotorJoint.initVelocityA
    rw [hwarm, if_pos rfl, if_pos rfl, hP, hL]
  have hB : self.initVelocityB sin cos epsilon data
      = { v := (data.velocities self.m_bodyB.m_islandIndex).v
            + self.m_bodyB.m_invMass • (data.step.dtRatio • self.m_linearImpulse)
          w := (data.velocities self.m_bodyB.m_islandIndex).w
            + self.m_bodyB.m_invI *
              (cb2Cross (self.InitVelocityConstraints sin cos epsilon data).1.m_rB
                  (data.step.dtRatio • self.m_linearImpulse)
                + data.step.dtRatio * self.m_angularImpulse) } := by
    unfold cb2MotorJoint.initVelocityB
    rw [hwarm, if_pos rfl, if_pos rfl, hP, hL]
  refine ⟨hP, hL, ?_, ?_, ?_⟩
  · rw [InitVelocityConstraints_velocities, Function.update_noteq hidx, Function.update_same, hA]
  · rw [InitVelocityConstraints_velocities, Function.update_same, hB]
  · intro i hiA hiB
    rw [InitVelocityConstraints_velocities, Function.update_noteq hiB,
      Function.update_noteq hiA]

/-- A run of C11 on the sample joint and data (warm starting, `dtRatio = 1`). -/
theorem InitVelocityConstraints_warm_start_witness :
    (sampleData ℝ).step.warmStarting = true ∧
    (sampleJoint ℝ).m_bodyA.m_islandIndex ≠ (sampleJoint ℝ).m_bodyB.m_islandIndex ∧
    ((sampleJoint ℝ).InitVelocityConstraints Real.sin Real.cos 0
        (sampleData ℝ)).1.m_linearImpulse
      = (sampleData ℝ).step.dtRatio • (sampleJoint ℝ).m_linearImpulse ∧
    ((sampleJoint ℝ).InitVelocityConstraints Real.sin Real.cos 0
        (sampleData ℝ)).1.m_angularImpulse
      = (sampleData ℝ).step.dtRatio * (sampleJoint ℝ).m_angularImpulse :=
  ⟨rfl, by simp [sampleJoint],
   (InitVelocityConstraints_warm_start Real.sin Real.cos 0 (sampleJoint ℝ)
     (sampleData ℝ) rfl (by simp [sampleJoint])).1,
   (InitVelocityConstraints_warm_start Real.sin Real.cos 0 (sampleJoint ℝ)
     (sampleData ℝ) rfl (by simp [sampleJoint])).2.1⟩

/-- On a cold start the values `InitVelocityConstraints` writes are the ones
it read. -/
theorem initVelocity_cold (sin cos : F → F) (epsilon : F)
    (self : cb2MotorJoint F) (data : cb2SolverData F)
    (hcold : data.step.warmStarting = false) :
    self.initVelocityA sin cos epsilon data = data.velocities self.m_bodyA.m_islandIndex ∧
    self.initVelocityB sin cos epsilon data = data.velocities self.m_bodyB.m_islandIndex := by
  unfold cb2MotorJoint.initVelocityA cb2MotorJoint.initVelocityB
  rw [hcold]
  exact ⟨rfl, rfl⟩

/-- C12. Cold start: with `step.warmStarting` clear, `InitVelocityConstraints`
zeroes both accumulated impulses and leaves every entry of the velocity array
as it was, whatever the previous impulses and `dtRatio`. -/
theorem InitVelocityConstraints_cold_start (sin cos : F → F) (epsilon : F)
    (self : cb2MotorJoint F) (data : cb2SolverData F)
    (hcold : data.step.warmStarting = false) :
    (self.InitVelocityConstraints sin cos epsilon data).1.m_linearImpulse = ⟨0, 0⟩ ∧
    (self.InitVelocityConstraints sin cos epsilon data).1.m_angularImpulse = 0 ∧
    (self.InitVelocityConstraints sin cos epsilon data).2.velocities = data.velocities := by
  obtain ⟨hP, hL⟩ := InitVelocityConstraints_impulses sin cos epsilon self data
  rw [hcold] at hP hL
  obtain ⟨hA, hB⟩ := initVelocity_cold sin cos epsilon self data hcold
  refine ⟨hP, hL, ?_⟩
  rw [InitVelocityConstraints_velocities, hA, Function.update_eq_self, hB,
    Function.update_eq_self]

/-- A run of C12: the sample joint, holding the impulses `(3, 4)` and `5`, on
the sample data with warm starting switched off. -/
theorem InitVelocityConstraints_cold_start_witness :
    ({ sampleData ℝ with step := { (sampleData ℝ).step with warmStarting := false } }
      : cb2SolverData ℝ).step.warmStarting = false ∧
    ((sampleJoint ℝ).InitVelocityConstraints Real.sin Real.cos 0
        { sampleData ℝ with step := { (sampleData ℝ).step with warmStarting := false } }
      ).1.m_linearImpulse = ⟨0, 0⟩ ∧
    ((sampleJoint ℝ).InitVelocityConstraints Real.sin Real.cos 0
        { sampleData ℝ with step := { (sampleData ℝ).step with warmStarting := false } }
      ).1.m_angularImpulse = 0 ∧
    ((sampleJoint ℝ).InitVelocityConstraints Real.sin Real.cos 0
        { sampleData ℝ with step := { (sampleData ℝ).step with warmStarting := false } }
      ).2.velocities = (sampleData ℝ).velocities :=
  ⟨rfl, InitVelocityConstraints_cold_start Real.sin Real.cos 0 (sampleJoint ℝ)
    { sampleData ℝ with step := { (sampleData ℝ).step with warmStarting := false } } rfl⟩

/-- The accumulated angular impulse after `SolveVelocityConstraints`. -/
theorem SolveVelocityConstraints_angularImpulse (sqrt : F → F) (self : cb2MotorJoint F)
    (data : cb2SolverData F) :
    (self.SolveVelocityConstraints sqrt data).1.m_angularImpulse
      = cb2Clamp (self.m_angularImpulse + -self.m_angularMass *
          ((data.velocities self.m_indexB).w - (data.velocities self.m_indexA).w
            + data.step.inv_dt * self.m_correctionFactor * self.m_angularError))
        (-(data.step.dt * self.m_maxTorque)) (data.step.dt * self.m_maxTorque) :=
  rfl

/-- The accumulated linear impulse after `SolveVelocityConstraints`: the old
impulse plus `-m_linearMass * Cdot`, clamped in length; `Cdot` is taken at the
angular velocities already corrected by the angular part. -/
theorem SolveVelocityConstraints_linearImpulse (sqrt : F → F) (self : cb2MotorJoint F)
    (data : cb2SolverData F) :
    (self.SolveVelocityConstraints sqrt data).1.m_linearImpulse
      = if (self.m_linearImpulse + -cb2MulMat self.m_linearMass
            ((data.velocities self.m_indexB).v
              + cb2CrossSV ((data.velocities self.m_indexB).w
                  + self.m_invIB * self.solveDeltaL sqrt data) self.m_rB
              - (data.velocities self.m_indexA).v
              - cb2CrossSV ((data.velocities self.m_indexA).w
                  - self.m_invIA * self.solveDeltaL sqrt data) self.m_rA
              + (data.step.inv_dt * self.m_correctionFactor) • self.m_linearError)).lengthSquared
            > data.step.dt * self.m_maxForce * (data.step.dt * self.m_maxForce) then
          (data.step.dt * self.m_maxForce) •
            (self.m_linearImpulse + -cb2MulMat self.m_linearMass
              ((data.velocities self.m_indexB).v
                + cb2CrossSV ((data.velocities self.m_indexB).w
                    + self.m_invIB * self.solveDeltaL sqrt data) self.m_rB
                - (data.velocities self.m_indexA).v
                - cb2CrossSV ((data.velocities self.m_indexA).w
                    - self.m_invIA * self.solveDeltaL sqrt data) self.m_rA
                + (data.step.inv_dt * self.m_correctionFactor) • self.m_linearError)).normalize
              sqrt
        else
          self.m_linearImpulse + -cb2MulMat self.m_linearMass
            ((data.velocities self.m_indexB).v
              + cb2CrossSV ((data.velocities self.m_indexB).w
                  + self.m_invIB * self.solveDeltaL sqrt data) self.m_rB
              - (data.velocities self.m_indexA).v
              - cb2CrossSV ((data.velocities self.m_indexA).w
                  - self.m_invIA * self.solveDeltaL sqrt data) self.m_rA
              + (data.step.inv_dt * self.m_correctionFactor) • self.m_linearError) :=
  rfl

/-- A joint at rest stays at rest: with zero accumulated impulses, zero errors
and zero relative velocity at the constraint, one `SolveVelocityConstraints`
call keeps the impulses zero and the velocity array as it was. -/
theorem SolveVelocityConstraints_at_rest (sqrt : F → F) (self : cb2MotorJoint F)
    (data : cb2SolverData F)
    (hP : self.m_linearImpulse = 0) (hL : self.m_angularImpulse = 0)
    (hle : self.m_linearError = 0) (hae : self.m_angularError = 0)
    (hw : (data.velocities self.m_indexB).w = (data.velocities self.m_indexA).w)
    (hv : (data.velocities self.m_indexB).v
        + cb2CrossSV (data.velocities self.m_indexB).w self.m_rB
        - (data.velocities self.m_indexA).v
        - cb2CrossSV (data.velocities self.m_indexA).w self.m_rA = 0)
    (hT : 0 ≤ data.step.dt * self.m_maxTorque) :
    (self.SolveVelocityConstraints sqrt data).1.m_linearImpulse = 0 ∧
    (self.SolveVelocityConstraints sqrt data).1.m_angularImpulse = 0 ∧
    (self.SolveVelocityConstraints sqrt data).2.velocities = data.velocities := by
  have hAng : (self.SolveVelocityConstraints sqrt data).1.m_angularImpulse = 0 := by
    rw [SolveVelocityConstraints_angularImpulse, hL, hw, hae]
    simp only [sub_self, mul_zero, add_zero, neg_mul, neg_zero, cb2Clamp]
    rw [min_eq_left hT, max_eq_right (neg_nonpos.mpr hT)]
  have hdL : self.solveDeltaL sqrt data = 0 := by
    unfold cb2MotorJoint.solveDeltaL
    rw [hAng, hL, sub_self]
  have hCdot : (data.velocities self.m_indexB).v
        + cb2CrossSV ((data.velocities self.m_indexB).w
            + self.m_invIB * self.solveDeltaL sqrt data) self.m_rB
        - (data.velocities self.m_indexA).v
        - cb2CrossSV ((data.velocities self.m_indexA).w
            - self.m_invIA * self.solveDeltaL sqrt data) self.m_rA
        + (data.step.inv_dt * self.m_correctionFactor) • self.m_linearError = 0 := by
    rw [hdL, mul_zero, add_zero, mul_zero, sub_zero, hv, hle]
    ext <;> simp
  have hLin : (self.SolveVelocityConstraints sqrt data).1.m_linearImpulse = 0 := by
    rw [SolveVelocityConstraints_linearImpulse, hCdot, hP]
    have hz : (0 : Vec2 F) + -cb2MulMat self.m_linearMass 0 = 0 := by
      ext <;> simp [cb2MulMat]
    rw [hz]
    have hnot : ¬ ((0 : Vec2 F).lengthSquared
        > data.step.dt * self.m_maxForce * (data.step.dt * self.m_maxForce)) := by
      simp only [Vec2.lengthSquared, Vec2.zero_x, Vec2.zero_y, mul_zero, add_zero, gt_iff_lt,
        not_lt]
      exact mul_self_nonneg _
    rw [if_neg hnot]
  have hdP : self.solveDeltaP sqrt data = 0 := by
    unfold cb2MotorJoint.solveDeltaP
    rw [hLin, hP]
    ext <;> simp
  have hA : self.solvedVelocityA sqrt data = data.velocities self.m_indexA := by
    unfold cb2MotorJoint.solvedVelocityA
    rw [hdL, hdP]
    simp [cb2Cross]
  have hB : self.solvedVelocityB sqrt data = data.velocities self.m_indexB := by
    unfold cb2MotorJoint.solvedVelocityB
    rw [hdL, hdP]
    simp [cb2Cross]
  refine ⟨hLin, hAng, ?_⟩
  rw [SolveVelocityConstraints_velocities, hA, Function.update_eq_self, hB,
    Function.update_eq_self]

/-- With zero accumulated impulses, `InitVelocityConstraints` keeps them zero
and leaves the velocity array as it was, with or without warm starting. -/
theorem InitVelocityConstraints_zero_impulse (sin cos : F → F) (epsilon : F)
    (self : cb2MotorJoint F) (data : cb2SolverData F)
    (hP : self.m_linearImpulse = 0) (hL : self.m_angularImpulse = 0) :
    (self.InitVelocityConstraints sin cos epsilon data).1.m_linearImpulse = 0 ∧
    (self.InitVelocityConstraints sin cos epsilon data).1.m_angularImpulse = 0 ∧
    (self.InitVelocityConstraints sin cos epsilon data).2.velocities = data.velocities := by
  obtain ⟨hP1, hL1⟩ := InitVelocityConstraints_impulses sin cos epsilon self data
  have hPz : (self.InitVelocityConstraints sin cos epsilon data).1.m_linearImpulse = 0 := by
    rw [hP1, hP]
    split_ifs
    · exact Vec2.smul_zero_vec _
    · rfl
  have hLz : (self.InitVelocityConstraints sin cos epsilon data).1.m_angularImpulse = 0 := by
    rw [hL1, hL]
    split_ifs
    · exact zero_mul _
    · rfl
  have hA : self.initVelocityA sin cos epsilon data
      = data.velocities self.m_bodyA.m_islandIndex := by
    unfold cb2MotorJoint.initVelocityA
    rw [hPz, hLz]
    simp [cb2Cross]
  have hB : self.initVelocityB sin cos epsilon data
      = data.velocities self.m_bodyB.m_islandIndex := by
    unfold cb2MotorJoint.initVelocityB
    rw [hPz, hLz]
    simp [cb2Cross]
  refine ⟨hPz, hLz, ?_⟩
  rw [InitVelocityConstraints_velocities, hA, Function.update_eq_self, hB,
    Function.update_eq_self]

/-- C13. Equilibrium: if the accumulated impulses are zero, the errors that
`InitVelocityConstraints` computes are zero, the relative velocity at the
constraint is zero (`wB = wA` and `vB + cross(wB, rB) - vA - cross(wA, rA) = 0`)
and `dt * maxForce ≥ 0`, `dt * maxTorque ≥ 0`, then `InitVelocityConstraints`
(warm or cold) followed by `SolveVelocityConstraints` leaves the velocity
array as it was and the accumulated impulses zero. -/
theorem equilibrium_is_kept (sqrt sin cos : F → F) (epsilon : F)
    (self : cb2MotorJoint F) (data : cb2SolverData F)
    (hP : self.m_linearImpulse = 0) (hL : self.m_angularImpulse = 0)
    (hle : (self.InitVelocityConstraints sin cos epsilon data).1.m_linearError = 0)
    (hae : (self.InitVelocityConstraints sin cos epsilon data).1.m_angularError = 0)
    (hw : (data.velocities self.m_bodyB.m_islandIndex).w
      = (data.velocities self.m_bodyA.m_islandIndex).w)
    (hv : (data.velocities self.m_bodyB.m_islandIndex).v
        + cb2CrossSV (data.velocities self.m_bodyB.m_islandIndex).w
            (self.InitVelocityConstraints sin cos epsilon data).1.m_rB
        - (data.velocities self.m_bodyA.m_islandIndex).v
        - cb2CrossSV (data.velocities self.m_bodyA.m_islandIndex).w
            (self.InitVelocityConstraints sin cos epsilon data).1.m_rA = 0)
    (_hF : 0 ≤ data.step.dt * self.m_maxForce)
    (hT : 0 ≤ data.step.dt * self.m_maxTorque) :
    (self.InitVelocityConstraints sin cos epsilon data).2.velocities = data.velocities ∧
    ((self.InitVelocityConstraints sin cos epsilon data).1.SolveVelocityConstraints sqrt
        (self.InitVelocityConstraints sin cos epsilon data).2).2.velocities
      = data.velocities ∧
    ((self.InitVelocityConstraints sin cos epsilon data).1.SolveVelocityConstraints sqrt
        (self.InitVelocityConstraints sin cos epsilon data).2).1.m_linearImpulse = 0 ∧
    ((self.InitVelocityConstraints sin cos epsilon data).1.SolveVelocityConstraints sqrt
        (self.InitVelocityConstraints sin cos epsilon data).2).1.m_angularImpulse = 0 := by
  obtain ⟨hPz, hLz, hvel⟩ :=
    InitVelocityConstraints_zero_impulse sin cos epsilon self data hP hL
  have hw2 : ((self.InitVelocityConstraints sin cos epsilon data).2.velocities
        (self.InitVelocityConstraints sin cos epsilon data).1.m_indexB).w
      = ((self.InitVelocityConstraints sin cos epsilon data).2.velocities
        (self.InitVelocityConstraints sin cos epsilon data).1.m_indexA).w := by
    rw [hvel]
    exact hw
  have hv2 : ((self.InitVelocityConstraints sin cos epsilon data).2.velocities
          (self.InitVelocityConstraints sin cos epsilon data).1.m_indexB).v
        + cb2CrossSV ((self.InitVelocityConstraints sin cos epsilon data).2.velocities
            (self.InitVelocityConstraints sin cos epsilon data).1.m_indexB).w
            (self.InitVelocityConstraints sin cos epsilon data).1.m_rB
        - ((self.InitVelocityConstraints sin cos epsilon data).2.velocities
            (self.InitVelocityConstraints sin cos epsilon data).1.m_indexA).v
        - cb2CrossSV ((self.InitVelocityConstraints sin cos epsilon data).2.velocities
            (self.InitVelocityConstraints sin cos epsilon data).1.m_indexA).w
            (self.InitVelocityConstraints sin cos epsilon data).1.m_rA = 0 := by
    rw [hvel]
    exact hv
  obtain ⟨h1, h2, h3⟩ := SolveVelocityConstraints_at_rest sqrt
    (self.InitVelocityConstraints sin cos epsilon data).1
    (self.InitVelocityConstraints sin cos epsilon data).2 hPz hLz hle hae hw2 hv2 hT
  exact ⟨hvel, h3.trans hvel, h1, h2⟩

/-- A run of C13: the joint `restJoint` on `restData`, where the bodies sit at
the target offset and move together. -/
theorem equilibrium_is_kept_witness :
    ((restJoint ℝ).InitVelocityConstraints Real.sin Real.cos 0 (restData ℝ)).2.velocities
      = (restData ℝ).velocities ∧
    (((restJoint ℝ).InitVelocityConstraints Real.sin Real.cos 0
        (restData ℝ)).1.SolveVelocityConstraints Real.sqrt
        ((restJoint ℝ).InitVelocityConstraints Real.sin Real.cos 0
          (restData ℝ)).2).2.velocities
      = (restData ℝ).velocities ∧
    (((restJoint ℝ).InitVelocityConstraints Real.sin Real.cos 0
        (restData ℝ)).1.SolveVelocityConstraints Real.sqrt
        ((restJoint ℝ).InitVelocityConstraints Real.sin Real.cos 0
          (restData ℝ)).2).1.m_linearImpulse = 0 ∧
    (((restJoint ℝ).InitVelocityConstraints Real.sin Real.cos 0
        (restData ℝ)).1.SolveVelocityConstraints Real.sqrt
        ((restJoint ℝ).InitVelocityConstraints Real.sin Real.cos 0
          (restData ℝ)).2).1.m_angularImpulse = 0 :=
  equilibrium_is_kept Real.sqrt Real.sin Real.cos 0 (restJoint ℝ) (restData ℝ)
    rfl rfl
    (by
      ext <;>
      norm_num [cb2MotorJoint.InitVelocityConstraints, restJoint, restData, b2MulRot, cb2Rot])
    (by norm_num [cb2MotorJoint.InitVelocityConstraints, restJoint, restData])
    rfl
    (by
      ext <;>
      norm_num [cb2MotorJoint.InitVelocityConstraints, restJoint, restData, b2MulRot, cb2Rot,
        cb2CrossSV])
    (by norm_num [restJoint, restData])
    (by norm_num [restJoint, restData])

/-- C14. Impulse bookkeeping: on a `SolveVelocityConstraints` call with
distinct island indices, with `dP` and `dL` the changes of the accumulated
linear and angular impulses (after clamping), body A's entry becomes
`vA - mA * dP`, `wA - iA * (dL + cross(rA, dP))` and body B's entry
`vB + mB * dP`, `wB + iB * (dL + cross(rB, dP))`; hence
`mB * (vA' - vA) + mA * (vB' - vB) = 0`. -/
theorem SolveVelocityConstraints_bookkeeping (sqrt : F → F) (self : cb2MotorJoint F)
    (data : cb2SolverData F) (hidx : self.m_indexA ≠ self.m_indexB) :
    (self.SolveVelocityConstraints sqrt data).2.velocities self.m_indexA
      = { v := (data.velocities self.m_indexA).v - self.m_invMassA •
            ((self.SolveVelocityConstraints sqrt data).1.m_linearImpulse - self.m_linearImpulse)
          w := (data.velocities self.m_indexA).w - self.m_invIA *
            (((self.SolveVelocityConstraints sqrt data).1.m_angularImpulse
                - self.m_angularImpulse)
              + cb2Cross self.m_rA ((self.SolveVelocityConstraints sqrt data).1.m_linearImpulse
                - self.m_linearImpulse)) } ∧
    (self.SolveVelocityConstraints sqrt data).2.velocities self.m_indexB
      = { v := (data.velocities self.m_indexB).v + self.m_invMassB •
            ((self.SolveVelocityConstraints sqrt data).1.m_linearImpulse - self.m_linearImpulse)
          w := (data.velocities self.m_indexB).w + self.m_invIB *
            (((self.SolveVelocityConstraints sqrt data).1.m_angularImpulse
                - self.m_angularImpulse)
              + cb2Cross self.m_rB ((self.SolveVelocityConstraints sqrt data).1.m_linearImpulse
                - self.m_linearImpulse)) } ∧
    self.m_invMassB • (((self.SolveVelocityConstraints sqrt data).2.velocities self.m_indexA).v
        - (data.velocities self.m_indexA).v)
      + self.m_invMassA • (((self.SolveVelocityConstraints sqrt data).2.velocities
          self.m_indexB).v - (data.velocities self.m_indexB).v) = 0 := by
  have hA : (self.SolveVelocityConstraints sqrt data).2.velocities self.m_indexA
      = self.solvedVelocityA sqrt data := by
    rw [SolveVelocityConstraints_velocities, Function.update_noteq hidx, Function.update_same]
  have hB : (self.SolveVelocityConstraints sqrt data).2.velocities self.m_indexB
      = self.solvedVelocityB sqrt data := by
    rw [SolveVelocityConstraints_velocities, Function.update_same]
  refine ⟨?_, ?_, ?_⟩
  · rw [hA]
    unfold cb2MotorJoint.solvedVelocityA cb2MotorJoint.solveDeltaP cb2MotorJoint.solveDeltaL
    congr 1
    ring
  · rw [hB]
    unfold cb2MotorJoint.solvedVelocityB cb2MotorJoint.solveDeltaP cb2MotorJoint.solveDeltaL
    congr 1
    ring
  · rw [hA, hB]
    unfold cb2MotorJoint.solvedVelocityA cb2MotorJoint.solvedVelocityB
    ext
    · simp only [Vec2.add_x, Vec2.smul_x, Vec2.sub_x, Vec2.zero_x]
      ring
    · simp only [Vec2.add_y, Vec2.smul_y, Vec2.sub_y, Vec2.zero_y]
      ring

/-- A run of C14: one solve of the sample joint after its initialisation. -/
theorem SolveVelocityConstraints_bookkeeping_witness :
    ((sampleJoint ℝ).InitVelocityConstraints Real.sin Real.cos 0 (sampleData ℝ)).1.m_indexA
      ≠ ((sampleJoint ℝ).InitVelocityConstraints Real.sin Real.cos 0 (sampleData ℝ)).1.m_indexB ∧
    ((sampleJoint ℝ).InitVelocityConstraints Real.sin Real.cos 0 (sampleData ℝ)).1.m_invMassB •
        (((((sampleJoint ℝ).InitVelocityConstraints Real.sin Real.cos 0
            (sampleData ℝ)).1.SolveVelocityConstraints Real.sqrt (sampleData ℝ)).2.velocities
          ((sampleJoint ℝ).InitVelocityConstraints Real.sin Real.cos 0
            (sampleData ℝ)).1.m_indexA).v
        - ((sampleData ℝ).velocities ((sampleJoint ℝ).InitVelocityConstraints Real.sin Real.cos 0
            (sampleData ℝ)).1.m_indexA).v)
      + ((sampleJoint ℝ).InitVelocityConstraints Real.sin Real.cos 0
          (sampleData ℝ)).1.m_invMassA •
        (((((sampleJoint ℝ).InitVelocityConstraints Real.sin Real.cos 0
            (sampleData ℝ)).1.SolveVelocityConstraints Real.sqrt (sampleData ℝ)).2.velocities
          ((sampleJoint ℝ).InitVelocityConstraints Real.sin Real.cos 0
            (sampleData ℝ)).1.m_indexB).v
        - ((sampleData ℝ).velocities ((sampleJoint ℝ).InitVelocityConstraints Real.sin Real.cos 0
            (sampleData ℝ)).1.m_indexB).v) = 0 :=
  ⟨by simp [cb2MotorJoint.InitVelocityConstraints, sampleJoint],
   (SolveVelocityConstraints_bookkeeping Real.sqrt
     ((sampleJoint ℝ).InitVelocityConstraints Real.sin Real.cos 0 (sampleData ℝ)).1
     (sampleData ℝ) (by simp [cb2MotorJoint.InitVelocityConstraints, sampleJoint])).2.2⟩

/-- C15. Fixed anchor: with distinct island indices, if body A has inverse
mass `0` and inverse inertia `0`, then `InitVelocityConstraints` (warm or cold)
leaves body A's entry of the velocity array as it was, and so does a
`SolveVelocityConstraints` call of the initialised joint on any solver data;
the same holds for body B. -/
theorem fixed_anchor_velocity_kept (sqrt sin cos : F → F) (epsilon : F)
    (self : cb2MotorJoint F) (data data' : cb2SolverData F)
    (hidx : self.m_bodyA.m_islandIndex ≠ self.m_bodyB.m_islandIndex) :
    (self.m_bodyA.m_invMass = 0 → self.m_bodyA.m_invI = 0 →
      (self.InitVelocityConstraints sin cos epsilon data).2.velocities
          self.m_bodyA.m_islandIndex = data.velocities self.m_bodyA.m_islandIndex ∧
      ((self.InitVelocityConstraints sin cos epsilon data).1.SolveVelocityConstraints sqrt
          data').2.velocities self.m_bodyA.m_islandIndex
        = data'.velocities self.m_bodyA.m_islandIndex) ∧
    (self.m_bodyB.m_invMass = 0 → self.m_bodyB.m_invI = 0 →
      (self.InitVelocityConstraints sin cos epsilon data).2.velocities
          self.m_bodyB.m_islandIndex = data.velocities self.m_bodyB.m_islandIndex ∧
      ((self.InitVelocityConstraints sin cos epsilon data).1.SolveVelocityConstraints sqrt
          data').2.velocities self.m_bodyB.m_islandIndex
        = data'.velocities self.m_bodyB.m_islandIndex) := by
  have hidx' : (self.InitVelocityConstraints sin cos epsilon data).1.m_indexA
      ≠ (self.InitVelocityConstraints sin cos epsilon data).1.m_indexB := hidx
  constructor
  · intro hm hi
    have hmA : (self.InitVelocityConstraints sin cos epsilon data).1.m_invMassA = 0 := hm
    have hiA : (self.InitVelocityConstraints sin cos epsilon data).1.m_invIA = 0 := hi
    constructor
    · rw [InitVelocityConstraints_velocities, Function.update_noteq hidx, Function.update_same]
      unfold cb2MotorJoint.initVelocityA
      rw [hm, hi]
      simp
    · show ((self.InitVelocityConstraints sin cos epsilon data).1.SolveVelocityConstraints sqrt
          data').2.velocities (self.InitVelocityConstraints sin cos epsilon data).1.m_indexA
        = data'.velocities (self.InitVelocityConstraints sin cos epsilon data).1.m_indexA
      rw [SolveVelocityConstraints_velocities, Function.update_noteq hidx',
        Function.update_same]
      unfold cb2MotorJoint.solvedVelocityA
      rw [hmA, hiA]
      simp
  · intro hm hi
    have hmB : (self.InitVelocityConstraints sin cos epsilon data).1.m_invMassB = 0 := hm
    have hiB : (self.InitVelocityConstraints sin cos epsilon data).1.m_invIB = 0 := hi
    constructor
    · rw [InitVelocityConstraints_velocities, Function.update_same]
      unfold cb2MotorJoint.initVelocityB
      rw [hm, hi]
      simp
    · show ((self.InitVelocityConstraints sin cos epsilon data).1.SolveVelocityConstraints sqrt
          data').2.velocities (self.InitVelocityConstraints sin cos epsilon data).1.m_indexB
        = data'.velocities (self.InitVelocityConstraints sin cos epsilon data).1.m_indexB
      rw [SolveVelocityConstraints_velocities, Function.update_same]
      unfold cb2MotorJoint.solvedVelocityB
      rw [hmB, hiB]
      simp

/-- A run of C15: body A of the sample joint is fixed; its entry `0` survives
the warm start with the impulses `(3, 4)` and `5` and the solve after it. -/
theorem fixed_anchor_velocity_kept_witness :
    (sampleJoint ℝ).m_bodyA.m_islandIndex ≠ (sampleJoint ℝ).m_bodyB.m_islandIndex ∧
    (sampleJoint ℝ).m_bodyA.m_invMass = 0 ∧ (sampleJoint ℝ).m_bodyA.m_invI = 0 ∧
    ((sampleJoint ℝ).InitVelocityConstraints Real.sin Real.cos 0 (sampleData ℝ)).2.velocities
        (sampleJoint ℝ).m_bodyA.m_islandIndex
      = (sampleData ℝ).velocities (sampleJoint ℝ).m_bodyA.m_islandIndex ∧
    (((sampleJoint ℝ).InitVelocityConstraints Real.sin Real.cos 0
        (sampleData ℝ)).1.SolveVelocityConstraints Real.sqrt (sampleData ℝ)).2.velocities
        (sampleJoint ℝ).m_bodyA.m_islandIndex
      = (sampleData ℝ).velocities (sampleJoint ℝ).m_bodyA.m_islandIndex :=
  ⟨by simp [sampleJoint], rfl, rfl,
   (fixed_anchor_velocity_kept Real.sqrt Real.sin Real.cos 0 (sampleJoint ℝ) (sampleData ℝ)
     (sampleData ℝ) (by simp [sampleJoint])).1 rfl rfl⟩

/-- C16. `SetLinearOffset` and `SetAngularOffset`: after the call the getter
returns the new target; each body receives `SetAwake(true)` exactly when the
new target differs from the stored one (for the linear offset, in at least one
component); every joint field other than the target itself is as before. -/
theorem SetOffset_wakes_on_change (self : cb2MotorJoint F) (x : Vec2 F) (a : F) :
    ((self.SetLinearOffset x).GetLinearOffset = x ∧
     (self.SetLinearOffset x).m_bodyA
        = (if x.x ≠ self.m_linearOffset.x ∨ x.y ≠ self.m_linearOffset.y
            then self.m_bodyA.SetAwake true else self.m_bodyA) ∧
     (self.SetLinearOffset x).m_bodyB
        = (if x.x ≠ self.m_linearOffset.x ∨ x.y ≠ self.m_linearOffset.y
            then self.m_bodyB.SetAwake true else self.m_bodyB) ∧
     ((self.SetLinearOffset x).m_bodyA.m_setAwakeCalls = true :: self.m_bodyA.m_setAwakeCalls
        ↔ x ≠ self.m_linearOffset) ∧
     ((self.SetLinearOffset x).m_bodyB.m_setAwakeCalls = true :: self.m_bodyB.m_setAwakeCalls
        ↔ x ≠ self.m_linearOffset) ∧
     { self.SetLinearOffset x with
        m_linearOffset := self.m_linearOffset, m_bodyA := self.m_bodyA,
        m_bodyB := self.m_bodyB } = self) ∧
    ((self.SetAngularOffset a).GetAngularOffset = a ∧
     (self.SetAngularOffset a).m_bodyA
        = (if a ≠ self.m_angularOffset then self.m_bodyA.SetAwake true else self.m_bodyA) ∧
     (self.SetAngularOffset a).m_bodyB
        = (if a ≠ self.m_angularOffset then self.m_bodyB.SetAwake true else self.m_bodyB) ∧
     ((self.SetAngularOffset a).m_bodyA.m_setAwakeCalls = true :: self.m_bodyA.m_setAwakeCalls
        ↔ a ≠ self.m_angularOffset) ∧
     ((self.SetAngularOffset a).m_bodyB.m_setAwakeCalls = true :: self.m_bodyB.m_setAwakeCalls
        ↔ a ≠ self.m_angularOffset) ∧
     { self.SetAngularOffset a with
        m_angularOffset := self.m_angularOffset, m_bodyA := self.m_bodyA,
        m_bodyB := self.m_bodyB } = self) := by
  constructor
  · by_cases h : x.x ≠ self.m_linearOffset.x ∨ x.y ≠ self.m_linearOffset.y
    · have hne : x ≠ self.m_linearOffset := by
        intro heq
        rw [heq] at h
        rcases h with h | h <;> exact h rfl
      have hset : self.SetLinearOffset x = { self with
          m_bodyA := self.m_bodyA.SetAwake true
          m_bodyB := self.m_bodyB.SetAwake true
          m_linearOffset := x } := by
        unfold cb2MotorJoint.SetLinearOffset
        rw [if_pos h]
      rw [hset, if_pos h, if_pos h]
      exact ⟨rfl, rfl, rfl, ⟨fun _ => hne, fun _ => rfl⟩, ⟨fun _ => hne, fun _ => rfl⟩, rfl⟩
    · have heq : x = self.m_linearOffset := by
        push_neg at h
        exact Vec2.ext h.1 h.2
      have hset : self.SetLinearOffset x = self := by
        unfold cb2MotorJoint.SetLinearOffset
        rw [if_neg h]
      rw [hset, if_neg h, if_neg h]
      refine ⟨heq.symm, rfl, rfl, ⟨fun hc => ?_, fun hc => absurd heq hc⟩,
        ⟨fun hc => ?_, fun hc => absurd heq hc⟩, rfl⟩
      · exact absurd hc.symm (List.cons_ne_self _ _)
      · exact absurd hc.symm (List.cons_ne_self _ _)
  · by_cases h : a ≠ self.m_angularOffset
    · have hset : self.SetAngularOffset a = { self with
          m_bodyA := self.m_bodyA.SetAwake true
          m_bodyB := self.m_bodyB.SetAwake true
          m_angularOffset := a } := by
        unfold cb2MotorJoint.SetAngularOffset
        rw [if_pos h]
      rw [hset, if_pos h, if_pos h]
      exact ⟨rfl, rfl, rfl, ⟨fun _ => h, fun _ => rfl⟩, ⟨fun _ => h, fun _ => rfl⟩, rfl⟩
    · have heq : a = self.m_angularOffset := not_not.mp h
      have hset : self.SetAngularOffset a = self := by
        unfold cb2MotorJoint.SetAngularOffset
        rw [if_neg h]
      rw [hset, if_neg h, if_neg h]
      refine ⟨heq.symm, rfl, rfl, ⟨fun hc => ?_, fun hc => absurd heq hc⟩,
        ⟨fun hc => ?_, fun hc => absurd heq hc⟩, rfl⟩
      · exact absurd hc.symm (List.cons_ne_self _ _)
      · exact absurd hc.symm (List.cons_ne_self _ _)

/-- C19. The matrix `K` of `InitVelocityConstraints` is the velocity response
of the linear constraint: applying an impulse `P` as the solver does
(`vA - mA * P`, `wA - iA * cross(rA, P)`, `vB + mB * P`, `wB + iB * cross(rB, P)`)
changes `vB + cross(wB, rB) - vA - cross(wA, rA)` by exactly `K * P`; `K` is
symmetric; and `m_linearMass` is the inverse of this `K` taken at the bodies'
inverse masses and inertias and the anchors `m_rA`, `m_rB`. -/
theorem K_is_velocity_response (mA mB iA iB : F) (rA rB P vA vB : Vec2 F) (wA wB : F) :
    ((vB + mB • P) + cb2CrossSV (wB + iB * cb2Cross rB P) rB
        - (vA - mA • P) - cb2CrossSV (wA - iA * cb2Cross rA P) rA)
      - (vB + cb2CrossSV wB rB - vA - cb2CrossSV wA rA)
      = cb2MulMat (cb2MotorJoint.K mA mB iA iB rA rB) P ∧
    (cb2MotorJoint.K mA mB iA iB rA rB).m01 = (cb2MotorJoint.K mA mB iA iB rA rB).m10 ∧
    ∀ (sin cos : F → F) (epsilon : F) (self : cb2MotorJoint F) (data : cb2SolverData F),
      (self.InitVelocityConstraints sin cos epsilon data).1.m_linearMass
        = (cb2MotorJoint.K self.m_bodyA.m_invMass self.m_bodyB.m_invMass
            self.m_bodyA.m_invI self.m_bodyB.m_invI
            (self.InitVelocityConstraints sin cos epsilon data).1.m_rA
            (self.InitVelocityConstraints sin cos epsilon data).1.m_rB).inverted epsilon := by
  refine ⟨?_, rfl, fun _ _ _ _ _ => rfl⟩
  ext
  · simp only [cb2MulMat, cb2MotorJoint.K, cb2CrossSV, cb2Cross, Vec2.add_x, Vec2.sub_x,
      Vec2.smul_x]
    ring
  · simp only [cb2MulMat, cb2MotorJoint.K, cb2CrossSV, cb2Cross, Vec2.add_y, Vec2.sub_y,
      Vec2.smul_y]
    ring

/-- The value the angular mass statements leave in `m_angularMass`. -/
@[simp]
theorem angularMassTraced_fst (iA iB : F) :
    (cb2MotorJoint.angularMassTraced iA iB).1
      = if iA + iB > 0 then 1 / (iA + iB) else iA + iB := by
  by_cases h : iA + iB > 0
  · simp only [cb2MotorJoint.angularMassTraced, if_pos h]
  · simp only [cb2MotorJoint.angularMassTraced, if_neg h]

/-- The divisors the angular mass statements divide by. -/
theorem angularMassTraced_snd (iA iB : F) :
    (cb2MotorJoint.angularMassTraced iA iB).2 = if iA + iB > 0 then [iA + iB] else [] := by
  by_cases h : iA + iB > 0
  · simp only [cb2MotorJoint.angularMassTraced, if_pos h]
  · simp only [cb2MotorJoint.angularMassTraced, if_neg h]

/-- The angular mass `InitVelocityConstraints` stores is the one its traced
statements compute. -/
theorem InitVelocityConstraints_angularMass_traced (sin cos : F → F) (epsilon : F)
    (self : cb2MotorJoint F) (data : cb2SolverData F) :
    (self.InitVelocityConstraints sin cos epsilon data).1.m_angularMass
      = (cb2MotorJoint.angularMassTraced self.m_bodyA.m_invI self.m_bodyB.m_invI).1 :=
  rfl

/-- The angular mass after `InitVelocityConstraints`: `1 / (iA + iB)` when
`iA + iB > 0`, and `iA + iB` itself otherwise. -/
theorem InitVelocityConstraints_angularMass (sin cos : F → F) (epsilon : F)
    (self : cb2MotorJoint F) (data : cb2SolverData F) :
    (self.InitVelocityConstraints sin cos epsilon data).1.m_angularMass
      = if self.m_bodyA.m_invI + self.m_bodyB.m_invI > 0
          then 1 / (self.m_bodyA.m_invI + self.m_bodyB.m_invI)
          else self.m_bodyA.m_invI + self.m_bodyB.m_invI := by
  rw [InitVelocityConstraints_angularMass_traced, angularMassTraced_fst]

/-- A value within `[-M, M]` passes `cb2Clamp` unchanged. -/
theorem cb2Clamp_of_abs_le (a M : F) (h : |a| ≤ M) : cb2Clamp a (-M) M = a := by
  obtain ⟨hlo, hhi⟩ := abs_le.mp h
  unfold cb2Clamp
  rw [min_eq_left hhi, max_eq_right hlo]

/-- C20. Angular solve: for a joint initialised by `InitVelocityConstraints`
with `iA + iB > 0` and `rA = rB = 0`, if the angular clamp is inactive
(`|m_angularImpulse + impulse| ≤ dt * maxTorque`), then the angular velocities
that `SolveVelocityConstraints` computes for the two bodies satisfy
`wB' - wA' + inv_dt * correctionFactor * m_angularError = 0`; with distinct
island indices these are the entries of the velocity array after the call. -/
theorem angular_solve_cancels_biased_velocity (sqrt sin cos : F → F) (epsilon : F)
    (self : cb2MotorJoint F) (data0 data : cb2SolverData F)
    (hI : 0 < self.m_bodyA.m_invI + self.m_bodyB.m_invI)
    (hrA : (self.InitVelocityConstraints sin cos epsilon data0).1.m_rA = 0)
    (hrB : (self.InitVelocityConstraints sin cos epsilon data0).1.m_rB = 0)
    (hclamp : |(self.InitVelocityConstraints sin cos epsilon data0).1.m_angularImpulse
        + -(self.InitVelocityConstraints sin cos epsilon data0).1.m_angularMass *
          ((data.velocities (self.InitVelocityConstraints sin cos epsilon data0).1.m_indexB).w
            - (data.velocities (self.InitVelocityConstraints sin cos epsilon data0).1.m_indexA).w
            + data.step.inv_dt
              * (self.InitVelocityConstraints sin cos epsilon data0).1.m_correctionFactor
              * (self.InitVelocityConstraints sin cos epsilon data0).1.m_angularError)|
      ≤ data.step.dt * (self.InitVelocityConstraints sin cos epsilon data0).1.m_maxTorque) :
    ((self.InitVelocityConstraints sin cos epsilon data0).1.solvedVelocityB sqrt data).w
        - ((self.InitVelocityConstraints sin cos epsilon data0).1.solvedVelocityA sqrt data).w
        + data.step.inv_dt
          * (self.InitVelocityConstraints sin cos epsilon data0).1.m_correctionFactor
          * (self.InitVelocityConstraints sin cos epsilon data0).1.m_angularError = 0 ∧
    ((self.InitVelocityConstraints sin cos epsilon data0).1.m_indexA
        ≠ (self.InitVelocityConstraints sin cos epsilon data0).1.m_indexB →
      (((self.InitVelocityConstraints sin cos epsilon data0).1.SolveVelocityConstraints sqrt
            data).2.velocities
          (self.InitVelocityConstraints sin cos epsilon data0).1.m_indexB).w
        - (((self.InitVelocityConstraints sin cos epsilon data0).1.SolveVelocityConstraints sqrt
            data).2.velocities
          (self.InitVelocityConstraints sin cos epsilon data0).1.m_indexA).w
        + data.step.inv_dt
          * (self.InitVelocityConstraints sin cos epsilon data0).1.m_correctionFactor
          * (self.InitVelocityConstraints sin cos epsilon data0).1.m_angularError = 0) := by
  have hmass : (self.InitVelocityConstraints sin cos epsilon data0).1.m_angularMass
      = 1 / (self.m_bodyA.m_invI + self.m_bodyB.m_invI) := by
    rw [InitVelocityConstraints_angularMass, if_pos hI]
  have hiA : (self.InitVelocityConstraints sin cos epsilon data0).1.m_invIA
      = self.m_bodyA.m_invI := rfl
  have hiB : (self.InitVelocityConstraints sin cos epsilon data0).1.m_invIB
      = self.m_bodyB.m_invI := rfl
  have hdL : (self.InitVelocityConstraints sin cos epsilon data0).1.solveDeltaL sqrt data
      = -(self.InitVelocityConstraints sin cos epsilon data0).1.m_angularMass *
          ((data.velocities (self.InitVelocityConstraints sin cos epsilon data0).1.m_indexB).w
            - (data.velocities (self.InitVelocityConstraints sin cos epsilon data0).1.m_indexA).w
            + data.step.inv_dt
              * (self.InitVelocityConstraints sin cos epsilon data0).1.m_correctionFactor
              * (self.InitVelocityConstraints sin cos epsilon data0).1.m_angularError) := by
    unfold cb2MotorJoint.solveDeltaL
    rw [SolveVelocityConstraints_angularImpulse, cb2Clamp_of_abs_le _ _ hclamp]
    ring
  have hlocals : ((self.InitVelocityConstraints sin cos epsilon data0).1.solvedVelocityB sqrt
          data).w
        - ((self.InitVelocityConstraints sin cos epsilon data0).1.solvedVelocityA sqrt data).w
        + data.step.inv_dt
          * (self.InitVelocityConstraints sin cos epsilon data0).1.m_correctionFactor
          * (self.InitVelocityConstraints sin cos epsilon data0).1.m_angularError = 0 := by
    unfold cb2MotorJoint.solvedVelocityA cb2MotorJoint.solvedVelocityB
    simp only [hrA, hrB, hdL, hmass, hiA, hiB, cb2Cross, Vec2.zero_x, Vec2.zero_y]
    field_simp
    ring
  refine ⟨hlocals, fun hidx => ?_⟩
  rw [SolveVelocityConstraints_velocities, Function.update_same, Function.update_noteq hidx,
    Function.update_same]
  exact hlocals

/-- A run of C20: `restJoint` (`iA + iB = 4/3`, both local centres at the
origin) solving the spin `1/90` of `spinData`; the impulse `-1/120` stays
within the bound `dt * maxTorque = 1/60`. -/
theorem angular_solve_cancels_biased_velocity_witness :
    0 < (restJoint ℝ).m_bodyA.m_invI + (restJoint ℝ).m_bodyB.m_invI ∧
    ((((restJoint ℝ).InitVelocityConstraints Real.sin Real.cos 0
          (restData ℝ)).1.SolveVelocityConstraints Real.sqrt (spinData ℝ)).2.velocities
        ((restJoint ℝ).InitVelocityConstraints Real.sin Real.cos 0 (restData ℝ)).1.m_indexB).w
      - ((((restJoint ℝ).InitVelocityConstraints Real.sin Real.cos 0
          (restData ℝ)).1.SolveVelocityConstraints Real.sqrt (spinData ℝ)).2.velocities
        ((restJoint ℝ).InitVelocityConstraints Real.sin Real.cos 0 (restData ℝ)).1.m_indexA).w
      + (spinData ℝ).step.inv_dt
        * ((restJoint ℝ).InitVelocityConstraints Real.sin Real.cos 0
            (restData ℝ)).1.m_correctionFactor
        * ((restJoint ℝ).InitVelocityConstraints Real.sin Real.cos 0
            (restData ℝ)).1.m_angularError = 0 :=
  ⟨by norm_num [restJoint],
   (angular_solve_cancels_biased_velocity Real.sqrt Real.sin Real.cos 0 (restJoint ℝ)
     (restData ℝ) (spinData ℝ)
     (by norm_num [restJoint])
     (by
       ext <;>
       norm_num [cb2MotorJoint.InitVelocityConstraints, restJoint, restData, b2MulRot, cb2Rot])
     (by
       ext <;>
       norm_num [cb2MotorJoint.InitVelocityConstraints, restJoint, restData, b2MulRot, cb2Rot])
     (by
       norm_num [cb2MotorJoint.InitVelocityConstraints, restJoint, restData, spinData]
       rw [abs_le]
       constructor <;> norm_num)).2
     (by norm_num [cb2MotorJoint.InitVelocityConstraints, restJoint])⟩

/-- The accumulated angular impulse after `SolveVelocityConstraints` is the
old one plus the increment `-m_angularMass * Cdot`, clamped. -/
theorem SolveVelocityConstraints_angularImpulse_increment (sqrt : F → F)
    (self : cb2MotorJoint F) (data : cb2SolverData F) :
    (self.SolveVelocityConstraints sqrt data).1.m_angularImpulse
      = cb2Clamp (self.m_angularImpulse + self.solveAngularIncrement data)
        (-(data.step.dt * self.m_maxTorque)) (data.step.dt * self.m_maxTorque) :=
  rfl

/-- C21. Angular mass guard, with the divisions of the angular mass statements
recorded by `angularMassTraced`: for non-negative inverse inertias
`InitVelocityConstraints` stores the value those statements compute; they
divide only when `iA + iB > 0` (every recorded divisor is `iA + iB` and is
positive, hence not zero), and then exactly once, giving
`m_angularMass = 1 / (iA + iB)`, a true inverse; the only other case is
`iA = iB = 0`, where no division is recorded, `m_angularMass = 0`, and a
`SolveVelocityConstraints` call that follows computes the angular impulse
increment `0` before clamping. -/
theorem angularMass_guard (sqrt sin cos : F → F) (epsilon : F)
    (self : cb2MotorJoint F) (data : cb2SolverData F)
    (hA : 0 ≤ self.m_bodyA.m_invI) (hB : 0 ≤ self.m_bodyB.m_invI) :
    (self.InitVelocityConstraints sin cos epsilon data).1.m_angularMass
      = (cb2MotorJoint.angularMassTraced self.m_bodyA.m_invI self.m_bodyB.m_invI).1 ∧
    (self.InitVelocityConstraints sin cos epsilon data).1.m_angularMass
      = (if self.m_bodyA.m_invI + self.m_bodyB.m_invI > 0
          then 1 / (self.m_bodyA.m_invI + self.m_bodyB.m_invI)
          else self.m_bodyA.m_invI + self.m_bodyB.m_invI) ∧
    (∀ d ∈ (cb2MotorJoint.angularMassTraced self.m_bodyA.m_invI self.m_bodyB.m_invI).2,
      d = self.m_bodyA.m_invI + self.m_bodyB.m_invI ∧ 0 < d ∧ d ≠ 0) ∧
    ((cb2MotorJoint.angularMassTraced self.m_bodyA.m_invI self.m_bodyB.m_invI).2 ≠ [] ↔
      0 < self.m_bodyA.m_invI + self.m_bodyB.m_invI) ∧
    (0 < self.m_bodyA.m_invI + self.m_bodyB.m_invI
      ∨ (self.m_bodyA.m_invI = 0 ∧ self.m_bodyB.m_invI = 0)) ∧
    (0 < self.m_bodyA.m_invI + self.m_bodyB.m_invI →
      (cb2MotorJoint.angularMassTraced self.m_bodyA.m_invI self.m_bodyB.m_invI).2
        = [self.m_bodyA.m_invI + self.m_bodyB.m_invI] ∧
      self.m_bodyA.m_invI + self.m_bodyB.m_invI ≠ 0 ∧
      (self.InitVelocityConstraints sin cos epsilon data).1.m_angularMass
        = 1 / (self.m_bodyA.m_invI + self.m_bodyB.m_invI) ∧
      (self.InitVelocityConstraints sin cos epsilon data).1.m_angularMass
        * (self.m_bodyA.m_invI + self.m_bodyB.m_invI) = 1) ∧
    (self.m_bodyA.m_invI = 0 → self.m_bodyB.m_invI = 0 →
      (cb2MotorJoint.angularMassTraced self.m_bodyA.m_invI self.m_bodyB.m_invI).2 = [] ∧
      (self.InitVelocityConstraints sin cos epsilon data).1.m_angularMass = 0 ∧
      ∀ data' : cb2SolverData F,
        (self.InitVelocityConstraints sin cos epsilon data).1.solveAngularIncrement data' = 0 ∧
        ((self.InitVelocityConstraints sin cos epsilon data).1.SolveVelocityConstraints sqrt
            data').1.m_angularImpulse
          = cb2Clamp (self.InitVelocityConstraints sin cos epsilon data).1.m_angularImpulse
              (-(data'.step.dt * self.m_maxTorque)) (data'.step.dt * self.m_maxTorque)) := by
  have hform := InitVelocityConstraints_angularMass sin cos epsilon self data
  have htrace := angularMassTraced_snd self.m_bodyA.m_invI self.m_bodyB.m_invI
  refine ⟨rfl, hform, ?_, ?_, ?_, ?_, ?_⟩
  · intro d hd
    rw [htrace] at hd
    by_cases hpos : self.m_bodyA.m_invI + self.m_bodyB.m_invI > 0
    · rw [if_pos hpos] at hd
      have hdeq : d = self.m_bodyA.m_invI + self.m_bodyB.m_invI := List.mem_singleton.mp hd
      rw [hdeq]
      exact ⟨rfl, hpos, ne_of_gt hpos⟩
    · rw [if_neg hpos] at hd
      exact absurd hd (List.not_mem_nil d)
  · rw [htrace]
    constructor
    · intro hne
      by_contra hpos
      rw [if_neg hpos] at hne
      exact hne rfl
    · intro hpos
      rw [if_pos hpos]
      exact List.cons_ne_nil _ _
  · rcases lt_or_eq_of_le (add_nonneg hA hB) with hpos | hzero
    · exact Or.inl hpos
    · right
      constructor
      · linarith
      · linarith
  · intro hpos
    have hmass : (self.InitVelocityConstraints sin cos epsilon data).1.m_angularMass
        = 1 / (self.m_bodyA.m_invI + self.m_bodyB.m_invI) := by
      rw [hform, if_pos hpos]
    refine ⟨by rw [htrace, if_pos hpos], ne_of_gt hpos, hmass, ?_⟩
    rw [hmass]
    exact one_div_mul_cancel (ne_of_gt hpos)
  · intro hzA hzB
    have hmass : (self.InitVelocityConstraints sin cos epsilon data).1.m_angularMass = 0 := by
      rw [hform, hzA, hzB, add_zero, if_neg (lt_irrefl 0)]
    refine ⟨by rw [htrace, hzA, hzB, add_zero, if_neg (lt_irrefl 0)], hmass, fun data' => ?_⟩
    have hinc : (self.InitVelocityConstraints sin cos epsilon data).1.solveAngularIncrement
        data' = 0 := by
      unfold cb2MotorJoint.solveAngularIncrement
      rw [hmass, neg_zero, zero_mul]
    refine ⟨hinc, ?_⟩
    rw [SolveVelocityConstraints_angularImpulse_increment, hinc, add_zero]
    rfl

/-- Two runs of C21. On the sample joint (`iA = 0`, `iB = 1`) the one division
recorded has the divisor `iA + iB` and the angular mass is its inverse. On the
joint between two bodies that cannot rotate (`iA = iB = 0`) no division is
recorded, the angular mass is `0`, and a solve that follows on the sample data
computes the increment `0`. -/
theorem angularMass_guard_witness :
    (0 ≤ (sampleJoint ℝ).m_bodyA.m_invI ∧ 0 ≤ (sampleJoint ℝ).m_bodyB.m_invI ∧
      0 < (sampleJoint ℝ).m_bodyA.m_invI + (sampleJoint ℝ).m_bodyB.m_invI ∧
      (cb2MotorJoint.angularMassTraced (sampleJoint ℝ).m_bodyA.m_invI
          (sampleJoint ℝ).m_bodyB.m_invI).2
        = [(sampleJoint ℝ).m_bodyA.m_invI + (sampleJoint ℝ).m_bodyB.m_invI] ∧
      ((sampleJoint ℝ).InitVelocityConstraints Real.sin Real.cos 0
          (sampleData ℝ)).1.m_angularMass
        = 1 / ((sampleJoint ℝ).m_bodyA.m_invI + (sampleJoint ℝ).m_bodyB.m_invI)) ∧
    (0 ≤ (fixedJoint ℝ).m_bodyA.m_invI ∧ 0 ≤ (fixedJoint ℝ).m_bodyB.m_invI ∧
      (fixedJoint ℝ).m_bodyA.m_invI = 0 ∧ (fixedJoint ℝ).m_bodyB.m_invI = 0 ∧
      (cb2MotorJoint.angularMassTraced (fixedJoint ℝ).m_bodyA.m_invI
          (fixedJoint ℝ).m_bodyB.m_invI).2 = [] ∧
      ((fixedJoint ℝ).InitVelocityConstraints Real.sin Real.cos 0
          (sampleData ℝ)).1.m_angularMass = 0 ∧
      ((fixedJoint ℝ).InitVelocityConstraints Real.sin Real.cos 0
          (sampleData ℝ)).1.solveAngularIncrement (sampleData ℝ) = 0) :=
  ⟨⟨le_refl 0, zero_le_one, by norm_num [sampleJoint],
    ((angularMass_guard Real.sqrt Real.sin Real.cos 0 (sampleJoint ℝ) (sampleData ℝ)
      (le_refl 0) zero_le_one).2.2.2.2.2.1 (by norm_num [sampleJoint])).1,
    ((angularMass_guard Real.sqrt Real.sin Real.cos 0 (sampleJoint ℝ) (sampleData ℝ)
      (le_refl 0) zero_le_one).2.2.2.2.2.1 (by norm_num [sampleJoint])).2.2.1⟩,
   ⟨le_refl 0, le_refl 0, rfl, rfl,
    ((angularMass_guard Real.sqrt Real.sin Real.cos 0 (fixedJoint ℝ) (sampleData ℝ)
      (le_refl 0) (le_refl 0)).2.2.2.2.2.2 rfl rfl).1,
    ((angularMass_guard Real.sqrt Real.sin Real.cos 0 (fixedJoint ℝ) (sampleData ℝ)
      (le_refl 0) (le_refl 0)).2.2.2.2.2.2 rfl rfl).2.1,
    (((angularMass_guard Real.sqrt Real.sin Real.cos 0 (fixedJoint ℝ) (sampleData ℝ)
      (le_refl 0) (le_refl 0)).2.2.2.2.2.2 rfl rfl).2.2 (sampleData ℝ)).1⟩⟩

/-- C23. A degenerate edge, `v1 = v2`: for every transform and every ray
`RayCast` returns `false` and hands the caller's output back as it was. The
squared length `rr` of the edge is zero, so no path reaches the write of the
output, whatever the normalization of the zero vector `(e.y, -e.x)` yields. -/
theorem RayCast_degenerate_edge (sqrt : F → F) (self : b2EdgeShape F)
    (output : b2RayCastOutput F) (input : b2RayCastInput F) (xf : b2Transform F)
    (childIndex : Int) (hdeg : self.m_vertex1 = self.m_vertex2) :
    self.RayCast sqrt output input xf childIndex = (false, output) := by
  have hrr : b2Dot (self.m_vertex2 - self.m_vertex1) (self.m_vertex2 - self.m_vertex1) = 0 := by
    rw [hdeg]
    simp [b2Dot]
  rw [RayCast_eq, if_pos hrr]
  split_ifs <;> rfl

/-- A run of C23: the edge with both vertices at the origin against the ray
from `(1/2, 1)` to `(1/2, -1)`. -/
theorem RayCast_degenerate_edge_witness :
    ({ unitEdge ℝ with m_vertex2 := ⟨0, 0⟩ } : b2EdgeShape ℝ).m_vertex1
      = ({ unitEdge ℝ with m_vertex2 := ⟨0, 0⟩ } : b2EdgeShape ℝ).m_vertex2 ∧
    ({ unitEdge ℝ with m_vertex2 := ⟨0, 0⟩ } : b2EdgeShape ℝ).RayCast Real.sqrt ⟨⟨7, 7⟩, 7⟩
        ⟨⟨1 / 2, 1⟩, ⟨1 / 2, -1⟩, 1⟩ (identityTransform ℝ) 0
      = (false, ⟨⟨7, 7⟩, 7⟩) :=
  ⟨rfl, RayCast_degenerate_edge Real.sqrt { unitEdge ℝ with m_vertex2 := ⟨0, 0⟩ } ⟨⟨7, 7⟩, 7⟩
    ⟨⟨1 / 2, 1⟩, ⟨1 / 2, -1⟩, 1⟩ (identityTransform ℝ) 0 rfl⟩

/-- The determinant of `K` is `(mA + mB)^2` plus two terms that are
non-negative for non-negative inverse masses and inertias. -/
theorem K_determinant_eq (mA mB iA iB : F) (rA rB : Vec2 F) :
    (cb2MotorJoint.K mA mB iA iB rA rB).determinant
      = (mA + mB) * (mA + mB)
        + (mA + mB) * (iA * (rA.x * rA.x + rA.y * rA.y) + iB * (rB.x * rB.x + rB.y * rB.y))
        + iA * iB * ((rA.x * rB.y - rA.y * rB.x) * (rA.x * rB.y - rA.y * rB.x)) := by
  simp only [Matrix22.determinant, cb2MotorJoint.K]
  ring

/-- C24. For non-negative `mA`, `mB`, `iA`, `iB` and all `rA`, `rB` the matrix
`K` of `InitVelocityConstraints` has `det(K) ≥ (mA + mB)^2`; hence
`det(K) > 0` as soon as one of the bodies has a non-zero inverse mass. -/
theorem K_determinant_ge (mA mB iA iB : F) (rA rB : Vec2 F)
    (hmA : 0 ≤ mA) (hmB : 0 ≤ mB) (hiA : 0 ≤ iA) (hiB : 0 ≤ iB) :
    (mA + mB) ^ 2 ≤ (cb2MotorJoint.K mA mB iA iB rA rB).determinant ∧
    (mA ≠ 0 ∨ mB ≠ 0 → 0 < (cb2MotorJoint.K mA mB iA iB rA rB).determinant) := by
  have hm : 0 ≤ mA + mB := add_nonneg hmA hmB
  have hA : 0 ≤ iA * (rA.x * rA.x + rA.y * rA.y) :=
    mul_nonneg hiA (add_nonneg (mul_self_nonneg _) (mul_self_nonneg _))
  have hB : 0 ≤ iB * (rB.x * rB.x + rB.y * rB.y) :=
    mul_nonneg hiB (add_nonneg (mul_self_nonneg _) (mul_self_nonneg _))
  have h2 : 0 ≤ (mA + mB)
      * (iA * (rA.x * rA.x + rA.y * rA.y) + iB * (rB.x * rB.x + rB.y * rB.y)) :=
    mul_nonneg hm (add_nonneg hA hB)
  have h3 : 0 ≤ iA * iB * ((rA.x * rB.y - rA.y * rB.x) * (rA.x * rB.y - rA.y * rB.x)) :=
    mul_nonneg (mul_nonneg hiA hiB) (mul_self_nonneg _)
  have hge : (mA + mB) ^ 2 ≤ (cb2MotorJoint.K mA mB iA iB rA rB).determinant := by
    rw [K_determinant_eq, pow_two]
    linarith
  refine ⟨hge, fun hne => ?_⟩
  have hpos : 0 < mA + mB := by
    rcases hne with h | h
    · exact add_pos_of_pos_of_nonneg (lt_of_le_of_ne hmA (Ne.symm h)) hmB
    · exact add_pos_of_nonneg_of_pos hmA (lt_of_le_of_ne hmB (Ne.symm h))
  exact lt_of_lt_of_le (pow_pos hpos 2) hge

/-- A run of C24 with `mA = 0`, `mB = 1`, `iA = 0`, `iB = 1` and the anchors
`rA = (1, 2)`, `rB = (3, 4)`. -/
theorem K_determinant_ge_witness :
    ((0 : ℚ) + 1) ^ 2 ≤ (cb2MotorJoint.K (0 : ℚ) 1 0 1 ⟨1, 2⟩ ⟨3, 4⟩).determinant ∧
    ((0 : ℚ) ≠ 0 ∨ (1 : ℚ) ≠ 0 →
      0 < (cb2MotorJoint.K (0 : ℚ) 1 0 1 ⟨1, 2⟩ ⟨3, 4⟩).determinant) :=
  K_determinant_ge (0 : ℚ) 1 0 1 ⟨1, 2⟩ ⟨3, 4⟩ (le_refl 0) zero_le_one (le_refl 0) zero_le_one

/-- The errors `InitVelocityConstraints` computes from the solver positions,
the local centres and the targets. -/
theorem InitVelocityConstraints_errors (sin cos : F → F) (epsilon : F)
    (self : cb2MotorJoint F) (data : cb2SolverData F) :
    (self.InitVelocityConstraints sin cos epsilon data).1.m_linearError
      = (data.positions self.m_bodyB.m_islandIndex).c
        + b2MulRot (cb2Rot sin cos (data.positions self.m_bodyB.m_islandIndex).a)
            (-self.m_bodyB.m_sweep.localCenter)
        - (data.positions self.m_bodyA.m_islandIndex).c
        - b2MulRot (cb2Rot sin cos (data.positions self.m_bodyA.m_islandIndex).a)
            (-self.m_bodyA.m_sweep.localCenter)
        - b2MulRot (cb2Rot sin cos (data.positions self.m_bodyA.m_islandIndex).a)
            self.m_linearOffset ∧
    (self.InitVelocityConstraints sin cos epsilon data).1.m_angularError
      = (data.positions self.m_bodyB.m_islandIndex).a
        - (data.positions self.m_bodyA.m_islandIndex).a - self.m_angularOffset :=
  ⟨rfl, rfl⟩

/-- C22. `Initialize` gives zero initial drift: let the bodies satisfy the
pose relations (the transform rotation of A is `R(angle)` with
`sin^2 + cos^2 = 1`, each world centre is `c = p + R(angle) * localCenter`) and
let the solver positions be the bodies' poses; then a joint constructed from a
definition filled by `Initialize(bodyA, bodyB)` gets `m_linearError = (0, 0)`
and `m_angularError = 0` from `InitVelocityConstraints`. -/
theorem Initialize_zero_drift (sin cos : F → F) (epsilon : F)
    (jd : cb2MotorJointDef F) (bA bB : cb2Body F) (uninit : cb2MotorJoint F)
    (data : cb2SolverData F)
    (hqA : bA.m_xf.q = cb2Rot sin cos bA.m_sweep.a)
    (hrot : sin bA.m_sweep.a * sin bA.m_sweep.a + cos bA.m_sweep.a * cos bA.m_sweep.a = 1)
    (hcA : bA.m_sweep.c
      = bA.m_xf.p + b2MulRot (cb2Rot sin cos bA.m_sweep.a) bA.m_sweep.localCenter)
    (hcB : bB.m_sweep.c
      = bB.m_xf.p + b2MulRot (cb2Rot sin cos bB.m_sweep.a) bB.m_sweep.localCenter)
    (hposA : data.positions bA.m_islandIndex = { c := bA.m_sweep.c, a := bA.m_sweep.a })
    (hposB : data.positions bB.m_islandIndex = { c := bB.m_sweep.c, a := bB.m_sweep.a }) :
    ((cb2MotorJoint.ofDef (jd.Initialize bA bB) uninit).InitVelocityConstraints sin cos epsilon
        data).1.m_linearError = ⟨0, 0⟩ ∧
    ((cb2MotorJoint.ofDef (jd.Initialize bA bB) uninit).InitVelocityConstraints sin cos epsilon
        data).1.m_angularError = 0 := by
  obtain ⟨hlin, hang⟩ := InitVelocityConstraints_errors sin cos epsilon
    (cb2MotorJoint.ofDef (jd.Initialize bA bB) uninit) data
  have hbA : (cb2MotorJoint.ofDef (jd.Initialize bA bB) uninit).m_bodyA = bA := rfl
  have hbB : (cb2MotorJoint.ofDef (jd.Initialize bA bB) uninit).m_bodyB = bB := rfl
  have hoff : (cb2MotorJoint.ofDef (jd.Initialize bA bB) uninit).m_linearOffset
      = b2MulT bA.m_xf.q (bB.m_xf.p - bA.m_xf.p) := rfl
  have haoff : (cb2MotorJoint.ofDef (jd.Initialize bA bB) uninit).m_angularOffset
      = bB.m_sweep.a - bA.m_sweep.a := rfl
  rw [hbA, hbB, hposA, hposB] at hlin hang
  constructor
  · rw [hlin, hoff, hcA, hcB, hqA]
    ext
    · simp only [b2MulRot, b2MulT, cb2Rot, Vec2.add_x, Vec2.sub_x, Vec2.neg_x, Vec2.neg_y,
        Vec2.sub_y]
      linear_combination (-(bB.m_xf.p.x - bA.m_xf.p.x)) * hrot
    · simp only [b2MulRot, b2MulT, cb2Rot, Vec2.add_y, Vec2.sub_y, Vec2.neg_x, Vec2.neg_y,
        Vec2.sub_x]
      linear_combination (-(bB.m_xf.p.y - bA.m_xf.p.y)) * hrot
  · rw [hang, haoff]
    ring

/-- A run of C22: the bodies `poseBodyA` (angle `2`) and `poseBodyB` (angle
`5`) with the real sine and cosine. -/
theorem Initialize_zero_drift_witness :
    Real.sin (poseBodyA Real.sin Real.cos).m_sweep.a
        * Real.sin (poseBodyA Real.sin Real.cos).m_sweep.a
      + Real.cos (poseBodyA Real.sin Real.cos).m_sweep.a
        * Real.cos (poseBodyA Real.sin Real.cos).m_sweep.a = 1 ∧
    ((cb2MotorJoint.ofDef ((sampleDef ℝ).Initialize (poseBodyA Real.sin Real.cos)
        (poseBodyB Real.sin Real.cos)) (sampleJoint ℝ)).InitVelocityConstraints
        Real.sin Real.cos 0 (poseData Real.sin Real.cos)).1.m_linearError = ⟨0, 0⟩ ∧
    ((cb2MotorJoint.ofDef ((sampleDef ℝ).Initialize (poseBodyA Real.sin Real.cos)
        (poseBodyB Real.sin Real.cos)) (sampleJoint ℝ)).InitVelocityConstraints
        Real.sin Real.cos 0 (poseData Real.sin Real.cos)).1.m_angularError = 0 := by
  have hrot : Real.sin (poseBodyA Real.sin Real.cos).m_sweep.a
        * Real.sin (poseBodyA Real.sin Real.cos).m_sweep.a
      + Real.cos (poseBodyA Real.sin Real.cos).m_sweep.a
        * Real.cos (poseBodyA Real.sin Real.cos).m_sweep.a = 1 := by
    rw [← sq, ← sq]
    exact Real.sin_sq_add_cos_sq _
  exact ⟨hrot, Initialize_zero_drift Real.sin Real.cos 0 (sampleDef ℝ)
    (poseBodyA Real.sin Real.cos) (poseBodyB Real.sin Real.cos) (sampleJoint ℝ)
    (poseData Real.sin Real.cos) rfl hrot rfl rfl
    (by simp [poseData, poseBodyA, cb2Body.atPose])
    (by simp [poseData, poseBodyB, cb2Body.atPose])⟩

/-- A convex combination of two numbers lies between their minimum and their
maximum. -/
theorem min_le_convex_le_max (a b s : F) (hs0 : 0 ≤ s) (hs1 : s ≤ 1) :
    min a b ≤ (1 - s) * a + s * b ∧ (1 - s) * a + s * b ≤ max a b := by
  have h1 : 0 ≤ 1 - s := sub_nonneg.mpr hs1
  constructor
  · have ha : (1 - s) * min a b ≤ (1 - s) * a := mul_le_mul_of_nonneg_left (min_le_left a b) h1
    have hb : s * min a b ≤ s * b := mul_le_mul_of_nonneg_left (min_le_right a b) hs0
    linarith
  · have ha : (1 - s) * a ≤ (1 - s) * max a b := mul_le_mul_of_nonneg_left (le_max_left a b) h1
    have hb : s * b ≤ s * max a b := mul_le_mul_of_nonneg_left (le_max_right a b) hs0
    linarith

/-- A coordinate of a point within distance `r` of a point `q` is within `r`
of the coordinate of `q`. -/
theorem coord_within_of_sq_le (dx dy r : F) (hr : 0 ≤ r) (h : dx * dx + dy * dy ≤ r * r) :
    -r ≤ dx ∧ dx ≤ r := by
  have hdx : dx * dx ≤ r * r := le_trans (le_add_of_nonneg_right (mul_self_nonneg dy)) h
  exact abs_le_of_sq_le_sq' (by rw [sq, sq]; exact hdx) hr

/-- C25. `ComputeAABB` encloses the shape: for a skin radius `r ≥ 0` (and any
transform) the lower bound is below the upper bound in both coordinates, and
every point `p` within Euclidean distance `r` of a point
`(1 - s) * b2Mul(xf, v1) + s * b2Mul(xf, v2)`, `0 ≤ s ≤ 1`, of the transformed
segment lies in the box. The distance bound is taken both in squared form and
as `length(p - q) ≤ r` with an exact square root. -/
theorem ComputeAABB_encloses (self : b2EdgeShape F) (xf : b2Transform F) (childIndex : Int)
    (hr : 0 ≤ self.m_radius) :
    (self.ComputeAABB xf childIndex).lowerBound.x ≤ (self.ComputeAABB xf childIndex).upperBound.x ∧
    (self.ComputeAABB xf childIndex).lowerBound.y ≤ (self.ComputeAABB xf childIndex).upperBound.y ∧
    (∀ (s : F) (p : Vec2 F), 0 ≤ s → s ≤ 1 →
      (p - ((1 - s) • b2Mul xf self.m_vertex1 + s • b2Mul xf self.m_vertex2)).lengthSquared
        ≤ self.m_radius * self.m_radius →
      (self.ComputeAABB xf childIndex).lowerBound.x ≤ p.x ∧
      p.x ≤ (self.ComputeAABB xf childIndex).upperBound.x ∧
      (self.ComputeAABB xf childIndex).lowerBound.y ≤ p.y ∧
      p.y ≤ (self.ComputeAABB xf childIndex).upperBound.y) ∧
    (∀ (sqrt : F → F), ExactSqrt sqrt → ∀ (s : F) (p : Vec2 F), 0 ≤ s → s ≤ 1 →
      Vec2.length sqrt (p - ((1 - s) • b2Mul xf self.m_vertex1 + s • b2Mul xf self.m_vertex2))
        ≤ self.m_radius →
      (self.ComputeAABB xf childIndex).lowerBound.x ≤ p.x ∧
      p.x ≤ (self.ComputeAABB xf childIndex).upperBound.x ∧
      (self.ComputeAABB xf childIndex).lowerBound.y ≤ p.y ∧
      p.y ≤ (self.ComputeAABB xf childIndex).upperBound.y) := by
  have hlx : (self.ComputeAABB xf childIndex).lowerBound.x
      = min (b2Mul xf self.m_vertex1).x (b2Mul xf self.m_vertex2).x - self.m_radius := rfl
  have hly : (self.ComputeAABB xf childIndex).lowerBound.y
      = min (b2Mul xf self.m_vertex1).y (b2Mul xf self.m_vertex2).y - self.m_radius := rfl
  have hux : (self.ComputeAABB xf childIndex).upperBound.x
      = max (b2Mul xf self.m_vertex1).x (b2Mul xf self.m_vertex2).x + self.m_radius := rfl
  have huy : (self.ComputeAABB xf childIndex).upperBound.y
      = max (b2Mul xf self.m_vertex1).y (b2Mul xf self.m_vertex2).y + self.m_radius := rfl
  have hsq : ∀ (s : F) (p : Vec2 F), 0 ≤ s → s ≤ 1 →
      (p - ((1 - s) • b2Mul xf self.m_vertex1 + s • b2Mul xf self.m_vertex2)).lengthSquared
        ≤ self.m_radius * self.m_radius →
      (self.ComputeAABB xf childIndex).lowerBound.x ≤ p.x ∧
      p.x ≤ (self.ComputeAABB xf childIndex).upperBound.x ∧
      (self.ComputeAABB xf childIndex).lowerBound.y ≤ p.y ∧
      p.y ≤ (self.ComputeAABB xf childIndex).upperBound.y := by
    intro s p hs0 hs1 hdist
    have hd : (p.x - ((1 - s) * (b2Mul xf self.m_vertex1).x + s * (b2Mul xf self.m_vertex2).x))
          * (p.x - ((1 - s) * (b2Mul xf self.m_vertex1).x + s * (b2Mul xf self.m_vertex2).x))
        + (p.y - ((1 - s) * (b2Mul xf self.m_vertex1).y + s * (b2Mul xf self.m_vertex2).y))
          * (p.y - ((1 - s) * (b2Mul xf self.m_vertex1).y + s * (b2Mul xf self.m_vertex2).y))
        ≤ self.m_radius * self.m_radius := hdist
    obtain ⟨hx1, hx2⟩ := coord_within_of_sq_le _ _ _ hr hd
    obtain ⟨hy1, hy2⟩ := coord_within_of_sq_le _ _ _ hr (by rw [add_comm]; exact hd)
    obtain ⟨hcx1, hcx2⟩ := min_le_convex_le_max (b2Mul xf self.m_vertex1).x
      (b2Mul xf self.m_vertex2).x s hs0 hs1
    obtain ⟨hcy1, hcy2⟩ := min_le_convex_le_max (b2Mul xf self.m_vertex1).y
      (b2Mul xf self.m_vertex2).y s hs0 hs1
    rw [hlx, hly, hux, huy]
    refine ⟨?_, ?_, ?_, ?_⟩ <;> linarith
  refine ⟨?_, ?_, hsq, ?_⟩
  · rw [hlx, hux]
    have := min_le_max (a := (b2Mul xf self.m_vertex1).x) (b := (b2Mul xf self.m_vertex2).x)
    linarith
  · rw [hly, huy]
    have := min_le_max (a := (b2Mul xf self.m_vertex1).y) (b := (b2Mul xf self.m_vertex2).y)
    linarith
  · intro sqrt hsqrt s p hs0 hs1 hlen
    apply hsq s p hs0 hs1
    have hnn : 0 ≤ (p - ((1 - s) • b2Mul xf self.m_vertex1
        + s • b2Mul xf self.m_vertex2)).lengthSquared :=
      add_nonneg (mul_self_nonneg _) (mul_self_nonneg _)
    obtain ⟨h0, hmul⟩ := hsqrt _ hnn
    have hlen2 : sqrt (p - ((1 - s) • b2Mul xf self.m_vertex1
        + s • b2Mul xf self.m_vertex2)).lengthSquared ≤ self.m_radius := hlen
    rw [← hmul]
    exact mul_le_mul hlen2 hlen2 h0 hr

/-- A run of C25: the unit edge with skin radius `1/100` at the identity
transform; the point `(1/2, 1/100)` lies at distance `1/100` from the midpoint
of the segment. -/
theorem ComputeAABB_encloses_witness :
    (0 : ℚ) ≤ ({ unitEdge ℚ with m_radius := 1 / 100 } : b2EdgeShape ℚ).m_radius ∧
    (({ unitEdge ℚ with m_radius := 1 / 100 } : b2EdgeShape ℚ).ComputeAABB
        (identityTransform ℚ) 0).lowerBound.x ≤ (1 / 2 : ℚ) ∧
    (1 / 2 : ℚ) ≤ (({ unitEdge ℚ with m_radius := 1 / 100 } : b2EdgeShape ℚ).ComputeAABB
        (identityTransform ℚ) 0).upperBound.x ∧
    (({ unitEdge ℚ with m_radius := 1 / 100 } : b2EdgeShape ℚ).ComputeAABB
        (identityTransform ℚ) 0).lowerBound.y ≤ (1 / 100 : ℚ) ∧
    (1 / 100 : ℚ) ≤ (({ unitEdge ℚ with m_radius := 1 / 100 } : b2EdgeShape ℚ).ComputeAABB
        (identityTransform ℚ) 0).upperBound.y :=
  ⟨by norm_num [unitEdge],
   (ComputeAABB_encloses ({ unitEdge ℚ with m_radius := 1 / 100 } : b2EdgeShape ℚ)
     (identityTransform ℚ) 0 (by norm_num [unitEdge])).2.2.1 (1 / 2) ⟨1 / 2, 1 / 100⟩
     (by norm_num) (by norm_num)
     (by norm_num [unitEdge, identityTransform, b2Mul, Vec2.lengthSquared])⟩

/-- With the identity as rounding function the rounded `RayCast` is the exact
one. -/
theorem RayCastFl_id (sqrt : F → F) (self : b2EdgeShape F) (output : b2RayCastOutput F)
    (input : b2RayCastInput F) (xf : b2Transform F) (childIndex : Int) :
    self.RayCastFl id sqrt output input xf childIndex
      = self.RayCast sqrt output input xf childIndex :=
  rfl

/-- The first guard of `RayCast` in rounded arithmetic: a computed denominator
equal to zero returns `false` with the output untouched. -/
theorem RayCastFl_of_denominator_zero (fl sqrt : F → F) (self : b2EdgeShape F)
    (output : b2RayCastOutput F) (input : b2RayCastInput F) (xf : b2Transform F)
    (childIndex : Int) (h : self.rayDenominatorFl fl sqrt input xf = 0) :
    self.RayCastFl fl sqrt output input xf childIndex = (false, output) :=
  if_pos h

/-- The computed denominator written out in the computed `e` and `d`. -/
theorem rayDenominatorFl_eq (fl sqrt : F → F) (self : b2EdgeShape F)
    (input : b2RayCastInput F) (xf : b2Transform F) :
    self.rayDenominatorFl fl sqrt input xf
      = fl (fl (fl ((self.edgeFl fl).y
              * fl (1 / Vec2.lengthFl fl sqrt ⟨(self.edgeFl fl).y, -(self.edgeFl fl).x⟩))
            * (rayLocalDFl fl input xf).x)
          + fl (fl (-(self.edgeFl fl).x
              * fl (1 / Vec2.lengthFl fl sqrt ⟨(self.edgeFl fl).y, -(self.edgeFl fl).x⟩))
            * (rayLocalDFl fl input xf).y)) :=
  rfl

/-- Binary32 rounding and square root at a few known values: `1/3`, `1/10`,
`16777217 = 2^24 + 1` (a tie, rounded to even), `√2` and `√58`. -/
theorem fl32_samples :
    fl32 (1 / 3) = 11184811 / 33554432 ∧ fl32 (1 / 10) = 13421773 / 134217728 ∧
    fl32 16777217 = 16777216 ∧ fl32 16777219 = 16777220 ∧ fl32 (-5 / 2) = -5 / 2 ∧
    sqrt32 2 = 11863283 / 8388608 ∧ sqrt32 58 = 7985717 / 1048576 ∧ sqrt32 4 = 2 := by
  decide!

/-- C6, the claim as stated fails in binary32 arithmetic: the ray from `(0, 0)`
to `(3, 7)` lies along the edge `(0,0)-(3,7)` (`cross(p2 - p1, v2 - v1) = 0`,
for the exact and for the computed `d` and `e` alike),
but the normal is rounded to `(7710347 / 2^23, -6608869 / 2^24)`, the computed
denominator is `-2^-22`, not `0`, and `RayCast` returns `true` with the
fraction `0` and writes the output. -/
theorem RayCast_along_slanted_edge_not_rejected :
    cb2Cross (rayLocalD ⟨⟨0, 0⟩, ⟨3, 7⟩, 1⟩ (identityTransform ℚ))
        (slantedEdge.m_vertex2 - slantedEdge.m_vertex1) = 0 ∧
    cb2Cross (rayLocalDFl fl32 ⟨⟨0, 0⟩, ⟨3, 7⟩, 1⟩ (identityTransform ℚ))
        (slantedEdge.edgeFl fl32) = 0 ∧
    slantedEdge.rayDenominatorFl fl32 sqrt32 ⟨⟨0, 0⟩, ⟨3, 7⟩, 1⟩ (identityTransform ℚ)
      = -1 / 4194304 ∧
    slantedEdge.RayCastFl fl32 sqrt32 ⟨⟨9, 9⟩, 9⟩ ⟨⟨0, 0⟩, ⟨3, 7⟩, 1⟩ (identityTransform ℚ) 0
      = (true, ⟨⟨7710347 / 8388608, -6608869 / 16777216⟩, 0⟩) ∧
    slantedEdge.RayCastFl fl32 sqrt32 ⟨⟨9, 9⟩, 9⟩ ⟨⟨0, 0⟩, ⟨3, 7⟩, 1⟩ (identityTransform ℚ) 0
      ≠ (false, ⟨⟨9, 9⟩, 9⟩) := by
  decide!

/-- C6, amended. Under any rounding `fl` of the arithmetic, `RayCast` returns
`false` and hands the output back untouched whenever the denominator it
computes is zero. With `fl 0 = 0` that is the case for every ray of zero
length (`p1 = p2`) and for every ray along an edge that lies on a coordinate
axis of its frame (computed `e.y = 0` and `d.y = 0`, or `e.x = 0` and
`d.x = 0`); in exact arithmetic (`fl = id`) it is the case for every ray with
`cross(p2 - p1, v2 - v1) = 0`. -/
theorem RayCastFl_rejects_zero_denominator (fl sqrt : F → F) (self : b2EdgeShape F)
    (output : b2RayCastOutput F) (input : b2RayCastInput F) (xf : b2Transform F)
    (childIndex : Int) :
    (self.rayDenominatorFl fl sqrt input xf = 0 →
      self.RayCastFl fl sqrt output input xf childIndex = (false, output)) ∧
    (fl 0 = 0 → input.p1 = input.p2 →
      self.RayCastFl fl sqrt output input xf childIndex = (false, output)) ∧
    (fl 0 = 0 → (self.edgeFl fl).y = 0 → (rayLocalDFl fl input xf).y = 0 →
      self.RayCastFl fl sqrt output input xf childIndex = (false, output)) ∧
    (fl 0 = 0 → (self.edgeFl fl).x = 0 → (rayLocalDFl fl input xf).x = 0 →
      self.RayCastFl fl sqrt output input xf childIndex = (false, output)) ∧
    (cb2Cross (rayLocalD input xf) (self.m_vertex2 - self.m_vertex1) = 0 →
      self.RayCastFl id sqrt output input xf childIndex = (false, output)) := by
  refine ⟨RayCastFl_of_denominator_zero fl sqrt self output input xf childIndex, ?_, ?_, ?_, ?_⟩
  · intro hfl hp
    apply RayCastFl_of_denominator_zero
    have hd : rayLocalDFl fl input xf = ⟨0, 0⟩ := by
      unfold rayLocalDFl
      rw [hp]
      simp only [Vec2.subFl, sub_self, hfl]
    rw [rayDenominatorFl_eq, hd]
    simp only [mul_zero, hfl, add_zero]
  · intro hfl he hd
    apply RayCastFl_of_denominator_zero
    rw [rayDenominatorFl_eq, he, hd]
    simp only [zero_mul, mul_zero, hfl, add_zero]
  · intro hfl he hd
    apply RayCastFl_of_denominator_zero
    rw [rayDenominatorFl_eq, he, hd]
    simp only [neg_zero, zero_mul, mul_zero, hfl, add_zero]
  · intro hpar
    rw [RayCastFl_id]
    exact RayCast_parallel_rejected sqrt self output input xf childIndex hpar

/-- A run of the amended C6 in binary32 arithmetic: the ray of zero length at
`(1, 2)` against the edge `(0,0)-(3,7)`. -/
theorem RayCastFl_rejects_zero_denominator_witness :
    fl32 0 = 0 ∧
    slantedEdge.RayCastFl fl32 sqrt32 ⟨⟨9, 9⟩, 9⟩ ⟨⟨1, 2⟩, ⟨1, 2⟩, 1⟩ (identityTransform ℚ) 0
      = (false, ⟨⟨9, 9⟩, 9⟩) :=
  ⟨by decide!,
   (RayCastFl_rejects_zero_denominator fl32 sqrt32 slantedEdge ⟨⟨9, 9⟩, 9⟩
     ⟨⟨1, 2⟩, ⟨1, 2⟩, 1⟩ (identityTransform ℚ) 0).2.1 (by decide!) rfl⟩

end Field

/-- C17. `SolvePositionConstraints` returns `true` for every joint state and
every solver data, and hands back the joint and the position and velocity
arrays as they were. -/
theorem SolvePositionConstraints_is_noop {F : Type} (self : cb2MotorJoint F) (data : cb2SolverData F) :
    (self.SolvePositionConstraints data).1 = true ∧
    (self.SolvePositionConstraints data).2.1 = self ∧
    (self.SolvePositionConstraints data).2.2.positions = data.positions ∧
    (self.SolvePositionConstraints data).2.2.velocities = data.velocities ∧
    (self.SolvePositionConstraints data).2.2.step = data.step :=
  ⟨rfl, rfl, rfl, rfl, rfl⟩

end CinderBox2D
